import Mathlib

/-!
# Offline cache router: `frontend/public/sw.js`

A shallow embedding of the service worker of the repository and the proofs of
the properties its specification states about it.

The worker's own code (the event listeners, `handleApiRequest`,
`handleStaticRequest` and the constants) is translated line by line.  The
browser primitives it calls are not repository code; they are modelled after the
standards that define them and after what engines do where they differ, to the
extent the worker's control flow observes them:

* **URLs**: a URL is its origin (scheme and authority), path, query string and
  fragment; `request.url` is the whole of it, fragment included; the Cache API
  compares URLs without their fragments and stores only `http` and `https`
  URLs.
* **Cache Storage** (Service Workers, section "Cache"): `caches` is an *ordered*
  map from partition names to caches, in creation order; a cache is an ordered
  list of entries keyed by the request URL without its fragment; `caches.open`
  creates a missing partition at the end; `cache.put` rejects with a
  `TypeError` for a URL that is not `http(s)`, for a method other than `GET`,
  for a response with status `206` and for a response with a `Vary: *` header,
  and otherwise replaces the entry of the same URL; `cache.addAll` fetches every
  request and stores all of the responses or none, rejecting in the same cases
  and when a fetch rejects or is answered with a non-OK status; `caches.match`
  searches the partitions in order and answers the first hit, and never matches
  a request whose method is not `GET`; `caches.delete` removes a partition.
* **Fetch**: `fetch` either rejects with an error or resolves with a response of
  any status; `response.ok` is `200 ≤ status ≤ 299`.  A `Response` object handed
  out by `fetch` has a `Headers` object whose guard is `immutable`;
  `Response.clone()` keeps the guard; `Headers.set` throws a `TypeError` on an
  immutable guard.  A response built with `new Response(..)` has the guard
  `response` and may be modified.
* **Engines**: by the Fetch standard a response handed out by the Cache API has
  immutable headers too, and some engines (undici) keep that guard; Chromium
  hands cached responses out with mutable headers.  The guard an engine gives
  to cached responses is a parameter of the world (`World.cachedGuard`).
* **Concurrency inside one event**: the install listener starts one promise
  chain per bootstrap endpoint; their puts land in the order in which the
  fetches settle, which is a parameter of the world (`World.latency`).

Outside the model: request headers (every request carries the same ones, so a
stored response with a `Vary` header other than `*` matches), storage quota, and
the interleaving of concurrent events.
-/

namespace ServiceWorker

/-! ## Strings -/

/-- JavaScript `s.startsWith(p)`. -/
def startsWith (s p : String) : Bool := p.data.isPrefixOf s.data

/-- Substring search on character lists, the worker of `includes`. -/
def includesChars : List Char → List Char → Bool
  | [], needle => needle.isEmpty
  | c :: cs, needle => needle.isPrefixOf (c :: cs) || includesChars cs needle

/-- JavaScript `s.includes(p)`. -/
def includes (s p : String) : Bool := includesChars s.data p.data

/-! ## JSON values and `JSON.stringify` -/

/-- The JSON values the worker builds. -/
inductive Json where
  | bool (b : Bool)
  | str (s : String)
  | arr (xs : List Json)
  | obj (fields : List (String × Json))

/-- The double-quote character. -/
def dquote : Char := Char.ofNat 34

/-- The backslash character. -/
def backslash : Char := Char.ofNat 92

/-- Escaping of a string's characters inside a JSON string literal (quote and
backslash; the worker's strings hold no control characters). -/
def jsonEscape : List Char → List Char
  | [] => []
  | c :: cs =>
    if c = dquote ∨ c = backslash then backslash :: c :: jsonEscape cs
    else c :: jsonEscape cs

/-- A JSON string literal. -/
def jsonQuote (s : String) : String :=
  String.mk (dquote :: jsonEscape s.data ++ [dquote])

mutual
/-- JavaScript `JSON.stringify(v)` (no indentation). -/
def Json.stringify : Json → String
  | .bool true => "true"
  | .bool false => "false"
  | .str s => jsonQuote s
  | .arr xs => "[" ++ Json.stringifyItems xs ++ "]"
  | .obj fs => "\x7b" ++ Json.stringifyFields fs ++ "\x7d"
/-- The comma-separated items of an array. -/
def Json.stringifyItems : List Json → String
  | [] => ""
  | [x] => x.stringify
  | x :: y :: xs => x.stringify ++ "," ++ Json.stringifyItems (y :: xs)
/-- The comma-separated members of an object. -/
def Json.stringifyFields : List (String × Json) → String
  | [] => ""
  | [(k, v)] => jsonQuote k ++ ":" ++ v.stringify
  | (k, v) :: f :: fs =>
    jsonQuote k ++ ":" ++ v.stringify ++ "," ++ Json.stringifyFields (f :: fs)
end

/-! ## Requests, responses, errors -/

/-- A parsed URL, as `new URL(request.url)` exposes it: the origin (scheme and
authority, such as `https://app.example`), the path, the query string (empty or
starting with `?`) and the fragment (empty or starting with `#`). -/
structure Url where
  origin : String
  pathname : String
  search : String
  hash : String
  deriving DecidableEq, Repr

/-- The serialised URL, `request.url`: the fragment is part of it. -/
def Url.href (u : Url) : String := u.origin ++ u.pathname ++ u.search ++ u.hash

/-- The URL without its fragment: what the Cache API compares and keys its
entries by. -/
def Url.withoutFragment (u : Url) : Url := { u with hash := "" }

/-- Whether the scheme of the URL is `http` or `https`, the schemes the Cache
API stores. -/
def Url.isHttp (u : Url) : Bool :=
  startsWith u.origin "http://" || startsWith u.origin "https://"

/-- A `Request`: URL, method, destination and cache mode. -/
structure Request where
  url : Url
  method : String
  destination : String
  cache : String
  deriving DecidableEq, Repr

/-- A JavaScript error value: its `name` and `message`. -/
structure JsError where
  name : String
  message : String
  deriving DecidableEq, Repr

/-- The guard of a `Headers` object (Fetch, "headers guard"); only the two
guards that occur on responses. -/
inductive HeadersGuard where
  | immutable
  | response
  deriving DecidableEq, Repr

/-- The stored part of a response: status, header list, body. -/
structure ResponseData where
  status : Nat
  headers : List (String × String)
  body : String
  deriving DecidableEq, Repr

/-- A `Response` object: the response and the guard of its headers. -/
structure Response where
  data : ResponseData
  guard : HeadersGuard
  deriving DecidableEq, Repr

/-- JavaScript `response.ok`. -/
def Response.ok (r : Response) : Bool :=
  decide (200 ≤ r.data.status) && decide (r.data.status ≤ 299)

/-- JavaScript `response.clone()`: same response, same headers guard. -/
def Response.clone (r : Response) : Response :=
  { data := r.data, guard := r.guard }

/-- Header names compare case-insensitively. -/
def sameHeaderName (a b : String) : Bool :=
  a.data.map Char.toLower == b.data.map Char.toLower

/-- JavaScript `headers.get(name)`. -/
def headersGet : List (String × String) → String → Option String
  | [], _ => none
  | (n, v) :: rest, name =>
    if sameHeaderName n name then some v else headersGet rest name

/-- The header list after `set(name, value)` on a mutable `Headers`. -/
def headersSetList (hs : List (String × String)) (name value : String) :
    List (String × String) :=
  hs.filter (fun h => !sameHeaderName h.1 name) ++ [(name, value)]

/-- The `TypeError` of a write to immutable headers. -/
def immutableHeadersError : JsError :=
  { name := "TypeError", message := "Headers are immutable" }

/-- JavaScript `response.headers.set(name, value)`: throws on an immutable
guard, otherwise replaces the header. -/
def Response.headersSet (r : Response) (name value : String) :
    Except JsError Response :=
  match r.guard with
  | .immutable => .error immutableHeadersError
  | .response =>
    .ok { r with data := { r.data with headers := headersSetList r.data.headers name value } }

/-- JavaScript `new Response(body, { status, headers })`. -/
def Response.new (body : String) (status : Nat) (headers : List (String × String)) :
    Response :=
  { data := { status := status, headers := headers, body := body }, guard := .response }

/-- The elements of a comma-separated header value. -/
def splitComma : List Char → List (List Char)
  | [] => [[]]
  | c :: cs =>
    if c = Char.ofNat 44 then [] :: splitComma cs
    else
      match splitComma cs with
      | [] => [[c]]
      | x :: xs => (c :: x) :: xs

/-- Space and tab, the whitespace around the elements of a header value. -/
def isHeaderSpace (c : Char) : Bool := c = Char.ofNat 32 || c = Char.ofNat 9

/-- An element of a header value without the whitespace around it. -/
def trimHeaderSpace (cs : List Char) : List Char :=
  ((cs.dropWhile isHeaderSpace).reverse.dropWhile isHeaderSpace).reverse

/-- Whether a header list holds a `Vary` header with the field value `*`. -/
def varyStar (headers : List (String × String)) : Bool :=
  headers.any (fun h => sameHeaderName h.1 "Vary" &&
    (splitComma h.2.data).any (fun v => trimHeaderSpace v == [Char.ofNat 42]))

/-- The responses the Cache API stores: status other than `206` and no
`Vary: *` header. -/
def ResponseData.storable (d : ResponseData) : Bool :=
  !decide (d.status = 206) && !varyStar d.headers

/-! ## Cache storage -/

/-- One cache partition: entries in insertion order, keyed by request URL. -/
abbrev Cache := List (Url × ResponseData)

/-- The first entry of a cache for a URL. -/
def Cache.lookup : Cache → Url → Option ResponseData
  | [], _ => none
  | (k, v) :: rest, u => if k = u then some v else Cache.lookup rest u

/-- The cache after a put: the entry of the same URL is replaced. -/
def Cache.insert (c : Cache) (u : Url) (v : ResponseData) : Cache :=
  c.filter (fun e => !decide (e.1 = u)) ++ [(u, v)]

/-- The cache storage `caches`: named partitions in creation order. -/
abbrev CacheStorage := List (String × Cache)

/-- JavaScript `caches.keys()`. -/
def CacheStorage.keys (s : CacheStorage) : List String := s.map (fun p => p.1)

/-- JavaScript `caches.has(name)`. -/
def CacheStorage.has (s : CacheStorage) (name : String) : Bool :=
  s.any (fun p => decide (p.1 = name))

/-- JavaScript `caches.open(name)`: a missing partition is created, empty, at
the end. -/
def CacheStorage.opened (s : CacheStorage) (name : String) : CacheStorage :=
  if s.has name then s else s ++ [(name, [])]

/-- The contents of the partition of a name (empty when there is none). -/
def CacheStorage.partition : CacheStorage → String → Cache
  | [], _ => []
  | (n, c) :: rest, name => if n = name then c else CacheStorage.partition rest name

/-- JavaScript `caches.delete(name)`. -/
def CacheStorage.delete (s : CacheStorage) (name : String) : CacheStorage :=
  s.filter (fun p => decide (p.1 ≠ name))

/-- The storage after a successful put into the partition of a name. -/
def CacheStorage.insert (s : CacheStorage) (name : String) (u : Url) (v : ResponseData) :
    CacheStorage :=
  s.map (fun p => if p.1 = name then (p.1, Cache.insert p.2 u v) else p)

/-- The first hit for a URL over all partitions, in storage order. -/
def CacheStorage.lookup : CacheStorage → Url → Option ResponseData
  | [], _ => none
  | (_, c) :: rest, u =>
    match Cache.lookup c u with
    | some v => some v
    | none => CacheStorage.lookup rest u

/-- The `TypeError` of `cache.put` and `cache.addAll`. -/
def cacheTypeError : JsError :=
  { name := "TypeError", message := "Cache request or response not storable" }

/-- What `cache.put` requires of the request and the response: an `http(s)`
URL, the method `GET`, a status other than `206` and no `Vary: *` header. -/
def cacheAccepts (request : Request) (d : ResponseData) : Bool :=
  request.url.isHttp && decide (request.method = "GET") && d.storable

/-- JavaScript `cache.put(request, response)` on the partition of a name:
rejects what the cache does not accept, otherwise stores the response under the
request URL without its fragment. -/
def cachePut (s : CacheStorage) (name : String) (request : Request) (response : Response) :
    Except JsError CacheStorage :=
  if cacheAccepts request response.data then
    .ok (s.insert name request.url.withoutFragment response.data)
  else .error cacheTypeError

/-- A `cache.put(..)` whose rejection the caller does not act on (the promise is
dropped, or its rejection is swallowed): the storage after it, unchanged when
the put rejects. -/
def cachePutDetached (s : CacheStorage) (name : String) (request : Request)
    (response : Response) : CacheStorage :=
  match cachePut s name request response with
  | .ok s1 => s1
  | .error _ => s

/-! ## The world the worker runs in -/

/-- The environment of one event: where the worker is served from, over `https`
or over `http` (a service worker has no other scheme) and from which host; the
network, which answers a request with a rejection or with a response of any
status; the guard the engine gives to the headers of a response handed out by
the Cache API (`immutable` by the Fetch standard, `response` in Chromium); and
the time the network takes to settle a request, which orders the chains that
run concurrently. -/
structure World where
  secure : Bool
  host : String
  net : Request → Except JsError ResponseData
  cachedGuard : HeadersGuard
  latency : Request → Nat

/-- The origin the worker is served from, the base of the relative URLs it
names. -/
def World.origin (w : World) : String :=
  (if w.secure then "https://" else "http://") ++ w.host

/-- The URL of a path the worker names, resolved against its own origin (every
such string in the source is an absolute path without query or fragment). -/
def World.resolve (w : World) (path : String) : Url :=
  { origin := w.origin, pathname := path, search := "", hash := "" }

/-- JavaScript `new Request(path)`: a `GET` request with default settings. -/
def World.request (w : World) (path : String) : Request :=
  { url := w.resolve path, method := "GET", destination := "", cache := "default" }

/-- JavaScript `new Request(path, {cache: 'reload'})`. -/
def World.reloadRequest (w : World) (path : String) : Request :=
  { url := w.resolve path, method := "GET", destination := "", cache := "reload" }

/-- JavaScript `fetch(request)`: the response object carries immutable
headers. -/
def World.fetch (w : World) (request : Request) : Except JsError Response :=
  match w.net request with
  | .ok d => .ok { data := d, guard := .immutable }
  | .error e => .error e

/-- JavaScript `caches.match(request)`: the first hit over all partitions for
the request URL without its fragment, handed out with the guard of the engine;
`undefined` for a method other than `GET`. -/
def cachesMatch (w : World) (s : CacheStorage) (request : Request) : Option Response :=
  if request.method = "GET" then
    (s.lookup request.url.withoutFragment).map (fun d => { data := d, guard := w.cachedGuard })
  else none

/-! ## Constants of `sw.js` (lines 2-21) -/

/-- The name of the static partition. -/
def CACHE_NAME : String := "peptideprotocols-v1"

/-- The name of the api partition. -/
def API_CACHE_NAME : String := "peptideprotocols-api-v1"

/-- The static manifest. -/
def STATIC_CACHE_URLS : List String :=
  ["/", "/static/js/bundle.js", "/static/css/main.css", "/manifest.json",
   "/logo192.png", "/logo512.png"]

/-- The API bootstrap list. -/
def API_CACHE_URLS : List String :=
  ["/api/peptides", "/api/peptides/categories", "/api/protocols", "/api/protocols/enhanced"]

/-! ## Request handlers (lines 109-184) -/

/-- What a handler leaves behind: the settled value of its promise, the cache
storage afterwards, and the requests it sent to the network, in order. -/
structure Outcome where
  result : Except JsError Response
  storage : CacheStorage
  fetched : List Request

/-- The body `{offline: true, message: .., data: []}` of the offline answer. -/
def offlinePayload : Json :=
  .obj [("offline", .bool true),
        ("message", .str "Offline mode - limited functionality"),
        ("data", .arr [])]

/-- The synthesized offline response of lines 137-147. -/
def offlineResponse : Response :=
  Response.new offlinePayload.stringify 200 [("Content-Type", "application/json")]

/-- The error thrown at line 122. -/
def notOkError : JsError := { name := "Error", message := "Network response not ok" }

/-- The `catch` block of `handleApiRequest` (lines 123-151), entered with the
error caught. -/
def handleApiRequestCatch (w : World) (s : CacheStorage) (request : Request)
    (error : JsError) : Except JsError Response :=
  match cachesMatch w s request with
  | some cachedResponse =>
    let response := cachedResponse.clone
    match response.headersSet "X-Served-From" "cache-offline" with
    | .ok marked => .ok marked
    | .error thrown => .error thrown
  | none =>
    if includes request.url.href "/api/peptides" then .ok offlineResponse
    else .error error

/-- The function `handleApiRequest` (lines 110-152): network first. -/
def handleApiRequest (w : World) (s : CacheStorage) (request : Request) : Outcome :=
  match w.fetch request with
  | .ok networkResponse =>
    if networkResponse.ok then
      let s1 := s.opened API_CACHE_NAME
      let s2 := cachePutDetached s1 API_CACHE_NAME request networkResponse.clone
      { result := .ok networkResponse, storage := s2, fetched := [request] }
    else
      { result := handleApiRequestCatch w s request notOkError, storage := s,
        fetched := [request] }
  | .error error =>
    { result := handleApiRequestCatch w s request error, storage := s, fetched := [request] }

/-- The `catch` block of `handleStaticRequest` (lines 173-183). -/
def handleStaticRequestCatch (w : World) (s : CacheStorage) (request : Request)
    (error : JsError) : Except JsError Response :=
  if request.destination = "document" then
    match cachesMatch w s (w.request "/") with
    | some indexResponse => .ok indexResponse
    | none => .error error
  else .error error

/-- The function `handleStaticRequest` (lines 155-184): cache first. -/
def handleStaticRequest (w : World) (s : CacheStorage) (request : Request) : Outcome :=
  match cachesMatch w s request with
  | some cachedResponse => { result := .ok cachedResponse, storage := s, fetched := [] }
  | none =>
    match w.fetch request with
    | .ok networkResponse =>
      if networkResponse.ok then
        let s1 := s.opened CACHE_NAME
        let s2 := cachePutDetached s1 CACHE_NAME request networkResponse.clone
        { result := .ok networkResponse, storage := s2, fetched := [request] }
      else
        { result := .ok networkResponse, storage := s, fetched := [request] }
    | .error error =>
      { result := handleStaticRequestCatch w s request error, storage := s,
        fetched := [request] }

/-! ## The fetch listener (lines 78-107) -/

/-- The three ways the listener answers a request. -/
inductive Strategy where
  | networkFirst
  | cacheFirst
  | networkOnly
  deriving DecidableEq, Repr

/-- What the fetch listener leaves behind: the branch it took, the settled
value handed to `respondWith` (a fulfilled promise may hold `undefined`, here
`none`), the storage afterwards and the requests sent to the network. -/
structure FetchOutcome where
  strategy : Strategy
  result : Except JsError (Option Response)
  storage : CacheStorage
  fetched : List Request

/-- The outcome of a handler as the listener hands it on. -/
def Outcome.respondWith (o : Outcome) (strategy : Strategy) : FetchOutcome :=
  { strategy := strategy
    result := match o.result with
      | .ok r => .ok (some r)
      | .error e => .error e
    storage := o.storage
    fetched := o.fetched }

/-- The test of line 83: the URL path starts with `/api/`. -/
def isApiRequest (request : Request) : Bool := startsWith request.url.pathname "/api/"

/-- The test of lines 91-94: the destination is a static resource type. -/
def isStaticRequest (request : Request) : Bool :=
  request.destination = "document" || request.destination = "script" ||
  request.destination = "style" || request.destination = "image"

/-- The fetch listener. -/
def fetchListener (w : World) (s : CacheStorage) (request : Request) : FetchOutcome :=
  if isApiRequest request then
    (handleApiRequest w s request).respondWith .networkFirst
  else if isStaticRequest request then
    (handleStaticRequest w s request).respondWith .cacheFirst
  else
    { strategy := .networkOnly
      result := match w.fetch request with
        | .ok r => .ok (some r)
        | .error _ => .ok (cachesMatch w s request)
      storage := s
      fetched := [request] }

/-! ## The install listener (lines 24-54) -/

/-- The responses `cache.addAll` collects: every request has an `http(s)` URL
and the method `GET`, and every fetch resolves with an OK response the cache
stores (status other than `206`, no `Vary: *`), or the whole call rejects with
a `TypeError` (the standard tests the requests before it fetches; the
rejection is the same). -/
def fetchAllOk (w : World) : List Request → Except JsError (List (Url × ResponseData))
  | [] => .ok []
  | request :: rest =>
    match w.fetch request with
    | .ok response =>
      if response.ok && cacheAccepts request response.data then
        match fetchAllOk w rest with
        | .ok entries => .ok ((request.url.withoutFragment, response.data) :: entries)
        | .error e => .error e
      else .error cacheTypeError
    | .error _ => .error cacheTypeError

/-- The storage after the entries are put, in order, into the partition of a
name. -/
def CacheStorage.insertAll (s : CacheStorage) (name : String) :
    List (Url × ResponseData) → CacheStorage
  | [] => s
  | (u, v) :: rest => CacheStorage.insertAll (s.insert name u v) name rest

/-- JavaScript `cache.addAll(requests)` on the partition of a name: all of the
responses are stored, or none. -/
def cacheAddAll (w : World) (s : CacheStorage) (name : String) (requests : List Request) :
    Except JsError CacheStorage :=
  match fetchAllOk w requests with
  | .ok entries => .ok (s.insertAll name entries)
  | .error e => .error e

/-- One element of the map of lines 38-46: fetch the endpoint, put an OK
response (a rejection of the put is swallowed by the `catch`, like a rejection
of the fetch). -/
def precacheApiUrl (w : World) (s : CacheStorage) (url : String) : CacheStorage :=
  match w.fetch (w.request url) with
  | .ok response =>
    if response.ok then cachePutDetached s API_CACHE_NAME (w.request url) response
    else s
  | .error _ => s

/-- A URL placed into a list ordered by the time the fetches take, before the
URLs whose fetch takes at least as long. -/
def insertByLatency (w : World) (url : String) : List String → List String
  | [] => [url]
  | other :: rest =>
    if w.latency (w.request url) ≤ w.latency (w.request other) then url :: other :: rest
    else other :: insertByLatency w url rest

/-- The order in which the fetches of a list of URLs, started together, settle:
by the time the network takes, and in the order started when that is equal. -/
def completionOrder (w : World) : List String → List String
  | [] => []
  | url :: rest => insertByLatency w url (completionOrder w rest)

/-- What the install listener leaves behind: the settled value of the promise
given to `waitUntil`, the storage, whether `skipWaiting` was called, and the
requests sent to the network. -/
structure InstallOutcome where
  result : Except JsError Unit
  storage : CacheStorage
  skipWaiting : Bool
  fetched : List Request

/-- The install listener: both partitions are opened, the static one is filled
from the manifest with `addAll`, the api one is pre-warmed by one chain per
endpoint, the chains running concurrently and putting in the order their
fetches settle; `skipWaiting` runs in the `then` of the joint promise. -/
def install (w : World) (s : CacheStorage) : InstallOutcome :=
  let s1 := (s.opened CACHE_NAME).opened API_CACHE_NAME
  let requests := STATIC_CACHE_URLS.map w.reloadRequest
  let sent := requests ++ API_CACHE_URLS.map w.request
  match cacheAddAll w s1 CACHE_NAME requests with
  | .ok s2 =>
    { result := .ok (), storage := (completionOrder w API_CACHE_URLS).foldl (precacheApiUrl w) s2,
      skipWaiting := true, fetched := sent }
  | .error e =>
    { result := .error e,
      storage := (completionOrder w API_CACHE_URLS).foldl (precacheApiUrl w) s1,
      skipWaiting := false, fetched := sent }

/-! ## The activate listener (lines 57-75) -/

/-- The test of line 64: the partition is not one of the two current ones. -/
def isStaleCache (cacheName : String) : Bool :=
  cacheName != CACHE_NAME && cacheName != API_CACHE_NAME

/-- The map of lines 63-68 over the names `caches.keys()` answered: every stale
partition is deleted. -/
def deleteStaleCaches (s : CacheStorage) : List String → CacheStorage
  | [] => s
  | cacheName :: rest =>
    if isStaleCache cacheName then deleteStaleCaches (s.delete cacheName) rest
    else deleteStaleCaches s rest

/-- What the activate listener leaves behind: the storage after the cleanup and
the storage `clients.claim()` was called in (it is called in the `then` of the
cleanup). -/
structure ActivateOutcome where
  storage : CacheStorage
  claimedIn : Option CacheStorage

/-- The activate listener. -/
def activate (s : CacheStorage) : ActivateOutcome :=
  let cleaned := deleteStaleCaches s s.keys
  { storage := cleaned, claimedIn := some cleaned }

/-! ## The sync listener (lines 187-219) -/

/-- The two reconciliation hooks, `syncAssessments` and `syncFeedback`. -/
inductive SyncHook where
  | syncAssessments
  | syncFeedback
  deriving DecidableEq, Repr

/-- The sync listener: the hooks it calls for a tag, in order (each of the two
tests is an `if` of its own). -/
def syncListener (tag : String) : List SyncHook :=
  (if tag = "assessment-sync" then [SyncHook.syncAssessments] else []) ++
  (if tag = "feedback-sync" then [SyncHook.syncFeedback] else [])

/-! ## The push listener (lines 222-249) -/

/-- A value `event.data.json()` can return, that is any value `JSON.parse`
builds: `null`, a boolean, a number (an IEEE 754 double, given by its sign, its
biased exponent and its fraction), a string, an array, or an object with its
members in source order. -/
inductive JsonValue where
  | null
  | bool (b : Bool)
  | number (negative : Bool) (exponent : Nat) (fraction : Nat)
  | string (s : String)
  | array (items : List JsonValue)
  | object (members : List (String × JsonValue))

/-- JavaScript `ToBoolean` on such a value: `null`, `false`, the zeros, `NaN`
and the empty string are falsy, everything else is truthy. -/
def JsonValue.truthy : JsonValue → Bool
  | .null => false
  | .bool b => b
  | .number _ exponent fraction =>
    !(decide (exponent = 0) && decide (fraction = 0)) &&
    !(decide (exponent = 2047) && !decide (fraction = 0))
  | .string s => !decide (s = "")
  | .array _ => true
  | .object _ => true

/-- The member of a name among the members of a parsed object: of two members
with one name `JSON.parse` keeps the later. -/
def lastMember : List (String × JsonValue) → String → Option JsonValue
  | [], _ => none
  | (k, v) :: rest, key =>
    match lastMember rest key with
    | some later => some later
    | none => if k = key then some v else none

/-- The value of `data.title` or `data.body` on a value other than `null`: the
member of an object, `undefined` (here `none`) on every other value, whose
prototypes have no such property. -/
def JsonValue.member (data : JsonValue) (key : String) : Option JsonValue :=
  match data with
  | .object members => lastMember members key
  | _ => none

/-- The `TypeError` of a property read on `null`. -/
def nullReadError (key : String) : JsError :=
  { name := "TypeError",
    message := "Cannot read properties of null (reading " ++ key ++ ")" }

/-- JavaScript `data.key`: throws on `null`. -/
def JsonValue.read (data : JsonValue) (key : String) : Except JsError (Option JsonValue) :=
  match data with
  | .null => .error (nullReadError key)
  | other => .ok (other.member key)

/-- JavaScript `value || fallback` with a string literal as fallback: the value
when it is truthy, the fallback when it is `undefined` or falsy. -/
def orElseString (value : Option JsonValue) (fallback : String) : JsonValue :=
  match value with
  | none => .string fallback
  | some v => if v.truthy then v else .string fallback

/-- One entry of the `actions` option. -/
structure NotificationAction where
  action : String
  title : String
  deriving DecidableEq, Repr

/-- A call of `registration.showNotification(title, options)`: title and body
are the values the listener passes, before the platform converts them to
strings. -/
structure NotificationRequest where
  title : JsonValue
  body : JsonValue
  icon : String
  badge : String
  vibrate : List Nat
  tag : String
  actions : List NotificationAction

/-- The push listener, given `event.data` (absent, or the value
`event.data.json()` parses from it): the notifications it asks the platform to
show, or the error it throws before it asks for any.  `data.body` is read first
(line 228), `data.title` in the call (line 246). -/
def pushListener (eventData : Option JsonValue) : Except JsError (List NotificationRequest) :=
  match eventData with
  | none => .ok []
  | some data =>
    match data.read "body" with
    | .error thrown => .error thrown
    | .ok body =>
      match data.read "title" with
      | .error thrown => .error thrown
      | .ok title =>
        .ok [{ title := orElseString title "PeptideProtocols.ai"
               body := orElseString body "Time for your protocol follow-up"
               icon := "/logo192.png"
               badge := "/logo192.png"
               vibrate := [200, 100, 200]
               tag := "protocol-reminder"
               actions := [{ action := "open", title := "Open App" },
                           { action := "dismiss", title := "Dismiss" }] }]

/-! ## The notificationclick listener (lines 252-265) -/

/-- What the notificationclick listener asks of the platform: closing the
notification, focusing a client window, opening a window at a URL. -/
inductive ClickEffect where
  | close
  | focus (client : String)
  | openWindow (url : String)
  deriving DecidableEq, Repr

/-- The notificationclick listener: its effects, in order, given the action
clicked and the client list `clients.matchAll()` answers. -/
def notificationClickListener (action : String) (clientList : List String) :
    List ClickEffect :=
  ClickEffect.close ::
    (if action = "open" then
      match clientList with
      | client :: _ => [ClickEffect.focus client]
      | [] => [ClickEffect.openWindow "/"]
    else [])

/-! ## Predicates on storages -/

/-- No partition other than the static one holds an entry for the URL. -/
def Unshadowed (s : CacheStorage) (u : Url) : Prop :=
  ∀ p ∈ s, p.1 ≠ CACHE_NAME → Cache.lookup p.2 u = none

/-- The static partition exists and holds the response under the URL, and no
other partition holds an entry for the URL. -/
def Serves (s : CacheStorage) (u : Url) (d : ResponseData) : Prop :=
  s.has CACHE_NAME = true ∧
  ∀ p ∈ s, Cache.lookup p.2 u = if p.1 = CACHE_NAME then some d else none

/-- The cache after the entries are put, in order. -/
def Cache.insertAll (c : Cache) : List (Url × ResponseData) → Cache
  | [] => c
  | (u, v) :: rest => Cache.insertAll (Cache.insert c u v) rest

/-- The request URLs a cache holds entries for, in order. -/
def Cache.keys (c : Cache) : List Url := c.map (fun e => e.1)

/-- A storage as the platform keeps it: partition names are distinct and a
partition holds at most one entry per request URL. -/
def CacheStorage.WellFormed (s : CacheStorage) : Prop :=
  s.keys.Nodup ∧ ∀ p ∈ s, (Cache.keys p.2).Nodup

/-- Two storages hold the same partitions, in the same order, and each
partition holds the same entries in both, the order of the entries aside. -/
def CacheStorage.SameEntries (a b : CacheStorage) : Prop :=
  List.Forall₂ (fun p q => p.1 = q.1 ∧ List.Perm p.2 q.2) a b

/-- Whether pre-warming stores the answer to the bootstrap fetch of a URL: the
answer is OK (line 41) and `cache.put` accepts it. -/
def prewarmStores (w : World) (url : String) (d : ResponseData) : Bool :=
  Response.ok { data := d, guard := .immutable } && cacheAccepts (w.request url) d

/-- The entries pre-warming stores for a list of endpoints: one for every
endpoint the network answers with an OK response the cache accepts, in the
order of the list. -/
def okApiEntries (w : World) : List String → List (Url × ResponseData)
  | [] => []
  | url :: rest =>
    match w.net (w.request url) with
    | .ok d =>
      if prewarmStores w url d then (w.resolve url, d) :: okApiEntries w rest
      else okApiEntries w rest
    | .error _ => okApiEntries w rest

/-- The entries the pre-warm of install stores, in the order its puts land. -/
def prewarmEntries (w : World) : List (Url × ResponseData) :=
  okApiEntries w (completionOrder w API_CACHE_URLS)

/-- The lookup the spec describes, of a request in one partition alone (its
network-first strategy falls back to the api partition lookup, its cache-first
strategy looks up the static partition).  The source has no such lookup: it
calls `caches.match`, modelled by `cachesMatch`. -/
def specPartitionMatch (w : World) (s : CacheStorage) (name : String) (request : Request) :
    Option Response :=
  if request.method = "GET" then
    (Cache.lookup (s.partition name) request.url.withoutFragment).map
      (fun d => { data := d, guard := w.cachedGuard })
  else none

/-- The partition key invariant: partition names are distinct, every partition
is the static one, with no key under `/api/`, or the api one, with every key
under `/api/`. -/
def KeyInvariant (s : CacheStorage) : Prop :=
  s.keys.Nodup ∧
  ∀ p ∈ s,
    (p.1 = CACHE_NAME ∧ ∀ e ∈ p.2, startsWith e.1.pathname "/api/" = false) ∨
    (p.1 = API_CACHE_NAME ∧ ∀ e ∈ p.2, startsWith e.1.pathname "/api/" = true)

/-- The storages the router can reach from an empty cache storage by install,
activate and fetch events, each under any network. -/
inductive Reachable : CacheStorage → Prop where
  | empty : Reachable []
  | install (w : World) (s : CacheStorage) : Reachable s → Reachable (install w s).storage
  | activate (s : CacheStorage) : Reachable s → Reachable (activate s).storage
  | fetch (w : World) (s : CacheStorage) (request : Request) :
      Reachable s → Reachable (fetchListener w s request).storage

/-! ## Concrete worlds used to exercise the theorems -/

/-- The origin of the sample deployment. -/
def sampleOrigin : String := "https://app.example"

/-- A network that is down: every fetch rejects. -/
def offlineWorld : World :=
  { secure := true
    host := "app.example"
    net := fun _ => .error { name := "TypeError", message := "Failed to fetch" }
    cachedGuard := .immutable
    latency := fun _ => 0 }

/-- The rejection of `offlineWorld`. -/
def fetchFailed : JsError := { name := "TypeError", message := "Failed to fetch" }

/-- A network that answers every request with `200` and the body `fresh`. -/
def onlineWorld : World :=
  { secure := true
    host := "app.example"
    net := fun _ => .ok { status := 200, headers := [], body := "fresh" }
    cachedGuard := .immutable
    latency := fun _ => 0 }

/-- A network that answers every request with `404`. -/
def notFoundWorld : World :=
  { secure := true
    host := "app.example"
    net := fun _ => .ok { status := 404, headers := [], body := "missing" }
    cachedGuard := .immutable
    latency := fun _ => 0 }

/-- A world on Chromium: the same origin and network, with cached responses
handed out with mutable headers. -/
def World.onChromium (w : World) : World := { w with cachedGuard := .response }

/-- A partial answer: status `206`, an OK status. -/
def partialData : ResponseData :=
  { status := 206, headers := [("Content-Range", "bytes 0-3/9")], body := "fres" }

/-- An answer with status `200` and a `Vary: *` header. -/
def varyStarData : ResponseData :=
  { status := 200, headers := [("Vary", "*")], body := "fresh" }

/-- A network that answers every request with `206` and a part of the body, on
Chromium. -/
def partialWorld : World :=
  { secure := true
    host := "app.example"
    net := fun _ => .ok partialData
    cachedGuard := .response
    latency := fun _ => 0 }

/-- A network that answers every request with `200` and a `Vary: *` header, on
Chromium. -/
def varyStarWorld : World :=
  { secure := true
    host := "app.example"
    net := fun _ => .ok varyStarData
    cachedGuard := .response
    latency := fun _ => 0 }

/-- The network of `onlineWorld`, with the answer to `/api/peptides` arriving
last. -/
def slowPeptidesWorld : World :=
  { secure := true
    host := "app.example"
    net := fun _ => .ok { status := 200, headers := [], body := "fresh" }
    cachedGuard := .immutable
    latency := fun r => if r.url.pathname = "/api/peptides" then 9 else 0 }

/-- A `GET` request of the sample origin. -/
def sampleRequest (pathname destination : String) : Request :=
  { url := { origin := sampleOrigin, pathname := pathname, search := "", hash := "" }
    method := "GET", destination := destination, cache := "default" }

/-- A stored copy of the application shell. -/
def shellData : ResponseData := { status := 200, headers := [], body := "<html>shell</html>" }

/-- A storage whose static partition holds only the root document. -/
def shellStorage : CacheStorage :=
  [(CACHE_NAME,
    [({ origin := sampleOrigin, pathname := "/", search := "", hash := "" }, shellData)])]

/-- A storage with three stale partitions around the two current ones. -/
def crowdedStorage : CacheStorage :=
  [("peptideprotocols-v0", []), (CACHE_NAME, shellStorage.partition CACHE_NAME),
   ("workbox-precache", []), (API_CACHE_NAME, []), ("peptideprotocols-api-v0", [])]

/-- A storage left by an earlier release: its partition holds the old shell. -/
def legacyStorage : CacheStorage :=
  [("peptideprotocols-v0",
    [({ origin := sampleOrigin, pathname := "/", search := "", hash := "" }, shellData)])]

/-- A request of the sample origin that is neither API-class nor
static-class: a font. -/
def fontRequest : Request := sampleRequest "/fonts/inter.woff2" "font"

/-- A network on which the application's files are served and every API call
is rejected. -/
def apiDownWorld : World :=
  { secure := true
    host := "app.example"
    net := fun r =>
      if startsWith r.url.pathname "/api/" then
        .error { name := "TypeError", message := "Failed to fetch" }
      else .ok { status := 200, headers := [], body := "fresh" }
    cachedGuard := .immutable
    latency := fun _ => 0 }

/-- A network on which one file of the manifest, `/logo512.png`, is missing. -/
def missingLogoWorld : World :=
  { secure := true
    host := "app.example"
    net := fun r =>
      if r.url.pathname = "/logo512.png" then
        .ok { status := 404, headers := [], body := "missing" }
      else .ok { status := 200, headers := [], body := "fresh" }
    cachedGuard := .immutable
    latency := fun _ => 0 }

/-- A `POST` request of the sample origin. -/
def postRequest (pathname destination : String) : Request :=
  { url := { origin := sampleOrigin, pathname := pathname, search := "", hash := "" }
    method := "POST", destination := destination, cache := "default" }

/-- A stored copy of the protocol list. -/
def protocolsData : ResponseData := { status := 200, headers := [], body := "[1,2,3]" }

/-- A storage whose api partition holds the protocol list. -/
def protocolsStorage : CacheStorage :=
  [(API_CACHE_NAME,
    [({ origin := sampleOrigin, pathname := "/api/protocols", search := "", hash := "" },
      protocolsData)])]

/-- A storage in which a partition of an earlier release holds an older
protocol list. -/
def legacyApiStorage : CacheStorage :=
  [("peptideprotocols-api-v0",
    [({ origin := sampleOrigin, pathname := "/api/protocols", search := "", hash := "" },
      protocolsData)])]

/-- A `GET` request of the sample origin with a query string. -/
def queryRequest (pathname search : String) : Request :=
  { url := { origin := sampleOrigin, pathname := pathname, search := search, hash := "" }
    method := "GET", destination := "", cache := "default" }

/-- The push payload of the spec's scenario,
`{"title":"Reminder","body":"Time for follow-up"}`. -/
def reminderPayload : JsonValue :=
  .object [("title", .string "Reminder"), ("body", .string "Time for follow-up")]

/-- A push payload whose title is the number `0` and whose body is `false`. -/
def falsyPayload : JsonValue :=
  .object [("title", .number false 0 0), ("body", .bool false)]

/-- A `GET` request for a resource of a browser extension, which a page under
the worker's control can issue: its scheme is not `http(s)`. -/
def extensionRequest (pathname destination : String) : Request :=
  { url := { origin := "chrome-extension://abcdefghijklmnop", pathname := pathname,
             search := "", hash := "" }
    method := "GET", destination := destination, cache := "default" }

/-- A `GET` request of the sample origin with a fragment. -/
def fragmentRequest (pathname hash : String) : Request :=
  { url := { origin := sampleOrigin, pathname := pathname, search := "", hash := hash }
    method := "GET", destination := "", cache := "default" }

end ServiceWorker

/-! # Theorems -/

namespace ServiceWorker

/-! ## The cache storage model -/

/-- Lookup in two caches laid end to end. -/
theorem Cache.lookup_append (a b : Cache) (u : Url) :
    Cache.lookup (a ++ b) u =
      match Cache.lookup a u with
      | some v => some v
      | none => Cache.lookup b u := by
  induction a with
  | nil => simp [Cache.lookup]
  | cons e rest ih =>
    obtain ⟨k, v⟩ := e
    by_cases hk : k = u
    · simp [Cache.lookup, hk]
    · simp [Cache.lookup, hk, ih]

/-- Removing the entries of a URL leaves none for it. -/
theorem Cache.lookup_filter_self (c : Cache) (u : Url) :
    Cache.lookup (c.filter (fun e => !decide (e.1 = u))) u = none := by
  induction c with
  | nil => simp [Cache.lookup]
  | cons e rest ih =>
    obtain ⟨k, v⟩ := e
    by_cases hk : k = u
    · simp [List.filter_cons, hk, ih]
    · simp [List.filter_cons, hk, Cache.lookup, ih]

/-- Removing the entries of a URL leaves the other URLs as they were. -/
theorem Cache.lookup_filter_other (c : Cache) (k u : Url) (h : k ≠ u) :
    Cache.lookup (c.filter (fun e => !decide (e.1 = k))) u = Cache.lookup c u := by
  induction c with
  | nil => simp [Cache.lookup]
  | cons e rest ih =>
    obtain ⟨k2, v⟩ := e
    by_cases hk : k2 = k
    · subst hk
      simp [List.filter_cons, Cache.lookup, ih, h]
    · by_cases hu : k2 = u
      · subst hu
        simp [List.filter_cons, hk, Cache.lookup]
      · simp [List.filter_cons, hk, Cache.lookup, hu, ih]

/-- A put is read back. -/
theorem Cache.lookup_insert_self (c : Cache) (u : Url) (v : ResponseData) :
    Cache.lookup (Cache.insert c u v) u = some v := by
  simp only [Cache.insert, Cache.lookup_append, Cache.lookup_filter_self]
  simp [Cache.lookup]

/-- A put leaves the other URLs as they were. -/
theorem Cache.lookup_insert_other (c : Cache) (k u : Url) (v : ResponseData) (h : k ≠ u) :
    Cache.lookup (Cache.insert c k v) u = Cache.lookup c u := by
  simp only [Cache.insert, Cache.lookup_append, Cache.lookup_filter_other c k u h]
  cases hl : Cache.lookup c u <;> simp [Cache.lookup, h]

/-- After a put the cache holds one entry for the URL. -/
theorem Cache.filter_insert_self (c : Cache) (u : Url) (v : ResponseData) :
    (Cache.insert c u v).filter (fun e => decide (e.1 = u)) = [(u, v)] := by
  simp [Cache.insert, List.filter_append, List.filter_filter]

/-- Existence of a partition, entry by entry. -/
theorem CacheStorage.has_cons (pn : String) (pc : Cache) (rest : CacheStorage) (n : String) :
    CacheStorage.has ((pn, pc) :: rest) n = (decide (pn = n) || CacheStorage.has rest n) := by
  simp [CacheStorage.has]

/-- Existence of a partition over two storages laid end to end. -/
theorem CacheStorage.has_append (a b : CacheStorage) (n : String) :
    CacheStorage.has (a ++ b) n = (CacheStorage.has a n || CacheStorage.has b n) := by
  simp [CacheStorage.has]

/-- Putting, entry by entry. -/
theorem CacheStorage.insert_cons (pn : String) (pc : Cache) (rest : CacheStorage)
    (name : String) (u : Url) (v : ResponseData) :
    CacheStorage.insert ((pn, pc) :: rest) name u v =
      (if pn = name then (pn, Cache.insert pc u v) else (pn, pc)) ::
        CacheStorage.insert rest name u v := by
  simp [CacheStorage.insert]

/-- Putting does not create or remove partitions. -/
theorem CacheStorage.has_insert (s : CacheStorage) (name n : String) (u : Url)
    (v : ResponseData) : (s.insert name u v).has n = s.has n := by
  induction s with
  | nil => rfl
  | cons p rest ih =>
    obtain ⟨pn, pc⟩ := p
    rw [CacheStorage.insert_cons]
    by_cases hp : pn = name
    · rw [if_pos hp, CacheStorage.has_cons, CacheStorage.has_cons, ih]
    · rw [if_neg hp, CacheStorage.has_cons, CacheStorage.has_cons, ih]

/-- Putting into a partition that exists changes that partition. -/
theorem CacheStorage.partition_insert_self (s : CacheStorage) (name : String) (u : Url)
    (v : ResponseData) (h : s.has name = true) :
    (s.insert name u v).partition name = Cache.insert (s.partition name) u v := by
  induction s with
  | nil => simp [CacheStorage.has] at h
  | cons p rest ih =>
    obtain ⟨pn, pc⟩ := p
    rw [CacheStorage.insert_cons]
    by_cases hp : pn = name
    · rw [if_pos hp]
      simp [CacheStorage.partition, hp]
    · rw [if_neg hp]
      have hrest : CacheStorage.has rest name = true := by
        simpa [CacheStorage.has_cons, hp] using h
      simp [CacheStorage.partition, hp, ih hrest]

/-- Putting into one partition leaves the others as they were. -/
theorem CacheStorage.partition_insert_other (s : CacheStorage) (name n : String) (u : Url)
    (v : ResponseData) (h : n ≠ name) :
    (s.insert name u v).partition n = s.partition n := by
  induction s with
  | nil => rfl
  | cons p rest ih =>
    obtain ⟨pn, pc⟩ := p
    rw [CacheStorage.insert_cons]
    by_cases hp : pn = name
    · rw [if_pos hp]
      have hpn : ¬ pn = n := fun e => h (e.symm.trans hp)
      simp [CacheStorage.partition, hpn, ih]
    · rw [if_neg hp]
      by_cases hn : pn = n
      · simp [CacheStorage.partition, hn]
      · simp [CacheStorage.partition, hn, ih]

/-- An opened partition exists. -/
theorem CacheStorage.has_opened_self (s : CacheStorage) (name : String) :
    (s.opened name).has name = true := by
  unfold CacheStorage.opened
  by_cases h : s.has name = true
  · rw [if_pos h]
    exact h
  · rw [if_neg h, CacheStorage.has_append, CacheStorage.has_cons]
    simp

/-- Opening one partition does not create or remove another. -/
theorem CacheStorage.has_opened_other (s : CacheStorage) (name n : String) (h : n ≠ name) :
    (s.opened name).has n = s.has n := by
  unfold CacheStorage.opened
  by_cases hs : s.has name = true
  · rw [if_pos hs]
  · have hnn : ¬ name = n := fun e => h e.symm
    rw [if_neg hs, CacheStorage.has_append, CacheStorage.has_cons]
    simp [hnn, CacheStorage.has]

/-- The contents of a partition over two storages laid end to end. -/
theorem CacheStorage.partition_append (a b : CacheStorage) (n : String) :
    CacheStorage.partition (a ++ b) n =
      if CacheStorage.has a n then CacheStorage.partition a n
      else CacheStorage.partition b n := by
  induction a with
  | nil => simp [CacheStorage.partition, CacheStorage.has]
  | cons p rest ih =>
    obtain ⟨pn, pc⟩ := p
    by_cases hp : pn = n
    · simp [CacheStorage.partition, CacheStorage.has_cons, hp]
    · simp [CacheStorage.partition, CacheStorage.has_cons, hp, ih]

/-- A partition that does not exist reads as empty. -/
theorem CacheStorage.partition_of_not_has (s : CacheStorage) (n : String)
    (h : s.has n = false) : s.partition n = [] := by
  induction s with
  | nil => rfl
  | cons p rest ih =>
    obtain ⟨pn, pc⟩ := p
    have h2 : ¬ pn = n ∧ CacheStorage.has rest n = false := by
      simpa [CacheStorage.has_cons] using h
    simp [CacheStorage.partition, h2.1, ih h2.2]

/-- Opening a partition changes the contents of none. -/
theorem CacheStorage.partition_opened (s : CacheStorage) (name n : String) :
    (s.opened name).partition n = s.partition n := by
  unfold CacheStorage.opened
  by_cases hs : s.has name = true
  · rw [if_pos hs]
  · rw [if_neg hs, CacheStorage.partition_append]
    by_cases hn : s.has n = true
    · rw [if_pos hn]
    · have hn2 : s.has n = false := by simpa using hn
      rw [if_neg hn, CacheStorage.partition_of_not_has s n hn2]
      by_cases hnn : name = n <;> simp [CacheStorage.partition, hnn]

/-- What a partition holds, `caches.match` finds (possibly in an earlier
partition). -/
theorem CacheStorage.lookup_isSome_of_partition (s : CacheStorage) (n : String) (u : Url)
    (d : ResponseData) (h : Cache.lookup (s.partition n) u = some d) :
    (s.lookup u).isSome = true := by
  induction s with
  | nil => simp [CacheStorage.partition, Cache.lookup] at h
  | cons p rest ih =>
    obtain ⟨pn, pc⟩ := p
    cases hc : Cache.lookup pc u with
    | some v => simp [CacheStorage.lookup, hc]
    | none =>
      by_cases hp : pn = n
      · simp [CacheStorage.partition, hp, hc] at h
      · simp only [CacheStorage.partition, hp, if_false] at h
        simpa [CacheStorage.lookup, hc] using ih h

/-- Membership in a storage after a put. -/
theorem CacheStorage.mem_insert (s : CacheStorage) (name : String) (u : Url) (v : ResponseData)
    (p : String × Cache) (h : p ∈ s.insert name u v) :
    ∃ q ∈ s, p = if q.1 = name then (q.1, Cache.insert q.2 u v) else q := by
  simp only [CacheStorage.insert, List.mem_map] at h
  obtain ⟨q, hq, he⟩ := h
  exact ⟨q, hq, he.symm⟩

/-- A storage that serves a URL answers `caches.match` with the static entry. -/
theorem Serves.lookup {s : CacheStorage} {u : Url} {d : ResponseData} (h : Serves s u d) :
    s.lookup u = some d := by
  induction s with
  | nil => simp [Serves, CacheStorage.has] at h
  | cons p rest ih =>
    obtain ⟨pn, pc⟩ := p
    obtain ⟨hhas, hall⟩ := h
    have hp := hall (pn, pc) (List.mem_cons_self _ _)
    by_cases hn : pn = CACHE_NAME
    · simp only [hn, if_true] at hp
      simp [CacheStorage.lookup, hp]
    · simp only [hn, if_false] at hp
      have hrest : CacheStorage.has rest CACHE_NAME = true := by
        simpa [CacheStorage.has_cons, hn] using hhas
      have := ih ⟨hrest, fun q hq => hall q (List.mem_cons_of_mem _ hq)⟩
      simp [CacheStorage.lookup, hp, this]

/-- A put under another URL does not disturb what is served for a URL. -/
theorem Serves.insert_other {s : CacheStorage} {u : Url} {d : ResponseData}
    (h : Serves s u d) (name : String) (k : Url) (v : ResponseData) (hk : k ≠ u) :
    Serves (s.insert name k v) u d := by
  refine ⟨by rw [CacheStorage.has_insert]; exact h.1, ?_⟩
  intro p hp
  obtain ⟨q, hq, rfl⟩ := CacheStorage.mem_insert s name k v p hp
  have hq2 := h.2 q hq
  by_cases hn : q.1 = name
  · simp only [hn, if_true] at hq2 ⊢
    rw [Cache.lookup_insert_other _ _ _ _ hk]
    simpa [hn] using hq2
  · simpa [hn] using hq2

/-- A put into the static partition keeps the other partitions clear of a
URL. -/
theorem Unshadowed.insert_static {s : CacheStorage} {u : Url} (h : Unshadowed s u)
    (k : Url) (v : ResponseData) : Unshadowed (s.insert CACHE_NAME k v) u := by
  intro p hp hne
  obtain ⟨q, hq, rfl⟩ := CacheStorage.mem_insert s CACHE_NAME k v p hp
  by_cases hn : q.1 = CACHE_NAME
  · simp [hn] at hne
  · simp only [hn, if_false] at hne ⊢
    exact h q hq hne

/-- A put into the static partition under the URL makes the storage serve it. -/
theorem Unshadowed.serves_insert {s : CacheStorage} {u : Url} (h : Unshadowed s u)
    (hhas : s.has CACHE_NAME = true) (d : ResponseData) :
    Serves (s.insert CACHE_NAME u d) u d := by
  refine ⟨by rw [CacheStorage.has_insert]; exact hhas, ?_⟩
  intro p hp
  obtain ⟨q, hq, rfl⟩ := CacheStorage.mem_insert s CACHE_NAME u d p hp
  by_cases hn : q.1 = CACHE_NAME
  · simp [hn, Cache.lookup_insert_self]
  · simp only [hn, if_false]
    exact h q hq hn

/-- Opening a partition keeps the other partitions clear of a URL. -/
theorem Unshadowed.opened {s : CacheStorage} {u : Url} (h : Unshadowed s u) (name : String) :
    Unshadowed (s.opened name) u := by
  unfold CacheStorage.opened
  by_cases hs : s.has name = true
  · rw [if_pos hs]
    exact h
  · rw [if_neg hs]
    intro p hp hne
    rcases List.mem_append.mp hp with hp | hp
    · exact h p hp hne
    · have : p = (name, []) := by simpa using hp
      subst this
      rfl

/-- Puts under other URLs do not disturb what is served for a URL. -/
theorem Serves.insertAll_other {u : Url} {d : ResponseData} (name : String)
    (entries : List (Url × ResponseData)) :
    ∀ (s : CacheStorage), Serves s u d → u ∉ entries.map (fun e => e.1) →
      Serves (s.insertAll name entries) u d := by
  induction entries with
  | nil => intro s h _; exact h
  | cons e rest ih =>
    intro s h hnot
    obtain ⟨k, v⟩ := e
    have hk : k ≠ u := fun he => hnot (by simp [he])
    have hrest : u ∉ rest.map (fun e => e.1) := fun hm => hnot (by simp [List.mem_map] at hm ⊢; exact Or.inr hm)
    exact ih _ (h.insert_other name k v hk) hrest

/-- After the entries of `addAll` are put into the static partition, a URL among
them (keys distinct) is served with its entry. -/
theorem Unshadowed.serves_insertAll {u : Url} {d : ResponseData}
    (entries : List (Url × ResponseData)) :
    ∀ (s : CacheStorage), Unshadowed s u → s.has CACHE_NAME = true →
      (entries.map (fun e => e.1)).Nodup → (u, d) ∈ entries →
      Serves (s.insertAll CACHE_NAME entries) u d := by
  induction entries with
  | nil => intro s _ _ _ hm; simp at hm
  | cons e rest ih =>
    intro s hun hhas hnodup hm
    obtain ⟨k, v⟩ := e
    have hnd : k ∉ rest.map (fun e => e.1) ∧ (rest.map (fun e => e.1)).Nodup := by
      simpa using hnodup
    rcases List.mem_cons.mp hm with heq | hin
    · have hk : u = k := congrArg Prod.fst heq
      have hv : d = v := congrArg Prod.snd heq
      subst hk hv
      exact Serves.insertAll_other CACHE_NAME rest _ (hun.serves_insert hhas d) hnd.1
    · exact ih _ (hun.insert_static k v) (by rw [CacheStorage.has_insert]; exact hhas)
        hnd.2 hin

/-- A put the cache accepts stores the response under the request URL without
its fragment. -/
theorem cachePutDetached_of_accepts (s : CacheStorage) (name : String) (request : Request)
    (response : Response) (h : cacheAccepts request response.data = true) :
    cachePut s name request response
      = .ok (s.insert name request.url.withoutFragment response.data) ∧
    cachePutDetached s name request response
      = s.insert name request.url.withoutFragment response.data := by
  simp [cachePutDetached, cachePut, h]

/-- A put the cache rejects leaves the storage as it was. -/
theorem cachePutDetached_of_rejects (s : CacheStorage) (name : String) (request : Request)
    (response : Response) (h : cacheAccepts request response.data = false) :
    cachePut s name request response = .error cacheTypeError ∧
    cachePutDetached s name request response = s := by
  simp [cachePutDetached, cachePut, h]

/-- One step of a successful `addAll`: the first request was answered with an OK
response the cache accepts, and the rest succeeded. -/
theorem fetchAllOk_cons_ok (w : World) (r : Request) (rest : List Request)
    (entries : List (Url × ResponseData)) (h : fetchAllOk w (r :: rest) = .ok entries) :
    ∃ d es, w.net r = .ok d ∧ Response.ok { data := d, guard := .immutable } = true ∧
      cacheAccepts r d = true ∧ fetchAllOk w rest = .ok es ∧
      entries = (r.url.withoutFragment, d) :: es := by
  cases hn : w.net r with
  | error e => simp [fetchAllOk, World.fetch, hn] at h
  | ok d =>
    by_cases hok : Response.ok { data := d, guard := .immutable } = true
    · by_cases hacc : cacheAccepts r d = true
      · cases hr : fetchAllOk w rest with
        | error e => simp [fetchAllOk, World.fetch, hn, hok, hacc, hr] at h
        | ok es =>
          simp [fetchAllOk, World.fetch, hn, hok, hacc, hr] at h
          exact ⟨d, es, rfl, hok, hacc, rfl, h.symm⟩
      · simp [fetchAllOk, World.fetch, hn, hok, hacc] at h
    · simp [fetchAllOk, World.fetch, hn, hok] at h

/-- One step of `addAll` the other way round. -/
theorem fetchAllOk_cons_of_ok (w : World) (r : Request) (rest : List Request)
    (d : ResponseData) (es : List (Url × ResponseData)) (hn : w.net r = .ok d)
    (hok : Response.ok { data := d, guard := .immutable } = true)
    (hacc : cacheAccepts r d = true) (hr : fetchAllOk w rest = .ok es) :
    fetchAllOk w (r :: rest) = .ok ((r.url.withoutFragment, d) :: es) := by
  simp [fetchAllOk, World.fetch, hn, hok, hacc, hr]

/-- The keys `addAll` collects are the URLs of its requests, without their
fragments, in order. -/
theorem fetchAllOk_keys (w : World) (requests : List Request) :
    ∀ entries, fetchAllOk w requests = .ok entries →
      entries.map (fun e => e.1) = requests.map (fun r => r.url.withoutFragment) := by
  induction requests with
  | nil => intro entries h; simp [fetchAllOk] at h; simp [← h]
  | cons r rest ih =>
    intro entries h
    obtain ⟨d, es, _, _, _, hr, rfl⟩ := fetchAllOk_cons_ok w r rest entries h
    simp [ih es hr]

/-- Every request of a successful `addAll` was answered by the network with an
OK response the cache accepts, which is among the entries collected. -/
theorem fetchAllOk_mem (w : World) (requests : List Request) :
    ∀ entries, fetchAllOk w requests = .ok entries → ∀ r ∈ requests,
      ∃ d, w.net r = .ok d ∧ Response.ok { data := d, guard := .immutable } = true ∧
        cacheAccepts r d = true ∧ (r.url.withoutFragment, d) ∈ entries := by
  induction requests with
  | nil => intro entries _ r hr; simp at hr
  | cons r0 rest ih =>
    intro entries h r hr
    obtain ⟨d, es, hn, hok, hacc, hrest, rfl⟩ := fetchAllOk_cons_ok w r0 rest entries h
    rcases List.mem_cons.mp hr with heq | hin
    · subst heq
      exact ⟨d, hn, hok, hacc, List.mem_cons_self _ _⟩
    · obtain ⟨d2, h1, h2, h3, h4⟩ := ih es hrest r hin
      exact ⟨d2, h1, h2, h3, List.mem_cons_of_mem _ h4⟩

/-- Pre-warming one endpoint leaves the storage as it was or puts one entry,
under that endpoint, into the api partition. -/
theorem precacheApiUrl_cases (w : World) (s : CacheStorage) (url : String) :
    precacheApiUrl w s url = s ∨
    ∃ d, precacheApiUrl w s url = s.insert API_CACHE_NAME (w.resolve url) d := by
  unfold precacheApiUrl
  cases hf : w.fetch (w.request url) with
  | error e => exact Or.inl rfl
  | ok response =>
    by_cases hok : response.ok = true
    · by_cases hacc : cacheAccepts (w.request url) response.data = true
      · right
        exact ⟨response.data, by
          simp only [hok, if_true]
          exact (cachePutDetached_of_accepts s _ _ response hacc).2⟩
      · left
        have hacc2 : cacheAccepts (w.request url) response.data = false := by simpa using hacc
        simp only [hok, if_true]
        exact (cachePutDetached_of_rejects s _ _ response hacc2).2
    · left
      simp [hok]

/-- Placing a URL by its latency adds it to the list. -/
theorem insertByLatency_perm (w : World) (url : String) (l : List String) :
    List.Perm (insertByLatency w url l) (url :: l) := by
  induction l with
  | nil => exact List.Perm.refl _
  | cons other rest ih =>
    by_cases h : w.latency (w.request url) ≤ w.latency (w.request other)
    · simp only [insertByLatency, h, if_true]
      exact List.Perm.refl _
    · simp only [insertByLatency, h, if_false]
      exact (List.Perm.cons other ih).trans (List.Perm.swap url other rest)

/-- The order in which fetches settle is an order of the URLs fetched. -/
theorem completionOrder_perm (w : World) (l : List String) :
    List.Perm (completionOrder w l) l := by
  induction l with
  | nil => exact List.Perm.refl _
  | cons url rest ih =>
    exact (insertByLatency_perm w url (completionOrder w rest)).trans (List.Perm.cons url ih)

/-- The fetches that settle are the fetches started. -/
theorem mem_completionOrder (w : World) (l : List String) (a : String) :
    a ∈ completionOrder w l ↔ a ∈ l :=
  (completionOrder_perm w l).mem_iff

/-- Pre-warming endpoints other than a URL does not disturb what is served for
it. -/
theorem Serves.precache {u : Url} {d : ResponseData} (w : World) (urls : List String) :
    ∀ (s : CacheStorage), Serves s u d → (∀ a ∈ urls, w.resolve a ≠ u) →
      Serves (urls.foldl (precacheApiUrl w) s) u d := by
  induction urls with
  | nil => intro s h _; exact h
  | cons a rest ih =>
    intro s h hne
    have ha : w.resolve a ≠ u := hne a (List.mem_cons_self _ _)
    have hrest : ∀ b ∈ rest, w.resolve b ≠ u := fun b hb => hne b (List.mem_cons_of_mem _ hb)
    rw [List.foldl_cons]
    rcases precacheApiUrl_cases w s a with hs | ⟨d2, hs⟩
    · rw [hs]; exact ih s h hrest
    · rw [hs]; exact ih _ (h.insert_other API_CACHE_NAME _ d2 ha) hrest

/-! ## Routing -/

/-- C1: the fetch listener takes exactly one of three branches, in a fixed
order of precedence: network-first exactly when the URL path starts with
`/api/`; otherwise cache-first exactly when the destination is document,
script, style or image; otherwise network-only with cache fallback.  The branch
taken hands the matching handler's promise to `respondWith`, and an `/api/`
request for an image is handled network-first. -/
theorem fetchListener_strategy (w : World) (s : CacheStorage) (request : Request) :
    ((fetchListener w s request).strategy = .networkFirst ↔
        startsWith request.url.pathname "/api/" = true) ∧
    ((fetchListener w s request).strategy = .cacheFirst ↔
        (startsWith request.url.pathname "/api/" = false ∧
          (request.destination = "document" ∨ request.destination = "script" ∨
           request.destination = "style" ∨ request.destination = "image"))) ∧
    ((fetchListener w s request).strategy = .networkOnly ↔
        (startsWith request.url.pathname "/api/" = false ∧
          ¬ (request.destination = "document" ∨ request.destination = "script" ∨
             request.destination = "style" ∨ request.destination = "image"))) ∧
    ((fetchListener w s request).strategy = .networkFirst →
        fetchListener w s request = (handleApiRequest w s request).respondWith .networkFirst) ∧
    ((fetchListener w s request).strategy = .cacheFirst →
        fetchListener w s request = (handleStaticRequest w s request).respondWith .cacheFirst) ∧
    ((fetchListener w s request).strategy = .networkOnly →
        (fetchListener w s request).storage = s ∧
        (fetchListener w s request).fetched = [request]) ∧
    (startsWith request.url.pathname "/api/" = true → request.destination = "image" →
        (fetchListener w s request).strategy = .networkFirst) := by
  have hstatic : isStaticRequest request = true ↔
      (request.destination = "document" ∨ request.destination = "script" ∨
       request.destination = "style" ∨ request.destination = "image") := by
    simp [isStaticRequest, or_assoc]
  by_cases hapi : startsWith request.url.pathname "/api/" = true
  · simp [fetchListener, isApiRequest, hapi, Outcome.respondWith]
  · have hapi2 : startsWith request.url.pathname "/api/" = false := by
      simpa using hapi
    by_cases hst : isStaticRequest request = true
    · have hd := hstatic.mp hst
      simp [fetchListener, isApiRequest, hapi2, hst, hd, Outcome.respondWith]
    · have hd : ¬ (request.destination = "document" ∨ request.destination = "script" ∨
          request.destination = "style" ∨ request.destination = "image") :=
        fun h => hst (hstatic.mpr h)
      have hst2 : isStaticRequest request = false := by simpa using hst
      simp [fetchListener, isApiRequest, hapi2, hst2, hd]

/-- C1 exercised: an image request under `/api/` is answered network-first by
`handleApiRequest`. -/
theorem fetchListener_strategy_witness :
    (fetchListener offlineWorld [] (sampleRequest "/api/peptides/7.png" "image")).strategy
        = .networkFirst ∧
    fetchListener offlineWorld [] (sampleRequest "/api/peptides/7.png" "image")
        = (handleApiRequest offlineWorld [] (sampleRequest "/api/peptides/7.png" "image")).respondWith
            .networkFirst :=
  have h := fetchListener_strategy offlineWorld [] (sampleRequest "/api/peptides/7.png" "image")
  have h1 := h.2.2.2.2.2.2 (by decide) (by decide)
  ⟨h1, h.2.2.2.1 h1⟩

/-! ## Network-first: the failure paths -/

/-- The `catch` block when nothing is cached: the offline response for a
critical URL, the caught error otherwise. -/
theorem handleApiRequestCatch_miss (w : World) (s : CacheStorage) (request : Request) (e : JsError)
    (hmiss : cachesMatch w s request = none) :
    handleApiRequestCatch w s request e =
      if includes request.url.href "/api/peptides" then .ok offlineResponse else .error e := by
  simp [handleApiRequestCatch, hmiss]

/-- C2: for an API request whose URL contains `/api/peptides`, when the network
fetch rejects or answers with a non-OK status and `caches.match` finds no entry,
`handleApiRequest` resolves with the synthesized response: status 200,
`Content-Type: application/json`, and the JSON text of
`{offline: true, message: 'Offline mode - limited functionality', data: []}`;
the listener hands that response to `respondWith`. -/
theorem handleApiRequest_offline_response (w : World) (s : CacheStorage) (request : Request)
    (hapi : isApiRequest request = true)
    (hcritical : includes request.url.href "/api/peptides" = true)
    (hnet : (∃ e, w.fetch request = .error e) ∨
            (∃ v, w.fetch request = .ok v ∧ v.ok = false))
    (hmiss : cachesMatch w s request = none) :
    (handleApiRequest w s request).result = .ok offlineResponse ∧
    (fetchListener w s request).result = .ok (some offlineResponse) ∧
    offlineResponse.data.status = 200 ∧
    headersGet offlineResponse.data.headers "Content-Type" = some "application/json" ∧
    offlineResponse.data.body = offlinePayload.stringify ∧
    offlineResponse.data.body =
      "\x7b\"offline\":true,\"message\":\"Offline mode - limited functionality\",\"data\":[]\x7d" := by
  have hres : (handleApiRequest w s request).result = .ok offlineResponse := by
    rcases hnet with ⟨e, he⟩ | ⟨v, hv, hok⟩
    · simp [handleApiRequest, he, handleApiRequestCatch_miss w s request _ hmiss, hcritical]
    · simp [handleApiRequest, hv, hok, handleApiRequestCatch_miss w s request _ hmiss, hcritical]
  refine ⟨hres, ?_, by decide, by decide, rfl, by decide⟩
  simp [fetchListener, hapi, Outcome.respondWith, hres]

/-- C2 exercised: `/api/peptides` with the network down and an empty storage. -/
theorem handleApiRequest_offline_response_witness :
    (handleApiRequest offlineWorld [] (sampleRequest "/api/peptides" "")).result
      = .ok offlineResponse :=
  (handleApiRequest_offline_response offlineWorld [] (sampleRequest "/api/peptides" "")
    (by decide) (by decide) (Or.inl ⟨fetchFailed, rfl⟩) (by decide)).1

/-- C5: for an API request whose URL does not contain `/api/peptides` and for
which `caches.match` finds no entry, when the network fetch rejects with an
error, `handleApiRequest` rejects with that same error, the storage is left as
it was, and the listener passes the rejection on. -/
theorem handleApiRequest_propagates (w : World) (s : CacheStorage) (request : Request)
    (e : JsError)
    (hapi : isApiRequest request = true)
    (hnoncritical : includes request.url.href "/api/peptides" = false)
    (hmiss : cachesMatch w s request = none)
    (hnet : w.fetch request = .error e) :
    (handleApiRequest w s request).result = .error e ∧
    (handleApiRequest w s request).storage = s ∧
    (fetchListener w s request).result = .error e ∧
    (fetchListener w s request).storage = s := by
  have hres : (handleApiRequest w s request).result = .error e := by
    simp [handleApiRequest, hnet, handleApiRequestCatch_miss w s request _ hmiss, hnoncritical]
  have hsto : (handleApiRequest w s request).storage = s := by
    simp [handleApiRequest, hnet]
  refine ⟨hres, hsto, ?_, ?_⟩
  · simp [fetchListener, hapi, Outcome.respondWith, hres]
  · simp [fetchListener, hapi, Outcome.respondWith, hsto]

/-- C5 exercised: `/api/protocols` with the network down and an empty storage. -/
theorem handleApiRequest_propagates_witness :
    (handleApiRequest offlineWorld [] (sampleRequest "/api/protocols" "")).result
      = .error fetchFailed ∧
    (handleApiRequest offlineWorld [] (sampleRequest "/api/protocols" "")).storage = [] :=
  have h := handleApiRequest_propagates offlineWorld [] (sampleRequest "/api/protocols" "")
    fetchFailed (by decide) (by decide) (by decide) rfl
  ⟨h.1, h.2.1⟩

/-! ## Network-first: the live path and the cached fallback -/

/-- The storage after an OK response the cache accepts was handled: the api
partition exists and holds the response under the request URL. -/
theorem handleApiRequest_storage_ok (w : World) (s : CacheStorage) (request : Request)
    (v : Response) (hnet : w.fetch request = .ok v) (hok : v.ok = true)
    (hacc : cacheAccepts request v.data = true) :
    (handleApiRequest w s request).storage =
      (s.opened API_CACHE_NAME).insert API_CACHE_NAME request.url.withoutFragment v.data := by
  have h := (cachePutDetached_of_accepts (s.opened API_CACHE_NAME) API_CACHE_NAME request
    v.clone hacc).2
  simp only [handleApiRequest, hnet, hok, if_true]
  exact h

/-- The storage after an OK response the cache rejects was handled: the api
partition was opened and nothing was put. -/
theorem handleApiRequest_storage_rejected (w : World) (s : CacheStorage) (request : Request)
    (v : Response) (hnet : w.fetch request = .ok v) (hok : v.ok = true)
    (hacc : cacheAccepts request v.data = false) :
    (handleApiRequest w s request).storage = s.opened API_CACHE_NAME := by
  have h := (cachePutDetached_of_rejects (s.opened API_CACHE_NAME) API_CACHE_NAME request
    v.clone hacc).2
  simp only [handleApiRequest, hnet, hok, if_true]
  exact h

/-- When the network fetch rejects or answers with a non-OK status, the result
of `handleApiRequest` is the result of its `catch` block. -/
theorem handleApiRequest_result_of_failure (w : World) (s : CacheStorage) (request : Request)
    (hnet : (∃ e, w.fetch request = .error e) ∨
            (∃ v, w.fetch request = .ok v ∧ v.ok = false)) :
    ∃ e, (handleApiRequest w s request).result = handleApiRequestCatch w s request e := by
  rcases hnet with ⟨e, he⟩ | ⟨v, hv, hok⟩
  · exact ⟨e, by simp [handleApiRequest, he]⟩
  · exact ⟨notOkError, by simp [handleApiRequest, hv, hok]⟩

/-- What the cache accepts, spelled out. -/
theorem cacheAccepts_iff (request : Request) (d : ResponseData) :
    cacheAccepts request d = true ↔
      (request.url.isHttp = true ∧ request.method = "GET" ∧ d.storable = true) := by
  simp [cacheAccepts, and_assoc]

/-- The URLs the worker names are `http(s)` URLs. -/
theorem World.resolve_isHttp (w : World) (path : String) : (w.resolve path).isHttp = true := by
  have h1 : ∀ h : String, ("https://".data).isPrefixOf ("https://" ++ h).data = true := by
    intro h
    rw [String.data_append, List.isPrefixOf_iff_prefix]
    exact List.prefix_append _ _
  have h2 : ∀ h : String, ("http://".data).isPrefixOf ("http://" ++ h).data = true := by
    intro h
    rw [String.data_append, List.isPrefixOf_iff_prefix]
    exact List.prefix_append _ _
  cases hs : w.secure with
  | true => simp [Url.isHttp, World.resolve, World.origin, hs, startsWith, h1]
  | false => simp [Url.isHttp, World.resolve, World.origin, hs, startsWith, h2]

/-- For a request the worker builds from a path, the cache accepts exactly the
responses it stores. -/
theorem cacheAccepts_own (w : World) (path : String) (d : ResponseData) :
    cacheAccepts (w.request path) d = d.storable ∧
    cacheAccepts (w.reloadRequest path) d = d.storable := by
  have h := w.resolve_isHttp path
  constructor
  · show ((w.resolve path).isHttp && decide ("GET" = "GET") && d.storable) = d.storable
    simp [h]
  · show ((w.resolve path).isHttp && decide ("GET" = "GET") && d.storable) = d.storable
    simp [h]

/-- A header that was set is read back. -/
theorem headersGet_headersSetList (hs : List (String × String)) (name value : String) :
    headersGet (headersSetList hs name value) name = some value := by
  induction hs with
  | nil => simp [headersSetList, headersGet, sameHeaderName]
  | cons h rest ih =>
    obtain ⟨n, v⟩ := h
    by_cases hn : sameHeaderName n name = true
    · simpa [headersSetList, List.filter_cons, hn] using ih
    · simpa [headersSetList, List.filter_cons, hn, headersGet] using ih

/-- A put into a partition is found by the search over all partitions when no
other partition holds an entry for the URL. -/
theorem CacheStorage.lookup_insert_of_clear (name : String) (u : Url) (v : ResponseData) :
    ∀ (s : CacheStorage), s.has name = true →
      (∀ p ∈ s, p.1 ≠ name → Cache.lookup p.2 u = none) →
      (s.insert name u v).lookup u = some v := by
  intro s
  induction s with
  | nil => intro hhas _; simp [CacheStorage.has] at hhas
  | cons p rest ih =>
    intro hhas hclear
    obtain ⟨pn, pc⟩ := p
    rw [CacheStorage.insert_cons]
    by_cases hp : pn = name
    · rw [if_pos hp]
      simp [CacheStorage.lookup, Cache.lookup_insert_self]
    · rw [if_neg hp]
      have hc : Cache.lookup pc u = none := hclear (pn, pc) (List.mem_cons_self _ _) hp
      have hrest : CacheStorage.has rest name = true := by
        simpa [CacheStorage.has_cons, hp] using hhas
      simp only [CacheStorage.lookup, hc]
      exact ih hrest (fun q hq => hclear q (List.mem_cons_of_mem _ hq))

/-- Opening a partition leaves the partitions that hold no entry for a URL
without one. -/
theorem CacheStorage.opened_clear (s : CacheStorage) (name other : String) (u : Url)
    (hclear : ∀ p ∈ s, p.1 ≠ name → Cache.lookup p.2 u = none) :
    ∀ p ∈ s.opened other, p.1 ≠ name → Cache.lookup p.2 u = none := by
  unfold CacheStorage.opened
  by_cases hs : s.has other = true
  · rw [if_pos hs]
    exact hclear
  · rw [if_neg hs]
    intro p hp hne
    rcases List.mem_append.mp hp with hp | hp
    · exact hclear p hp hne
    · have : p = (other, []) := by simpa using hp
      subst this
      rfl

/-- C4 as stated fails: a `GET` request for `/api/protocols` answered with the
OK status `206` is returned as it is, but `cache.put` rejects a partial
response, and the api partition still maps the request to the earlier entry;
answered with `200` and `Vary: *` it is returned as well, and the api partition,
empty before, holds no entry for the request; and so it is for a request with
the scheme of a browser extension answered with `200`. -/
theorem handleApiRequest_live_counterexample :
    (sampleRequest "/api/protocols" "").method = "GET" ∧
    isApiRequest (sampleRequest "/api/protocols" "") = true ∧
    partialWorld.fetch (sampleRequest "/api/protocols" "")
      = .ok { data := partialData, guard := .immutable } ∧
    Response.ok { data := partialData, guard := .immutable } = true ∧
    (handleApiRequest partialWorld protocolsStorage (sampleRequest "/api/protocols" "")).result
      = .ok { data := partialData, guard := .immutable } ∧
    Cache.lookup
      ((handleApiRequest partialWorld protocolsStorage
          (sampleRequest "/api/protocols" "")).storage.partition API_CACHE_NAME)
      (sampleRequest "/api/protocols" "").url = some protocolsData ∧
    protocolsData ≠ partialData ∧
    varyStarWorld.fetch (sampleRequest "/api/protocols" "")
      = .ok { data := varyStarData, guard := .immutable } ∧
    Response.ok { data := varyStarData, guard := .immutable } = true ∧
    (handleApiRequest varyStarWorld [] (sampleRequest "/api/protocols" "")).result
      = .ok { data := varyStarData, guard := .immutable } ∧
    Cache.lookup
      ((handleApiRequest varyStarWorld [] (sampleRequest "/api/protocols" "")).storage.partition
        API_CACHE_NAME)
      (sampleRequest "/api/protocols" "").url = none ∧
    (extensionRequest "/api/protocols" "").method = "GET" ∧
    isApiRequest (extensionRequest "/api/protocols" "") = true ∧
    (handleApiRequest onlineWorld [] (extensionRequest "/api/protocols" "")).result
      = .ok { data := { status := 200, headers := [], body := "fresh" }, guard := .immutable } ∧
    Cache.lookup
      ((handleApiRequest onlineWorld [] (extensionRequest "/api/protocols" "")).storage.partition
        API_CACHE_NAME)
      (extensionRequest "/api/protocols" "").url = none :=
  ⟨rfl, by decide, rfl, by decide, rfl, by decide, by decide, rfl, by decide, rfl, by decide,
   rfl, by decide, rfl, by decide⟩

/-- C4, amended: for a `GET` API request, when the network fetch resolves with
an OK response, `handleApiRequest` resolves with that very response (the
listener hands it on).  When the Cache API accepts the response (the URL is
`http(s)`, the status is not `206`, there is no `Vary: *` header) the api
partition afterwards holds a copy of it under the request URL, as the only
entry for that URL; when it does not, the api partition keeps the entries it
had.  In both cases every other partition, the static one among them, exists
and reads as before. -/
theorem handleApiRequest_live (w : World) (s : CacheStorage) (request : Request)
    (v : Response)
    (hget : request.method = "GET")
    (hapi : isApiRequest request = true)
    (hnet : w.fetch request = .ok v)
    (hok : v.ok = true) :
    (handleApiRequest w s request).result = .ok v ∧
    (fetchListener w s request).result = .ok (some v) ∧
    (request.url.isHttp = true → v.data.storable = true →
      Cache.lookup ((handleApiRequest w s request).storage.partition API_CACHE_NAME)
        request.url.withoutFragment = some v.data ∧
      ((handleApiRequest w s request).storage.partition API_CACHE_NAME).filter
        (fun e => decide (e.1 = request.url.withoutFragment))
          = [(request.url.withoutFragment, v.data)]) ∧
    ((request.url.isHttp = false ∨ v.data.storable = false) →
      (handleApiRequest w s request).storage = s.opened API_CACHE_NAME ∧
      (handleApiRequest w s request).storage.partition API_CACHE_NAME
        = s.partition API_CACHE_NAME) ∧
    (handleApiRequest w s request).storage.partition CACHE_NAME = s.partition CACHE_NAME ∧
    (handleApiRequest w s request).storage.has CACHE_NAME = s.has CACHE_NAME ∧
    (∀ n, n ≠ API_CACHE_NAME →
      (handleApiRequest w s request).storage.partition n = s.partition n ∧
      (handleApiRequest w s request).storage.has n = s.has n) := by
  have hres : (handleApiRequest w s request).result = .ok v := by
    simp [handleApiRequest, hnet, hok]
  have hframe : ∀ n, n ≠ API_CACHE_NAME →
      (handleApiRequest w s request).storage.partition n = s.partition n ∧
      (handleApiRequest w s request).storage.has n = s.has n := by
    intro n hn
    by_cases hacc : cacheAccepts request v.data = true
    · rw [handleApiRequest_storage_ok w s request v hnet hok hacc,
        CacheStorage.partition_insert_other _ _ _ _ _ hn, CacheStorage.partition_opened,
        CacheStorage.has_insert, CacheStorage.has_opened_other _ _ _ hn]
      exact ⟨rfl, rfl⟩
    · have hacc2 : cacheAccepts request v.data = false := by simpa using hacc
      rw [handleApiRequest_storage_rejected w s request v hnet hok hacc2,
        CacheStorage.partition_opened, CacheStorage.has_opened_other _ _ _ hn]
      exact ⟨rfl, rfl⟩
  have hne : CACHE_NAME ≠ API_CACHE_NAME := by decide
  refine ⟨hres, ?_, ?_, ?_, (hframe _ hne).1, (hframe _ hne).2, hframe⟩
  · simp [fetchListener, hapi, Outcome.respondWith, hres]
  · intro hhttp hstorable
    have hacc : cacheAccepts request v.data = true :=
      (cacheAccepts_iff request v.data).mpr ⟨hhttp, hget, hstorable⟩
    have hpart : (handleApiRequest w s request).storage.partition API_CACHE_NAME =
        Cache.insert (s.partition API_CACHE_NAME) request.url.withoutFragment v.data := by
      rw [handleApiRequest_storage_ok w s request v hnet hok hacc,
        CacheStorage.partition_insert_self _ _ _ _
          (CacheStorage.has_opened_self s API_CACHE_NAME), CacheStorage.partition_opened]
    rw [hpart, Cache.lookup_insert_self, Cache.filter_insert_self]
    exact ⟨rfl, rfl⟩
  · intro hbad
    have hacc : cacheAccepts request v.data = false := by
      cases hc : cacheAccepts request v.data with
      | false => rfl
      | true =>
        obtain ⟨h1, _, h3⟩ := (cacheAccepts_iff request v.data).mp hc
        rcases hbad with hb | hb
        · rw [h1] at hb; cases hb
        · rw [h3] at hb; cases hb
    rw [handleApiRequest_storage_rejected w s request v hnet hok hacc,
      CacheStorage.partition_opened]
    exact ⟨rfl, rfl⟩

/-- C4 amended, exercised: `/api/protocols` answered with `200`; the api
partition is created and holds the answer. -/
theorem handleApiRequest_live_witness :
    (handleApiRequest onlineWorld shellStorage (sampleRequest "/api/protocols" "")).result
      = .ok { data := { status := 200, headers := [], body := "fresh" }, guard := .immutable } ∧
    Cache.lookup
      ((handleApiRequest onlineWorld shellStorage
          (sampleRequest "/api/protocols" "")).storage.partition API_CACHE_NAME)
      (sampleRequest "/api/protocols" "").url
      = some { status := 200, headers := [], body := "fresh" } :=
  have h := handleApiRequest_live onlineWorld shellStorage (sampleRequest "/api/protocols" "")
    { data := { status := 200, headers := [], body := "fresh" }, guard := .immutable }
    rfl (by decide) rfl (by decide)
  ⟨h.1, (h.2.2.1 (by decide) (by decide)).1⟩

/-- C3 as stated fails, on Chromium too.  (1) `/api/protocols` answered with the
OK status `206` is returned but not stored, and handling the request again with
the network down rejects with the network error.  (2) With a partition of an
earlier release holding an older answer for `/api/protocols`, the answer `200`
with body `fresh` is stored in the api partition, yet the second handling
returns the older body, which `caches.match` meets first.  (3) On an engine that
keeps the headers of cached responses immutable the second handling rejects
with the `TypeError` of line 131.  (4) A request with the scheme of a browser
extension answered with `200` is returned but not stored, `cache.put` storing
`http(s)` URLs only, and the second handling rejects with the network error. -/
theorem handleApiRequest_round_trip_counterexample :
    (sampleRequest "/api/protocols" "").method = "GET" ∧
    isApiRequest (sampleRequest "/api/protocols" "") = true ∧
    (handleApiRequest partialWorld [] (sampleRequest "/api/protocols" "")).result
      = .ok { data := partialData, guard := .immutable } ∧
    Response.ok { data := partialData, guard := .immutable } = true ∧
    (handleApiRequest offlineWorld.onChromium
        (handleApiRequest partialWorld [] (sampleRequest "/api/protocols" "")).storage
        (sampleRequest "/api/protocols" "")).result = .error fetchFailed ∧
    (handleApiRequest onlineWorld.onChromium legacyApiStorage
        (sampleRequest "/api/protocols" "")).result
      = .ok { data := { status := 200, headers := [], body := "fresh" }, guard := .immutable } ∧
    (handleApiRequest offlineWorld.onChromium
        (handleApiRequest onlineWorld.onChromium legacyApiStorage
          (sampleRequest "/api/protocols" "")).storage
        (sampleRequest "/api/protocols" "")).result
      = .ok { data := { status := 200, headers := [("X-Served-From", "cache-offline")],
                        body := "[1,2,3]" },
              guard := .response } ∧
    (handleApiRequest offlineWorld
        (handleApiRequest onlineWorld [] (sampleRequest "/api/protocols" "")).storage
        (sampleRequest "/api/protocols" "")).result
      = .error { name := "TypeError", message := "Headers are immutable" } ∧
    (handleApiRequest onlineWorld.onChromium [] (extensionRequest "/api/protocols" "")).result
      = .ok { data := { status := 200, headers := [], body := "fresh" }, guard := .immutable } ∧
    (handleApiRequest offlineWorld.onChromium
        (handleApiRequest onlineWorld.onChromium []
          (extensionRequest "/api/protocols" "")).storage
        (extensionRequest "/api/protocols" "")).result = .error fetchFailed :=
  ⟨rfl, by decide, rfl, by decide, rfl, rfl, rfl, rfl, rfl, rfl⟩

/-- C3, amended: for a `GET` API request with an `http(s)` URL and an OK
response the Cache API stores (status other than `206`, no `Vary: *`), handled
from a storage in which no partition other than the api partition holds an
entry for the request: handling the same request again with the network
failing (rejecting or non-OK), on an engine that hands cached responses out
with mutable headers, resolves with the stored response marked: the status and
the body of the first answer and the header `X-Served-From: cache-offline`. -/
theorem handleApiRequest_round_trip (w1 w2 : World) (s : CacheStorage)
    (request : Request) (v : Response)
    (hget : request.method = "GET")
    (hapi : isApiRequest request = true)
    (hhttp : request.url.isHttp = true)
    (hnet1 : w1.fetch request = .ok v)
    (hok : v.ok = true)
    (hstorable : v.data.storable = true)
    (hclear : ∀ p ∈ s, p.1 ≠ API_CACHE_NAME →
      Cache.lookup p.2 request.url.withoutFragment = none)
    (hmutable : w2.cachedGuard = .response)
    (hnet2 : (∃ e, w2.fetch request = .error e) ∨
             (∃ v2, w2.fetch request = .ok v2 ∧ v2.ok = false)) :
    ∃ marked,
      (handleApiRequest w2 (handleApiRequest w1 s request).storage request).result
        = .ok marked ∧
      (fetchListener w2 (handleApiRequest w1 s request).storage request).result
        = .ok (some marked) ∧
      marked.data.status = v.data.status ∧
      marked.data.body = v.data.body ∧
      headersGet marked.data.headers "X-Served-From" = some "cache-offline" ∧
      marked.data.headers = headersSetList v.data.headers "X-Served-From" "cache-offline" := by
  have hacc : cacheAccepts request v.data = true :=
    (cacheAccepts_iff request v.data).mpr ⟨hhttp, hget, hstorable⟩
  have hlook : (handleApiRequest w1 s request).storage.lookup request.url.withoutFragment
      = some v.data := by
    rw [handleApiRequest_storage_ok w1 s request v hnet1 hok hacc]
    exact CacheStorage.lookup_insert_of_clear _ _ _ _
      (CacheStorage.has_opened_self s API_CACHE_NAME)
      (CacheStorage.opened_clear s _ _ _ hclear)
  have hmatch : cachesMatch w2 (handleApiRequest w1 s request).storage request
      = some { data := v.data, guard := .response } := by
    simp [cachesMatch, hget, hlook, hmutable]
  have hcatch : ∀ e, handleApiRequestCatch w2 (handleApiRequest w1 s request).storage request e
      = .ok { data := { v.data with
                headers := headersSetList v.data.headers "X-Served-From" "cache-offline" },
              guard := .response } := by
    intro e
    simp [handleApiRequestCatch, hmatch, Response.clone, Response.headersSet]
  obtain ⟨e, he⟩ := handleApiRequest_result_of_failure w2 _ request hnet2
  rw [hcatch] at he
  refine ⟨_, he, ?_, rfl, rfl, headersGet_headersSetList _ _ _, rfl⟩
  simp [fetchListener, hapi, Outcome.respondWith, he]

/-- C3 amended, exercised: on Chromium `/api/protocols` is answered with `200`
and stored; with the network down the second handling returns the stored
answer with the marker. -/
theorem handleApiRequest_round_trip_witness :
    (handleApiRequest offlineWorld.onChromium
        (handleApiRequest onlineWorld.onChromium [] (sampleRequest "/api/protocols" "")).storage
        (sampleRequest "/api/protocols" "")).result
      = .ok { data := { status := 200, headers := [("X-Served-From", "cache-offline")],
                        body := "fresh" },
              guard := .response } := by
  obtain ⟨marked, hres, _, _, _, _, _⟩ :=
    handleApiRequest_round_trip onlineWorld.onChromium offlineWorld.onChromium []
      (sampleRequest "/api/protocols" "")
      { data := { status := 200, headers := [], body := "fresh" }, guard := .immutable }
      rfl (by decide) (by decide) rfl (by decide) (by decide)
      (by intro p hp; cases hp) rfl (Or.inl ⟨fetchFailed, rfl⟩)
  exact rfl

/-! ## Install, then cache-first -/

/-- A successful install: `addAll` collected an entry for every manifest
request, the storage is the opened storage with these entries put into the
static partition and the api endpoints pre-warmed, and `skipWaiting` ran. -/
theorem install_ok (w : World) (s : CacheStorage) (h : (install w s).result = .ok ()) :
    ∃ entries, fetchAllOk w (STATIC_CACHE_URLS.map w.reloadRequest) = .ok entries ∧
      (install w s).storage =
        (completionOrder w API_CACHE_URLS).foldl (precacheApiUrl w)
          (((s.opened CACHE_NAME).opened API_CACHE_NAME).insertAll CACHE_NAME entries) ∧
      (install w s).skipWaiting = true := by
  cases hf : fetchAllOk w (STATIC_CACHE_URLS.map w.reloadRequest) with
  | error e => simp [install, cacheAddAll, hf] at h
  | ok entries => exact ⟨entries, rfl, by simp [install, cacheAddAll, hf], by simp [install, cacheAddAll, hf]⟩

/-- C6 as stated fails: with a partition of an earlier release holding the old
shell under `/`, install succeeds and stores the fresh `/`, yet the cache-first
lookup of a `GET` request for `/` answers the old shell, which `caches.match`
meets first. -/
theorem install_then_cache_first_counterexample :
    "/" ∈ STATIC_CACHE_URLS ∧
    (install onlineWorld legacyStorage).result = .ok () ∧
    onlineWorld.net (onlineWorld.reloadRequest "/")
      = .ok { status := 200, headers := [], body := "fresh" } ∧
    Cache.lookup ((install onlineWorld legacyStorage).storage.partition CACHE_NAME)
      (onlineWorld.resolve "/") = some { status := 200, headers := [], body := "fresh" } ∧
    (sampleRequest "/" "document").method = "GET" ∧
    (sampleRequest "/" "document").url = onlineWorld.resolve "/" ∧
    (handleStaticRequest offlineWorld (install onlineWorld legacyStorage).storage
        (sampleRequest "/" "document")).result
      = .ok { data := shellData, guard := .immutable } ∧
    shellData ≠ { status := 200, headers := [], body := "fresh" } :=
  ⟨by decide, rfl, rfl, by decide, rfl, by decide, rfl, by decide⟩

/-- C6, amended: for every URL of the static manifest, after an install that
completed successfully from a prior storage in which no partition other than
the static one holds an entry for that URL, `handleStaticRequest` applied to a
`GET` request for that URL (with or without a fragment) resolves with the
response the install fetched and stored, unchanged, leaves the storage as it is
and sends nothing to the network, whatever the network and the engine are. -/
theorem install_then_cache_first (w : World) (s : CacheStorage) (u : String)
    (hu : u ∈ STATIC_CACHE_URLS)
    (hinstall : (install w s).result = .ok ())
    (hclear : ∀ p ∈ s, p.1 ≠ CACHE_NAME → Cache.lookup p.2 (w.resolve u) = none) :
    ∃ d, w.net (w.reloadRequest u) = .ok d ∧
      Cache.lookup ((install w s).storage.partition CACHE_NAME) (w.resolve u) = some d ∧
      ∀ (w2 : World) (request : Request),
        request.method = "GET" → request.url.withoutFragment = w.resolve u →
        (handleStaticRequest w2 (install w s).storage request).result
          = .ok { data := d, guard := w2.cachedGuard } ∧
        (handleStaticRequest w2 (install w s).storage request).storage = (install w s).storage ∧
        (handleStaticRequest w2 (install w s).storage request).fetched = [] := by
  obtain ⟨entries, hf, hsto, _⟩ := install_ok w s hinstall
  obtain ⟨d, hd, _, _, hmem⟩ := fetchAllOk_mem w _ entries hf (w.reloadRequest u)
    (List.mem_map_of_mem _ hu)
  have hkeys : entries.map (fun e => e.1) = STATIC_CACHE_URLS.map w.resolve := by
    rw [fetchAllOk_keys w _ entries hf, List.map_map]
    rfl
  have hinj : Function.Injective w.resolve := by
    intro a b hab
    exact congrArg Url.pathname hab
  have hnodup : (entries.map (fun e => e.1)).Nodup := by
    rw [hkeys]
    exact List.Nodup.map hinj (by decide)
  have hun : Unshadowed ((s.opened CACHE_NAME).opened API_CACHE_NAME) (w.resolve u) :=
    (Unshadowed.opened hclear CACHE_NAME).opened API_CACHE_NAME
  have hhas : ((s.opened CACHE_NAME).opened API_CACHE_NAME).has CACHE_NAME = true := by
    rw [CacheStorage.has_opened_other _ _ _ (by decide)]
    exact CacheStorage.has_opened_self s CACHE_NAME
  have hdisjoint : ∀ a ∈ API_CACHE_URLS, ∀ b ∈ STATIC_CACHE_URLS, a ≠ b := by decide
  have hserves : Serves (install w s).storage (w.resolve u) d := by
    rw [hsto]
    refine Serves.precache w (completionOrder w API_CACHE_URLS) _
      (Unshadowed.serves_insertAll entries _ hun hhas hnodup hmem) ?_
    intro a ha hab
    exact hdisjoint a ((mem_completionOrder w _ a).mp ha) u hu (hinj hab)
  refine ⟨d, hd, ?_, ?_⟩
  · have hpart : ∀ (s2 : CacheStorage), Serves s2 (w.resolve u) d →
        Cache.lookup (s2.partition CACHE_NAME) (w.resolve u) = some d := by
      intro s2 hs2
      induction s2 with
      | nil => simp [Serves, CacheStorage.has] at hs2
      | cons p rest ih =>
        obtain ⟨pn, pc⟩ := p
        have hp := hs2.2 (pn, pc) (List.mem_cons_self _ _)
        by_cases hn : pn = CACHE_NAME
        · simpa [CacheStorage.partition, hn] using hp
        · have hrest : CacheStorage.has rest CACHE_NAME = true := by
            simpa [CacheStorage.has_cons, hn] using hs2.1
          simpa [CacheStorage.partition, hn] using
            ih ⟨hrest, fun q hq => hs2.2 q (List.mem_cons_of_mem _ hq)⟩
    exact hpart _ hserves
  · intro w2 request hget hurl
    have hmatch : cachesMatch w2 (install w s).storage request
        = some { data := d, guard := w2.cachedGuard } := by
      simp [cachesMatch, hget, hurl, hserves.lookup]
    simp [handleStaticRequest, hmatch]

/-- C6 amended, exercised: install into an empty storage with every fetch
answered `200`; offline, the bundle is then served from the static partition
without a fetch. -/
theorem install_then_cache_first_witness :
    (handleStaticRequest offlineWorld (install onlineWorld []).storage
        (sampleRequest "/static/js/bundle.js" "script")).result
      = .ok { data := { status := 200, headers := [], body := "fresh" }, guard := .immutable } ∧
    (handleStaticRequest offlineWorld (install onlineWorld []).storage
        (sampleRequest "/static/js/bundle.js" "script")).fetched = [] := by
  obtain ⟨d, hd, _, h⟩ := install_then_cache_first onlineWorld [] "/static/js/bundle.js"
    (by decide) rfl (by intro p hp; simp at hp)
  have hfresh : d = { status := 200, headers := [], body := "fresh" } :=
    (Except.ok.inj hd).symm
  subst hfresh
  exact ⟨(h offlineWorld (sampleRequest "/static/js/bundle.js" "script") rfl rfl).1,
    (h offlineWorld (sampleRequest "/static/js/bundle.js" "script") rfl rfl).2.2⟩

/-! ## Cache-first: the network path -/

/-- The storage after a miss answered with an OK response the cache accepts:
the static partition exists and holds the response under the request URL. -/
theorem handleStaticRequest_storage_ok (w : World) (s : CacheStorage) (request : Request)
    (v : Response) (hmiss : cachesMatch w s request = none) (hnet : w.fetch request = .ok v)
    (hok : v.ok = true) (hacc : cacheAccepts request v.data = true) :
    (handleStaticRequest w s request).storage =
      (s.opened CACHE_NAME).insert CACHE_NAME request.url.withoutFragment v.data := by
  have h := (cachePutDetached_of_accepts (s.opened CACHE_NAME) CACHE_NAME request
    v.clone hacc).2
  simp only [handleStaticRequest, hmiss, hnet, hok, if_true]
  exact h

/-- The storage after a miss answered with an OK response the cache rejects:
the static partition was opened and nothing was put. -/
theorem handleStaticRequest_storage_rejected (w : World) (s : CacheStorage)
    (request : Request) (v : Response) (hmiss : cachesMatch w s request = none)
    (hnet : w.fetch request = .ok v) (hok : v.ok = true)
    (hacc : cacheAccepts request v.data = false) :
    (handleStaticRequest w s request).storage = s.opened CACHE_NAME := by
  have h := (cachePutDetached_of_rejects (s.opened CACHE_NAME) CACHE_NAME request
    v.clone hacc).2
  simp only [handleStaticRequest, hmiss, hnet, hok, if_true]
  exact h

/-- C7 as stated fails: a `GET` image request that misses the cache and is
answered by the network with `404` is resolved with that response, but the
static partition holds no copy of it afterwards; the same request answered with
the OK status `206`, or with `200` and `Vary: *`, is resolved with that
response, and `cache.put` rejects the copy, so the static partition holds no
entry for it either; nor does it for an image of a browser extension answered
with `200`, whose URL is not `http(s)`. -/
theorem handleStaticRequest_stores_any_response_counterexample :
    isStaticRequest (sampleRequest "/logo999.png" "image") = true ∧
    (sampleRequest "/logo999.png" "image").method = "GET" ∧
    cachesMatch notFoundWorld [] (sampleRequest "/logo999.png" "image") = none ∧
    notFoundWorld.fetch (sampleRequest "/logo999.png" "image")
      = .ok { data := { status := 404, headers := [], body := "missing" }, guard := .immutable } ∧
    (handleStaticRequest notFoundWorld [] (sampleRequest "/logo999.png" "image")).result
      = .ok { data := { status := 404, headers := [], body := "missing" }, guard := .immutable } ∧
    Cache.lookup
      ((handleStaticRequest notFoundWorld [] (sampleRequest "/logo999.png" "image")).storage.partition
        CACHE_NAME)
      (sampleRequest "/logo999.png" "image").url = none ∧
    (handleStaticRequest notFoundWorld [] (sampleRequest "/logo999.png" "image")).storage = [] ∧
    Response.ok { data := partialData, guard := .immutable } = true ∧
    (handleStaticRequest partialWorld [] (sampleRequest "/logo999.png" "image")).result
      = .ok { data := partialData, guard := .immutable } ∧
    Cache.lookup
      ((handleStaticRequest partialWorld [] (sampleRequest "/logo999.png" "image")).storage.partition
        CACHE_NAME)
      (sampleRequest "/logo999.png" "image").url = none ∧
    Response.ok { data := varyStarData, guard := .immutable } = true ∧
    (handleStaticRequest varyStarWorld [] (sampleRequest "/logo999.png" "image")).result
      = .ok { data := varyStarData, guard := .immutable } ∧
    Cache.lookup
      ((handleStaticRequest varyStarWorld [] (sampleRequest "/logo999.png" "image")).storage.partition
        CACHE_NAME)
      (sampleRequest "/logo999.png" "image").url = none ∧
    isStaticRequest (extensionRequest "/icons/badge.png" "image") = true ∧
    (handleStaticRequest onlineWorld [] (extensionRequest "/icons/badge.png" "image")).result
      = .ok { data := { status := 200, headers := [], body := "fresh" }, guard := .immutable } ∧
    Cache.lookup
      ((handleStaticRequest onlineWorld [] (extensionRequest "/icons/badge.png" "image")).storage.partition
        CACHE_NAME)
      (extensionRequest "/icons/badge.png" "image").url = none :=
  ⟨by decide, rfl, by decide, rfl, rfl, by decide, by decide, by decide, rfl, by decide,
   by decide, rfl, by decide, by decide, rfl, by decide⟩

/-- C7, amended: for a static-class `GET` request that misses the cache,
whenever the network fetch resolves with a response, `handleStaticRequest`
resolves with that response (and the listener hands it on, unless the request is
an API request); when the response is OK and the Cache API accepts it (the URL
is `http(s)`, the status is not `206`, there is no `Vary: *` header), the static
partition afterwards holds a copy of it under the request URL; otherwise no
entry is written. -/
theorem handleStaticRequest_network_path (w : World) (s : CacheStorage) (request : Request)
    (v : Response)
    (hstatic : isStaticRequest request = true)
    (hget : request.method = "GET")
    (hmiss : cachesMatch w s request = none)
    (hnet : w.fetch request = .ok v) :
    (handleStaticRequest w s request).result = .ok v ∧
    (isApiRequest request = false → (fetchListener w s request).result = .ok (some v)) ∧
    (v.ok = true → request.url.isHttp = true → v.data.storable = true →
      Cache.lookup ((handleStaticRequest w s request).storage.partition CACHE_NAME)
        request.url.withoutFragment = some v.data) ∧
    ((v.ok = false ∨ request.url.isHttp = false ∨ v.data.storable = false) →
      ∀ n, (handleStaticRequest w s request).storage.partition n = s.partition n) := by
  have hres : (handleStaticRequest w s request).result = .ok v := by
    by_cases hok : v.ok = true
    · simp [handleStaticRequest, hmiss, hnet, hok]
    · simp [handleStaticRequest, hmiss, hnet, hok]
  refine ⟨hres, ?_, ?_, ?_⟩
  · intro hapi
    simp [fetchListener, hapi, hstatic, Outcome.respondWith, hres]
  · intro hok hhttp hstorable
    have hacc : cacheAccepts request v.data = true :=
      (cacheAccepts_iff request v.data).mpr ⟨hhttp, hget, hstorable⟩
    rw [handleStaticRequest_storage_ok w s request v hmiss hnet hok hacc,
      CacheStorage.partition_insert_self _ _ _ _
        (CacheStorage.has_opened_self s CACHE_NAME), Cache.lookup_insert_self]
  · intro hbad n
    by_cases hok : v.ok = true
    · have hacc : cacheAccepts request v.data = false := by
        cases hc : cacheAccepts request v.data with
        | false => rfl
        | true =>
          obtain ⟨h1, _, h3⟩ := (cacheAccepts_iff request v.data).mp hc
          rcases hbad with hb | hb | hb
          · rw [hok] at hb; cases hb
          · rw [h1] at hb; cases hb
          · rw [h3] at hb; cases hb
      rw [handleStaticRequest_storage_rejected w s request v hmiss hnet hok hacc,
        CacheStorage.partition_opened]
    · have hsto : (handleStaticRequest w s request).storage = s := by
        simp [handleStaticRequest, hmiss, hnet, hok]
      rw [hsto]

/-- C7 amended, exercised: a missed image request answered with `200` is
returned and stored in the static partition. -/
theorem handleStaticRequest_network_path_witness :
    (handleStaticRequest onlineWorld [] (sampleRequest "/logo999.png" "image")).result
      = .ok { data := { status := 200, headers := [], body := "fresh" }, guard := .immutable } ∧
    Cache.lookup
      ((handleStaticRequest onlineWorld [] (sampleRequest "/logo999.png" "image")).storage.partition
        CACHE_NAME)
      (sampleRequest "/logo999.png" "image").url
      = some { status := 200, headers := [], body := "fresh" } :=
  have h := handleStaticRequest_network_path onlineWorld [] (sampleRequest "/logo999.png" "image")
    { data := { status := 200, headers := [], body := "fresh" }, guard := .immutable }
    (by decide) rfl (by decide) rfl
  ⟨h.1, h.2.2.1 (by decide) (by decide) (by decide)⟩

/-! ## Cache-first: the failure paths -/

/-- C8: for a request with destination `document` that `caches.match` misses,
when the network fetch rejects and `caches.match('/')` finds an entry,
`handleStaticRequest` resolves with exactly that entry, and the listener hands
it to `respondWith`. -/
theorem handleStaticRequest_shell_fallback (w : World) (s : CacheStorage) (request : Request)
    (e : JsError) (indexResponse : Response)
    (hdoc : request.destination = "document")
    (hmiss : cachesMatch w s request = none)
    (hnet : w.fetch request = .error e)
    (hroot : cachesMatch w s (w.request "/") = some indexResponse) :
    (handleStaticRequest w s request).result = .ok indexResponse ∧
    (handleStaticRequest w s request).storage = s ∧
    (isApiRequest request = false →
      (fetchListener w s request).result = .ok (some indexResponse)) := by
  have hres : (handleStaticRequest w s request).result = .ok indexResponse := by
    simp [handleStaticRequest, hmiss, hnet, handleStaticRequestCatch, hdoc, hroot]
  refine ⟨hres, by simp [handleStaticRequest, hmiss, hnet], ?_⟩
  intro hapi
  simp [fetchListener, hapi, isStaticRequest, hdoc, Outcome.respondWith, hres]

/-- C8 exercised: a navigation to `/dashboard` while offline, with only `/`
cached, is answered with the cached `/`. -/
theorem handleStaticRequest_shell_fallback_witness :
    (handleStaticRequest offlineWorld shellStorage (sampleRequest "/dashboard" "document")).result
      = .ok { data := shellData, guard := .immutable } :=
  (handleStaticRequest_shell_fallback offlineWorld shellStorage
    (sampleRequest "/dashboard" "document") fetchFailed
    { data := shellData, guard := .immutable } rfl (by decide) rfl (by decide)).1

/-- C9: for a request with destination `script`, `style` or `image` that
`caches.match` misses, when the network fetch rejects with an error,
`handleStaticRequest` rejects with that same error whatever is cached for `/`;
a `document` request rejects with it as well when `caches.match('/')` finds
nothing.  The storage is left as it was. -/
theorem handleStaticRequest_propagates (w : World) (s : CacheStorage) (request : Request)
    (e : JsError)
    (hmiss : cachesMatch w s request = none)
    (hnet : w.fetch request = .error e) :
    ((request.destination = "script" ∨ request.destination = "style" ∨
        request.destination = "image") →
      (handleStaticRequest w s request).result = .error e ∧
      (handleStaticRequest w s request).storage = s) ∧
    (request.destination = "document" → cachesMatch w s (w.request "/") = none →
      (handleStaticRequest w s request).result = .error e ∧
      (handleStaticRequest w s request).storage = s) := by
  constructor
  · intro hdest
    have hnd : request.destination ≠ "document" := by
      rcases hdest with h | h | h <;> rw [h] <;> decide
    simp [handleStaticRequest, hmiss, hnet, handleStaticRequestCatch, hnd]
  · intro hdoc hroot
    simp [handleStaticRequest, hmiss, hnet, handleStaticRequestCatch, hdoc, hroot]

/-- C9 exercised: offline, with `/` cached, a script request still rejects with
the network error; with nothing cached a navigation rejects with it too. -/
theorem handleStaticRequest_propagates_witness :
    (handleStaticRequest offlineWorld shellStorage
        (sampleRequest "/static/js/2.chunk.js" "script")).result = .error fetchFailed ∧
    (handleStaticRequest offlineWorld [] (sampleRequest "/dashboard" "document")).result
        = .error fetchFailed :=
  ⟨((handleStaticRequest_propagates offlineWorld shellStorage
        (sampleRequest "/static/js/2.chunk.js" "script") fetchFailed (by decide) rfl).1
      (Or.inl rfl)).1,
   ((handleStaticRequest_propagates offlineWorld []
        (sampleRequest "/dashboard" "document") fetchFailed (by decide) rfl).2
      rfl (by decide)).1⟩

/-! ## Activation -/

/-- The cleanup loop deletes exactly the stale partitions among the names it is
given. -/
theorem deleteStaleCaches_eq_filter (names : List String) (s : CacheStorage) :
    deleteStaleCaches s names =
      s.filter (fun p => !(isStaleCache p.1 && decide (p.1 ∈ names))) := by
  induction names generalizing s with
  | nil => simp [deleteStaleCaches]
  | cons n rest ih =>
    by_cases hn : isStaleCache n = true
    · simp only [deleteStaleCaches, hn, if_true, ih, CacheStorage.delete, List.filter_filter]
      apply List.filter_congr
      intro p _
      by_cases hp : p.1 = n
      · simp [hp, hn]
      · simp [hp]
    · have hn2 : isStaleCache n = false := by simpa using hn
      simp only [deleteStaleCaches, hn2, ih]
      apply List.filter_congr
      intro p _
      by_cases hp : p.1 = n
      · simp [hp, hn2]
      · simp [hp]

/-- A name is stale exactly when it is neither current name. -/
theorem isStaleCache_eq_false_iff (n : String) :
    isStaleCache n = false ↔ (n = CACHE_NAME ∨ n = API_CACHE_NAME) := by
  simp only [isStaleCache, Bool.and_eq_false_iff, bne_eq_false_iff_eq]

/-- C10: activation keeps exactly the partitions named `peptideprotocols-v1` or
`peptideprotocols-api-v1`: the storage afterwards is the prior storage filtered
by these two names, so a name remains exactly when it existed before and is
one of the two.  With both current partitions present among any number of
stale ones (names distinct), exactly those two remain. -/
theorem activate_keeps_current (s : CacheStorage) :
    (activate s).storage =
      s.filter (fun p => decide (p.1 = CACHE_NAME ∨ p.1 = API_CACHE_NAME)) ∧
    (activate s).storage.keys =
      s.keys.filter (fun n => decide (n = CACHE_NAME ∨ n = API_CACHE_NAME)) ∧
    (∀ n, n ∈ (activate s).storage.keys ↔
      (n ∈ s.keys ∧ (n = CACHE_NAME ∨ n = API_CACHE_NAME))) ∧
    (s.keys.Nodup → CACHE_NAME ∈ s.keys → API_CACHE_NAME ∈ s.keys →
      (activate s).storage.keys.length = 2 ∧
      ∀ n, n ∈ (activate s).storage.keys ↔ (n = CACHE_NAME ∨ n = API_CACHE_NAME)) := by
  have hsto : (activate s).storage =
      s.filter (fun p => decide (p.1 = CACHE_NAME ∨ p.1 = API_CACHE_NAME)) := by
    simp only [activate, deleteStaleCaches_eq_filter]
    apply List.filter_congr
    intro p hp
    have hmem : p.1 ∈ s.keys := List.mem_map_of_mem (fun q => q.1) hp
    by_cases hst : isStaleCache p.1 = true
    · have hne : ¬ (p.1 = CACHE_NAME ∨ p.1 = API_CACHE_NAME) := by
        intro h
        rw [(isStaleCache_eq_false_iff p.1).mpr h] at hst
        exact Bool.false_ne_true hst
      simp [hst, hmem, hne]
    · have hst2 : isStaleCache p.1 = false := by simpa using hst
      simp [hst2, (isStaleCache_eq_false_iff p.1).mp hst2]
  have hkeys : (activate s).storage.keys =
      s.keys.filter (fun n => decide (n = CACHE_NAME ∨ n = API_CACHE_NAME)) := by
    rw [hsto]
    simp only [CacheStorage.keys, List.filter_map]
    rfl
  have hmem : ∀ n, n ∈ (activate s).storage.keys ↔
      (n ∈ s.keys ∧ (n = CACHE_NAME ∨ n = API_CACHE_NAME)) := by
    intro n
    rw [hkeys]
    simp [List.mem_filter]
  refine ⟨hsto, hkeys, hmem, ?_⟩
  intro hnodup hstatic hapi
  have hset : ∀ n, n ∈ (activate s).storage.keys ↔ (n = CACHE_NAME ∨ n = API_CACHE_NAME) := by
    intro n
    rw [hmem]
    constructor
    · exact fun h => h.2
    · intro h
      rcases h with h | h
      · exact ⟨h ▸ hstatic, Or.inl h⟩
      · exact ⟨h ▸ hapi, Or.inr h⟩
  refine ⟨?_, hset⟩
  have hnd : (activate s).storage.keys.Nodup := by
    rw [hkeys]
    exact hnodup.filter _
  have hpair : [CACHE_NAME, API_CACHE_NAME].Nodup := by decide
  have hperm : List.Perm (activate s).storage.keys [CACHE_NAME, API_CACHE_NAME] :=
    (List.perm_ext_iff_of_nodup hnd hpair).mpr (fun n => by rw [hset]; simp)
  simpa using hperm.length_eq

/-- C10 exercised: three stale partitions and the two current ones; the two
current ones remain, with their contents. -/
theorem activate_keeps_current_witness :
    (activate crowdedStorage).storage.keys.length = 2 ∧
    (activate crowdedStorage).storage =
      [(CACHE_NAME, shellStorage.partition CACHE_NAME), (API_CACHE_NAME, [])] :=
  ⟨((activate_keeps_current crowdedStorage).2.2.2 (by decide) (by decide) (by decide)).1,
   (activate_keeps_current crowdedStorage).1.trans (by decide)⟩

/-! ## Install: the storage it leaves -/

/-- Putting a list of entries changes the caches of the named partitions and
nothing else. -/
theorem CacheStorage.insertAll_eq_map (name : String) (entries : List (Url × ResponseData)) :
    ∀ (s : CacheStorage), s.insertAll name entries =
      s.map (fun p => if p.1 = name then (p.1, Cache.insertAll p.2 entries) else p) := by
  induction entries with
  | nil =>
    intro s
    simp [CacheStorage.insertAll, Cache.insertAll]
  | cons e rest ih =>
    intro s
    obtain ⟨u, v⟩ := e
    rw [CacheStorage.insertAll, ih, CacheStorage.insert, List.map_map]
    apply List.map_congr_left
    intro p _
    obtain ⟨pn, pc⟩ := p
    by_cases hp : pn = name
    · simp [hp, Cache.insertAll]
    · simp [hp]

/-- With distinct keys, putting a list of entries removes the old entries of
these keys and appends the new ones. -/
theorem Cache.insertAll_eq_filter_append (entries : List (Url × ResponseData)) :
    ∀ (c : Cache), (entries.map (fun e => e.1)).Nodup →
      Cache.insertAll c entries =
        c.filter (fun e => !decide (e.1 ∈ entries.map (fun e => e.1))) ++ entries := by
  induction entries with
  | nil => intro c _; simp [Cache.insertAll]
  | cons e rest ih =>
    intro c hnodup
    obtain ⟨k, v⟩ := e
    have hnd : k ∉ rest.map (fun e => e.1) ∧ (rest.map (fun e => e.1)).Nodup := by
      simpa using hnodup
    rw [Cache.insertAll, ih _ hnd.2, Cache.insert, List.filter_append, List.filter_filter]
    have hk : List.filter (fun e => !decide (e.1 ∈ rest.map (fun e => e.1))) [(k, v)]
        = [(k, v)] := by
      simp only [List.filter_cons, List.filter_nil]
      rw [if_pos]
      simpa using hnd.1
    rw [hk, List.append_assoc]
    congr 1
    apply List.filter_congr
    intro p _
    by_cases hp : p.1 = k <;> simp [hp]

/-- With distinct keys, putting the same entries again changes nothing. -/
theorem Cache.insertAll_twice (entries : List (Url × ResponseData)) (c : Cache)
    (hnodup : (entries.map (fun e => e.1)).Nodup) :
    Cache.insertAll (Cache.insertAll c entries) entries = Cache.insertAll c entries := by
  rw [Cache.insertAll_eq_filter_append entries _ hnodup,
    Cache.insertAll_eq_filter_append entries c hnodup, List.filter_append, List.filter_filter]
  have hnone : List.filter (fun e => !decide (e.1 ∈ entries.map (fun e => e.1))) entries = [] := by
    rw [List.filter_eq_nil_iff]
    intro e he
    have : e.1 ∈ entries.map (fun e => e.1) := List.mem_map_of_mem (fun e => e.1) he
    simp [this]
  rw [hnone, List.append_nil]
  congr 1
  apply List.filter_congr
  intro p _
  simp

/-- After the entries are put, a cache holds exactly one entry for each of
their keys (keys distinct): the entry put. -/
theorem Cache.filter_insertAll_of_mem (entries : List (Url × ResponseData)) (c : Cache)
    (hnodup : (entries.map (fun e => e.1)).Nodup) (u : Url) (d : ResponseData)
    (hmem : (u, d) ∈ entries) :
    (Cache.insertAll c entries).filter (fun e => decide (e.1 = u)) = [(u, d)] := by
  rw [Cache.insertAll_eq_filter_append entries c hnodup, List.filter_append, List.filter_filter]
  have hu : u ∈ entries.map (fun e => e.1) := List.mem_map_of_mem (fun e => e.1) hmem
  have hold : List.filter
      (fun e => decide (e.1 = u) && !decide (e.1 ∈ entries.map (fun e => e.1))) c = [] := by
    rw [List.filter_eq_nil_iff]
    intro e _
    by_cases he : e.1 = u
    · simp [he, hu]
    · simp [he]
  rw [hold, List.nil_append]
  clear hold hu
  induction entries with
  | nil => simp at hmem
  | cons e rest ih =>
    obtain ⟨k, v⟩ := e
    have hnd : k ∉ rest.map (fun e => e.1) ∧ (rest.map (fun e => e.1)).Nodup := by
      simpa using hnodup
    rcases List.mem_cons.mp hmem with heq | hin
    · have hk : u = k := congrArg Prod.fst heq
      have hv : d = v := congrArg Prod.snd heq
      subst hk hv
      have hrest : List.filter (fun e => decide (e.1 = u)) rest = [] := by
        rw [List.filter_eq_nil_iff]
        intro e he
        have hne : e.1 ≠ u := fun h => hnd.1 (h ▸ List.mem_map_of_mem (fun e => e.1) he)
        simp [hne]
      simp [List.filter_cons, hrest]
    · have hne : k ≠ u := fun h => hnd.1 (h ▸ List.mem_map_of_mem (fun e => e.1) hin)
      simp [List.filter_cons, hne, ih hnd.2 hin]

/-- The first entry for a URL, read off the entries of that URL. -/
theorem Cache.lookup_of_filter_eq (c : Cache) (u : Url) (d : ResponseData)
    (h : c.filter (fun e => decide (e.1 = u)) = [(u, d)]) : Cache.lookup c u = some d := by
  induction c with
  | nil => simp at h
  | cons e rest ih =>
    obtain ⟨k, v⟩ := e
    by_cases hk : k = u
    · subst hk
      simp [List.filter_cons] at h
      simp [Cache.lookup, h.1]
    · simp [List.filter_cons, hk] at h
      simp [Cache.lookup, hk, ih h]

/-- Putting a list of entries does not create or remove partitions. -/
theorem CacheStorage.has_insertAll (name n : String) (entries : List (Url × ResponseData)) :
    ∀ (s : CacheStorage), (s.insertAll name entries).has n = s.has n := by
  induction entries with
  | nil => intro s; rfl
  | cons e rest ih =>
    intro s
    obtain ⟨u, v⟩ := e
    rw [CacheStorage.insertAll, ih, CacheStorage.has_insert]

/-- Putting a list of entries keeps the partition names. -/
theorem CacheStorage.keys_insertAll (name : String) (entries : List (Url × ResponseData))
    (s : CacheStorage) : (s.insertAll name entries).keys = s.keys := by
  rw [CacheStorage.insertAll_eq_map]
  simp only [CacheStorage.keys, List.map_map]
  apply List.map_congr_left
  intro p _
  by_cases hp : p.1 = name <;> simp [hp]

/-- Opening a partition that exists changes nothing. -/
theorem CacheStorage.opened_of_has (s : CacheStorage) (name : String)
    (h : s.has name = true) : s.opened name = s := by
  simp [CacheStorage.opened, h]

/-- The partition put into, after a list of puts. -/
theorem CacheStorage.partition_insertAll_self (name : String)
    (entries : List (Url × ResponseData)) :
    ∀ (s : CacheStorage), s.has name = true →
      (s.insertAll name entries).partition name = Cache.insertAll (s.partition name) entries := by
  induction entries with
  | nil => intro s _; rfl
  | cons e rest ih =>
    intro s hhas
    obtain ⟨u, v⟩ := e
    rw [CacheStorage.insertAll, ih _ (by rw [CacheStorage.has_insert]; exact hhas),
      CacheStorage.partition_insert_self _ _ _ _ hhas, Cache.insertAll]

/-- The other partitions, after a list of puts. -/
theorem CacheStorage.partition_insertAll_other (name n : String)
    (entries : List (Url × ResponseData)) (h : n ≠ name) :
    ∀ (s : CacheStorage), (s.insertAll name entries).partition n = s.partition n := by
  induction entries with
  | nil => intro s; rfl
  | cons e rest ih =>
    intro s
    obtain ⟨u, v⟩ := e
    rw [CacheStorage.insertAll, ih, CacheStorage.partition_insert_other _ _ _ _ _ h]

/-- With distinct keys, putting the same entries into the same partition again
changes nothing. -/
theorem CacheStorage.insertAll_idem (name : String) (entries : List (Url × ResponseData))
    (s : CacheStorage) (hnodup : (entries.map (fun e => e.1)).Nodup) :
    (s.insertAll name entries).insertAll name entries = s.insertAll name entries := by
  rw [CacheStorage.insertAll_eq_map name entries (s.insertAll name entries),
    CacheStorage.insertAll_eq_map name entries s, List.map_map]
  apply List.map_congr_left
  intro p _
  obtain ⟨pn, pc⟩ := p
  by_cases hp : pn = name
  · simp [hp, Cache.insertAll_twice entries pc hnodup]
  · simp [hp]

/-- Puts into two different partitions can be exchanged. -/
theorem CacheStorage.insertAll_comm (n1 n2 : String) (e1 e2 : List (Url × ResponseData))
    (s : CacheStorage) (h : n1 ≠ n2) :
    (s.insertAll n1 e1).insertAll n2 e2 = (s.insertAll n2 e2).insertAll n1 e1 := by
  rw [CacheStorage.insertAll_eq_map n2 e2 (s.insertAll n1 e1),
    CacheStorage.insertAll_eq_map n1 e1 s,
    CacheStorage.insertAll_eq_map n1 e1 (s.insertAll n2 e2),
    CacheStorage.insertAll_eq_map n2 e2 s, List.map_map, List.map_map]
  apply List.map_congr_left
  intro p _
  obtain ⟨pn, pc⟩ := p
  by_cases hp1 : pn = n1
  · have hp2 : ¬ pn = n2 := fun e => h (hp1.symm.trans e)
    have h12 : ¬ n1 = n2 := h
    simp [hp1, h12]
  · by_cases hp2 : pn = n2
    · have h21 : ¬ n2 = n1 := fun e => h e.symm
      simp [hp2, h21]
    · simp [hp1, hp2]

/-- Pre-warming one endpoint, by the answer of the network. -/
theorem precacheApiUrl_eq (w : World) (s : CacheStorage) (url : String) :
    precacheApiUrl w s url =
      match w.net (w.request url) with
      | .ok d => if prewarmStores w url d then s.insert API_CACHE_NAME (w.resolve url) d else s
      | .error _ => s := by
  cases hn : w.net (w.request url) with
  | error e => simp [precacheApiUrl, World.fetch, hn]
  | ok d =>
    by_cases hok : Response.ok { data := d, guard := .immutable } = true
    · by_cases hacc : cacheAccepts (w.request url) d = true
      · have hput := (cachePutDetached_of_accepts s API_CACHE_NAME (w.request url)
          { data := d, guard := .immutable } hacc).2
        simp only [precacheApiUrl, World.fetch, hn, hok, if_true, prewarmStores, hacc,
          Bool.and_self]
        exact hput
      · have hacc2 : cacheAccepts (w.request url) d = false := by simpa using hacc
        have hput := (cachePutDetached_of_rejects s API_CACHE_NAME (w.request url)
          { data := d, guard := .immutable } hacc2).2
        simp only [precacheApiUrl, World.fetch, hn, hok, if_true, prewarmStores, hacc2,
          Bool.and_false]
        exact hput
    · simp [precacheApiUrl, World.fetch, hn, hok, prewarmStores]

/-- Pre-warming the endpoints puts the entries of the OK answers the cache
accepts into the api partition. -/
theorem foldl_precacheApiUrl_eq (w : World) (urls : List String) :
    ∀ (s : CacheStorage),
      urls.foldl (precacheApiUrl w) s = s.insertAll API_CACHE_NAME (okApiEntries w urls) := by
  induction urls with
  | nil => intro s; rfl
  | cons a rest ih =>
    intro s
    rw [List.foldl_cons, ih, precacheApiUrl_eq]
    cases hn : w.net (w.request a) with
    | error e => simp [okApiEntries, hn]
    | ok d =>
      by_cases hst : prewarmStores w a d = true
      · simp [okApiEntries, hn, hst, CacheStorage.insertAll]
      · simp [okApiEntries, hn, hst]

/-- The keys pre-warming writes are among the endpoints, in their order. -/
theorem okApiEntries_keys_sublist (w : World) (urls : List String) :
    List.Sublist ((okApiEntries w urls).map (fun e => e.1)) (urls.map w.resolve) := by
  induction urls with
  | nil => simp [okApiEntries]
  | cons a rest ih =>
    cases hn : w.net (w.request a) with
    | error e =>
      simp only [okApiEntries, hn, List.map_cons]
      exact List.Sublist.cons _ ih
    | ok d =>
      by_cases hst : prewarmStores w a d = true
      · simp only [okApiEntries, hn, hst, if_true, List.map_cons]
        exact List.Sublist.cons₂ _ ih
      · simp only [okApiEntries, hn, hst, List.map_cons]
        exact List.Sublist.cons _ ih

/-- Resolving a path against the worker's origin loses nothing. -/
theorem World.resolve_injective (w : World) : Function.Injective w.resolve := by
  intro a b hab
  exact congrArg Url.pathname hab

/-- The endpoints in the order their fetches settle are distinct. -/
theorem completionOrder_nodup (w : World) : (completionOrder w API_CACHE_URLS).Nodup :=
  (completionOrder_perm w API_CACHE_URLS).nodup_iff.mpr (by decide)

/-- The keys pre-warming writes are distinct. -/
theorem prewarmEntries_keys_nodup (w : World) :
    ((prewarmEntries w).map (fun e => e.1)).Nodup :=
  List.Nodup.sublist (okApiEntries_keys_sublist w (completionOrder w API_CACHE_URLS))
    (List.Nodup.map w.resolve_injective (completionOrder_nodup w))

/-- An endpoint answered with an OK response the cache accepts is among the
entries pre-warming stores. -/
theorem okApiEntries_mem (w : World) (urls : List String) (a : String) (d : ResponseData)
    (ha : a ∈ urls) (hn : w.net (w.request a) = .ok d)
    (hst : prewarmStores w a d = true) :
    (w.resolve a, d) ∈ okApiEntries w urls := by
  induction urls with
  | nil => simp at ha
  | cons b rest ih =>
    rcases List.mem_cons.mp ha with heq | hin
    · subst heq
      simp [okApiEntries, hn, hst]
    · have := ih hin
      cases hb : w.net (w.request b) with
      | error e => simpa [okApiEntries, hb] using this
      | ok d2 =>
        by_cases hst2 : prewarmStores w b d2 = true
        · simp [okApiEntries, hb, hst2, this]
        · simpa [okApiEntries, hb, hst2] using this

/-- A bootstrap endpoint answered with an OK response the cache accepts is among
the entries the pre-warm of install stores. -/
theorem prewarmEntries_mem (w : World) (a : String) (d : ResponseData)
    (ha : a ∈ API_CACHE_URLS) (hn : w.net (w.request a) = .ok d)
    (hst : prewarmStores w a d = true) :
    (w.resolve a, d) ∈ prewarmEntries w :=
  okApiEntries_mem w _ a d ((mem_completionOrder w _ a).mpr ha) hn hst

/-- The keys a successful `addAll` of the manifest writes are the manifest URLs,
which are distinct. -/
theorem manifest_entries_nodup (w : World) (entries : List (Url × ResponseData))
    (hf : fetchAllOk w (STATIC_CACHE_URLS.map w.reloadRequest) = .ok entries) :
    (entries.map (fun e => e.1)).Nodup := by
  have hkeys : entries.map (fun e => e.1) = STATIC_CACHE_URLS.map w.resolve := by
    rw [fetchAllOk_keys w _ entries hf, List.map_map]
    rfl
  rw [hkeys]
  exact List.Nodup.map w.resolve_injective (by decide)

/-- The storage install leaves, when the manifest was fetched. -/
theorem install_storage_of_ok (w : World) (s : CacheStorage)
    (entries : List (Url × ResponseData))
    (hf : fetchAllOk w (STATIC_CACHE_URLS.map w.reloadRequest) = .ok entries) :
    (install w s).result = .ok () ∧ (install w s).skipWaiting = true ∧
    (install w s).storage =
      ((((s.opened CACHE_NAME).opened API_CACHE_NAME).insertAll CACHE_NAME entries).insertAll
        API_CACHE_NAME (prewarmEntries w)) := by
  simp [install, cacheAddAll, hf, foldl_precacheApiUrl_eq, prewarmEntries]

/-- The storage install leaves, when the manifest could not be fetched. -/
theorem install_storage_of_error (w : World) (s : CacheStorage) (e : JsError)
    (hf : fetchAllOk w (STATIC_CACHE_URLS.map w.reloadRequest) = .error e) :
    (install w s).result = .error e ∧ (install w s).skipWaiting = false ∧
    (install w s).storage =
      ((s.opened CACHE_NAME).opened API_CACHE_NAME).insertAll
        API_CACHE_NAME (prewarmEntries w) := by
  simp [install, cacheAddAll, hf, foldl_precacheApiUrl_eq, prewarmEntries]

/-- The storage install works on holds both current partitions. -/
theorem opened_has_both (s : CacheStorage) :
    ((s.opened CACHE_NAME).opened API_CACHE_NAME).has CACHE_NAME = true ∧
    ((s.opened CACHE_NAME).opened API_CACHE_NAME).has API_CACHE_NAME = true := by
  refine ⟨?_, CacheStorage.has_opened_self _ _⟩
  rw [CacheStorage.has_opened_other _ _ _ (by decide)]
  exact CacheStorage.has_opened_self s CACHE_NAME

/-- When every request is answered with an OK response the cache accepts,
`addAll` collects its entries. -/
theorem fetchAllOk_of_all_ok (w : World) (requests : List Request)
    (h : ∀ r ∈ requests, ∃ d, w.net r = .ok d ∧
      Response.ok { data := d, guard := .immutable } = true ∧ cacheAccepts r d = true) :
    ∃ entries, fetchAllOk w requests = .ok entries := by
  induction requests with
  | nil => exact ⟨[], rfl⟩
  | cons r rest ih =>
    obtain ⟨d, hd, hok, hacc⟩ := h r (List.mem_cons_self _ _)
    obtain ⟨es, hes⟩ := ih (fun q hq => h q (List.mem_cons_of_mem _ hq))
    exact ⟨_, fetchAllOk_cons_of_ok w r rest d es hd hok hacc hes⟩

/-- When the manifest was fetched, the static partition install leaves holds,
for every manifest URL, exactly one entry: the response fetched for it. -/
theorem install_static_entries (w : World) (s : CacheStorage)
    (entries : List (Url × ResponseData))
    (hf : fetchAllOk w (STATIC_CACHE_URLS.map w.reloadRequest) = .ok entries)
    (u : String) (hu : u ∈ STATIC_CACHE_URLS) :
    ∃ d, w.net (w.reloadRequest u) = .ok d ∧
      ((install w s).storage.partition CACHE_NAME).filter
        (fun e => decide (e.1 = w.resolve u)) = [(w.resolve u, d)] := by
  obtain ⟨d, hd, _, _, hmem⟩ := fetchAllOk_mem w _ entries hf (w.reloadRequest u)
    (List.mem_map_of_mem _ hu)
  refine ⟨d, hd, ?_⟩
  rw [(install_storage_of_ok w s entries hf).2.2,
    CacheStorage.partition_insertAll_other _ _ _ (by decide),
    CacheStorage.partition_insertAll_self _ _ _ (opened_has_both s).1]
  exact Cache.filter_insertAll_of_mem entries _ (manifest_entries_nodup w entries hf) _ d hmem

/-- The api partition install leaves holds, for every bootstrap endpoint the
network answered with an OK response the cache accepts, exactly one entry: that
response. -/
theorem install_api_entries (w : World) (s : CacheStorage) (a : String)
    (ha : a ∈ API_CACHE_URLS) (d : ResponseData) (hn : w.net (w.request a) = .ok d)
    (hst : prewarmStores w a d = true) :
    ((install w s).storage.partition API_CACHE_NAME).filter
      (fun e => decide (e.1 = w.resolve a)) = [(w.resolve a, d)] := by
  have hmem := prewarmEntries_mem w a d ha hn hst
  cases hf : fetchAllOk w (STATIC_CACHE_URLS.map w.reloadRequest) with
  | ok entries =>
    rw [(install_storage_of_ok w s entries hf).2.2,
      CacheStorage.partition_insertAll_self _ _ _
        (by rw [CacheStorage.has_insertAll]; exact (opened_has_both s).2)]
    exact Cache.filter_insertAll_of_mem _ _ (prewarmEntries_keys_nodup w) _ d hmem
  | error e =>
    rw [(install_storage_of_error w s e hf).2.2,
      CacheStorage.partition_insertAll_self _ _ _ (opened_has_both s).2]
    exact Cache.filter_insertAll_of_mem _ _ (prewarmEntries_keys_nodup w) _ d hmem

/-- Putting entries with distinct keys into a cache with distinct keys leaves
a cache with distinct keys. -/
theorem Cache.insertAll_keys_nodup (entries : List (Url × ResponseData)) (c : Cache)
    (hnodup : (entries.map (fun e => e.1)).Nodup) (hc : (Cache.keys c).Nodup) :
    (Cache.keys (Cache.insertAll c entries)).Nodup := by
  rw [Cache.insertAll_eq_filter_append entries c hnodup]
  simp only [Cache.keys, List.map_append]
  rw [List.nodup_append]
  refine ⟨List.Nodup.sublist (List.Sublist.map _ (List.filter_sublist _)) hc, hnodup, ?_⟩
  intro a ha hb
  obtain ⟨e, he, rfl⟩ := List.mem_map.mp ha
  have hkeep := (List.mem_filter.mp he).2
  simp only [Bool.not_eq_true', decide_eq_false_iff_not] at hkeep
  exact hkeep hb

/-- Opening a partition keeps a storage well formed. -/
theorem CacheStorage.WellFormed.opened_wf {s : CacheStorage} (h : s.WellFormed) (name : String) :
    (s.opened name).WellFormed := by
  unfold CacheStorage.opened
  by_cases hs : s.has name = true
  · rw [if_pos hs]
    exact h
  · rw [if_neg hs]
    have hnot : name ∉ s.keys := by
      intro hmem
      obtain ⟨p, hp, hpn⟩ := List.mem_map.mp hmem
      apply hs
      simp only [CacheStorage.has, List.any_eq_true, decide_eq_true_eq]
      exact ⟨p, hp, hpn⟩
    constructor
    · simp only [CacheStorage.keys, List.map_append, List.map_cons, List.map_nil]
      rw [List.nodup_append]
      refine ⟨h.1, by simp, ?_⟩
      intro a ha hb
      have : a = name := by simpa using hb
      exact hnot (this ▸ ha)
    · intro p hp
      rcases List.mem_append.mp hp with hp | hp
      · exact h.2 p hp
      · have : p = (name, []) := by simpa using hp
        subst this
        simp [Cache.keys]

/-- Putting entries with distinct keys keeps a storage well formed. -/
theorem CacheStorage.WellFormed.insertAll_wf {s : CacheStorage} (h : s.WellFormed) (name : String)
    (entries : List (Url × ResponseData)) (hnodup : (entries.map (fun e => e.1)).Nodup) :
    (s.insertAll name entries).WellFormed := by
  constructor
  · rw [CacheStorage.keys_insertAll]
    exact h.1
  · intro p hp
    rw [CacheStorage.insertAll_eq_map] at hp
    obtain ⟨q, hq, rfl⟩ := List.mem_map.mp hp
    by_cases hn : q.1 = name
    · simp only [hn, if_true]
      exact Cache.insertAll_keys_nodup entries q.2 hnodup (h.2 q hq)
    · simp only [hn, if_false]
      exact h.2 q hq

/-! ## What the handlers can return -/

/-- An entry a cache answers a lookup with is one of its entries. -/
theorem Cache.lookup_mem_entries (c : Cache) (u : Url) (d : ResponseData)
    (h : Cache.lookup c u = some d) : (u, d) ∈ c := by
  induction c with
  | nil => simp [Cache.lookup] at h
  | cons e rest ih =>
    obtain ⟨k, v⟩ := e
    by_cases hk : k = u
    · simp only [Cache.lookup, hk, if_true, Option.some.injEq] at h
      simp [hk, h]
    · simp only [Cache.lookup, hk, if_false] at h
      exact List.mem_cons_of_mem _ (ih h)

/-- An entry the storage answers a lookup with is an entry of one of its
partitions. -/
theorem CacheStorage.lookup_mem_partition (s : CacheStorage) (u : Url) (d : ResponseData)
    (h : s.lookup u = some d) : ∃ p ∈ s, (u, d) ∈ p.2 := by
  induction s with
  | nil => simp [CacheStorage.lookup] at h
  | cons p rest ih =>
    obtain ⟨pn, pc⟩ := p
    cases hc : Cache.lookup pc u with
    | some v =>
      simp only [CacheStorage.lookup, hc, Option.some.injEq] at h
      subst h
      exact ⟨(pn, pc), List.mem_cons_self _ _, Cache.lookup_mem_entries pc u v hc⟩
    | none =>
      simp only [CacheStorage.lookup, hc] at h
      obtain ⟨q, hq, hmem⟩ := ih h
      exact ⟨q, List.mem_cons_of_mem _ hq, hmem⟩

/-- A response `caches.match` answers carries the guard of the engine, answers
a `GET` request, and is a stored entry. -/
theorem cachesMatch_some (w : World) (s : CacheStorage) (request : Request) (cached : Response)
    (h : cachesMatch w s request = some cached) :
    cached.guard = w.cachedGuard ∧ request.method = "GET" ∧
    s.lookup request.url.withoutFragment = some cached.data ∧
    ∃ p ∈ s, (request.url.withoutFragment, cached.data) ∈ p.2 := by
  unfold cachesMatch at h
  by_cases hget : request.method = "GET"
  · rw [if_pos hget] at h
    cases hl : s.lookup request.url.withoutFragment with
    | none => simp [hl] at h
    | some d =>
      simp only [hl, Option.map_some', Option.some.injEq] at h
      subst h
      exact ⟨rfl, hget, rfl, CacheStorage.lookup_mem_partition s _ d hl⟩
  · rw [if_neg hget] at h
    cases h

/-- The `catch` block of `handleApiRequest` with a cached entry, on an engine
that keeps the headers of cached responses immutable: the write to the headers
of the clone throws. -/
theorem handleApiRequestCatch_hit_immutable (w : World) (s : CacheStorage) (request : Request)
    (e : JsError) (cached : Response) (h : cachesMatch w s request = some cached)
    (hguard : w.cachedGuard = .immutable) :
    handleApiRequestCatch w s request e = .error immutableHeadersError := by
  have hg := (cachesMatch_some w s request cached h).1
  rw [hguard] at hg
  simp [handleApiRequestCatch, h, Response.clone, Response.headersSet, hg]

/-- The `catch` block of `handleApiRequest` with a cached entry, on an engine
that hands cached responses out with mutable headers: the clone is returned
with the marker set. -/
theorem handleApiRequestCatch_hit_mutable (w : World) (s : CacheStorage) (request : Request)
    (e : JsError) (cached : Response) (h : cachesMatch w s request = some cached)
    (hguard : w.cachedGuard = .response) :
    handleApiRequestCatch w s request e =
      .ok { data := { cached.data with
              headers := headersSetList cached.data.headers "X-Served-From" "cache-offline" },
            guard := .response } ∧
    cached.clone.headersSet "X-Served-From" "cache-offline" =
      .ok { data := { cached.data with
              headers := headersSetList cached.data.headers "X-Served-From" "cache-offline" },
            guard := .response } := by
  have hg := (cachesMatch_some w s request cached h).1
  rw [hguard] at hg
  constructor
  · simp [handleApiRequestCatch, h, Response.clone, Response.headersSet, hg]
  · simp [Response.clone, Response.headersSet, hg]

/-- A response the `catch` block of `handleApiRequest` resolves with is the
synthesized offline response, after a miss, or the clone of the cached entry
with the marker set. -/
theorem handleApiRequestCatch_ok (w : World) (s : CacheStorage) (request : Request) (e : JsError)
    (resp : Response) (h : handleApiRequestCatch w s request e = .ok resp) :
    (cachesMatch w s request = none ∧ resp = offlineResponse) ∨
    (∃ cached, cachesMatch w s request = some cached ∧
      cached.clone.headersSet "X-Served-From" "cache-offline" = .ok resp) := by
  cases hm : cachesMatch w s request with
  | some cached =>
    right
    refine ⟨cached, rfl, ?_⟩
    cases hset : cached.clone.headersSet "X-Served-From" "cache-offline" with
    | error thrown => simp [handleApiRequestCatch, hm, hset] at h
    | ok marked =>
      simp only [handleApiRequestCatch, hm, hset, Except.ok.injEq] at h
      rw [h]
  | none =>
    left
    rw [handleApiRequestCatch_miss w s request e hm] at h
    by_cases hc : includes request.url.href "/api/peptides" = true
    · rw [if_pos hc] at h
      exact ⟨rfl, (Except.ok.inj h).symm⟩
    · rw [if_neg hc] at h
      cases h

/-- A partition the cleanup keeps is not stale. -/
theorem kept_not_stale (s : CacheStorage) (p : String × Cache) (hp : p ∈ s)
    (hkeep : (!(isStaleCache p.1 && decide (p.1 ∈ s.keys))) = true) :
    isStaleCache p.1 = false := by
  have hmem : p.1 ∈ s.keys := List.mem_map_of_mem (fun q => q.1) hp
  cases hst : isStaleCache p.1 with
  | false => rfl
  | true =>
    rw [hst, decide_eq_true hmem] at hkeep
    exact absurd hkeep (by decide)

/-- C14: in the activate listener `clients.claim()` runs in the `then` of the
cleanup: it is invoked, the storage it is invoked in is the storage the
cleanup leaves, and that storage holds no partition whose name differs from
both current names. -/
theorem activate_claims_after_cleanup (s : CacheStorage) :
    ∃ st, (activate s).claimedIn = some st ∧
      st = (activate s).storage ∧
      st = deleteStaleCaches s s.keys ∧
      (∀ n ∈ st.keys, n = CACHE_NAME ∨ n = API_CACHE_NAME) ∧
      (∀ p ∈ st, isStaleCache p.1 = false) := by
  refine ⟨deleteStaleCaches s s.keys, rfl, rfl, rfl, ?_, ?_⟩
  · intro n hn
    obtain ⟨p, hp, rfl⟩ := List.mem_map.mp hn
    rw [deleteStaleCaches_eq_filter] at hp
    obtain ⟨hp1, hkeep⟩ := List.mem_filter.mp hp
    exact (isStaleCache_eq_false_iff p.1).mp (kept_not_stale s p hp1 hkeep)
  · intro p hp
    rw [deleteStaleCaches_eq_filter] at hp
    obtain ⟨hp1, hkeep⟩ := List.mem_filter.mp hp
    exact kept_not_stale s p hp1 hkeep

/-! ## Network-only -/

/-- C15: for a request that is neither API-class nor static-class, when the
network fetch resolves with a response of any status the listener hands
exactly that response to `respondWith`; when it rejects, the listener hands on
what `caches.match(request)` answers; in both cases the storage is left as it
was. -/
theorem fetchListener_network_only (w : World) (s : CacheStorage) (request : Request)
    (hapi : isApiRequest request = false)
    (hstatic : isStaticRequest request = false) :
    (fetchListener w s request).strategy = .networkOnly ∧
    (fetchListener w s request).storage = s ∧
    (∀ v, w.fetch request = .ok v → (fetchListener w s request).result = .ok (some v)) ∧
    (∀ e, w.fetch request = .error e →
      (fetchListener w s request).result = .ok (cachesMatch w s request)) := by
  refine ⟨by simp [fetchListener, hapi, hstatic], by simp [fetchListener, hapi, hstatic], ?_, ?_⟩
  · intro v hv
    simp [fetchListener, hapi, hstatic, hv]
  · intro e he
    simp [fetchListener, hapi, hstatic, he]

/-- C15 exercised: a font request answered `404` is handed on as it is, and
nothing is stored. -/
theorem fetchListener_network_only_witness :
    (fetchListener notFoundWorld shellStorage fontRequest).result
      = .ok (some { data := { status := 404, headers := [], body := "missing" },
                    guard := .immutable }) ∧
    (fetchListener notFoundWorld shellStorage fontRequest).storage = shellStorage :=
  have h := fetchListener_network_only notFoundWorld shellStorage fontRequest
    (by decide) (by decide)
  ⟨h.2.2.1 _ rfl, h.2.1⟩

/-! ## Sync and push -/

/-- C19: for the tag `assessment-sync` the sync listener calls `syncAssessments`
once and nothing else; for `feedback-sync` it calls `syncFeedback` once and
nothing else; for every other tag it calls no hook. -/
theorem syncListener_dispatch (tag : String) :
    syncListener "assessment-sync" = [SyncHook.syncAssessments] ∧
    syncListener "feedback-sync" = [SyncHook.syncFeedback] ∧
    (tag ≠ "assessment-sync" → tag ≠ "feedback-sync" → syncListener tag = []) ∧
    (syncListener tag).count SyncHook.syncAssessments
      = (if tag = "assessment-sync" then 1 else 0) ∧
    (syncListener tag).count SyncHook.syncFeedback
      = (if tag = "feedback-sync" then 1 else 0) := by
  refine ⟨by decide, by decide, ?_, ?_, ?_⟩
  · intro h1 h2
    simp [syncListener, h1, h2]
  · by_cases h1 : tag = "assessment-sync"
    · subst h1
      decide
    · by_cases h2 : tag = "feedback-sync" <;> simp [syncListener, h1, h2]
  · by_cases h2 : tag = "feedback-sync"
    · subst h2
      decide
    · by_cases h1 : tag = "assessment-sync" <;> simp [syncListener, h1, h2]

/-- C19 exercised: an unknown tag calls no hook. -/
theorem syncListener_dispatch_witness : syncListener "periodic-refresh" = [] :=
  (syncListener_dispatch "periodic-refresh").2.2.1 (by decide) (by decide)

/-- A property read on a parsed value other than `null` does not throw. -/
theorem JsonValue.read_of_ne_null (data : JsonValue) (h : data ≠ .null) (key : String) :
    data.read key = .ok (data.member key) := by
  cases data with
  | null => exact absurd rfl h
  | bool b => rfl
  | number negative exponent fraction => rfl
  | string s => rfl
  | array items => rfl
  | object members => rfl

/-- C20 as stated fails: for the JSON payload `null` the read of `data.body`
(line 228) throws and no notification is requested; for a payload whose title
is the number `0` and whose body is `false`, members neither missing nor empty,
the notification carries the two default texts. -/
theorem pushListener_notification_counterexample :
    pushListener (some .null)
      = .error { name := "TypeError",
                 message := "Cannot read properties of null (reading body)" } ∧
    falsyPayload.member "title" = some (.number false 0 0) ∧
    falsyPayload.member "body" = some (.bool false) ∧
    pushListener (some falsyPayload)
      = .ok [{ title := .string "PeptideProtocols.ai"
               body := .string "Time for your protocol follow-up"
               icon := "/logo192.png"
               badge := "/logo192.png"
               vibrate := [200, 100, 200]
               tag := "protocol-reminder"
               actions := [{ action := "open", title := "Open App" },
                           { action := "dismiss", title := "Dismiss" }] }] :=
  ⟨rfl, rfl, rfl, rfl⟩

/-- C20, amended: for a push event whose payload parses to a JSON value other
than `null` the push listener asks for exactly one notification: its title is
the payload's `title` member when that is truthy (for a string: not empty), and
`PeptideProtocols.ai` when the member is missing or falsy (the empty string,
`null`, `false`, zero); its body is the payload's `body` member when that is
truthy, and `Time for your protocol follow-up` when it is missing or falsy;
icon and badge are `/logo192.png`; the actions are `open` and `dismiss`, in
that order.  For a push event without a payload it asks for none. -/
theorem pushListener_notification (data : JsonValue) (hdata : data ≠ .null) :
    pushListener none = .ok [] ∧
    ∃ n, pushListener (some data) = .ok [n] ∧
      (∀ t, data.member "title" = some t → t.truthy = true → n.title = t) ∧
      ((data.member "title" = none ∨ ∃ t, data.member "title" = some t ∧ t.truthy = false) →
        n.title = .string "PeptideProtocols.ai") ∧
      (∀ t : String, data.member "title" = some (.string t) → t ≠ "" → n.title = .string t) ∧
      (data.member "title" = some (.string "") → n.title = .string "PeptideProtocols.ai") ∧
      (∀ b, data.member "body" = some b → b.truthy = true → n.body = b) ∧
      ((data.member "body" = none ∨ ∃ b, data.member "body" = some b ∧ b.truthy = false) →
        n.body = .string "Time for your protocol follow-up") ∧
      (∀ b : String, data.member "body" = some (.string b) → b ≠ "" → n.body = .string b) ∧
      (data.member "body" = some (.string "") →
        n.body = .string "Time for your protocol follow-up") ∧
      n.icon = "/logo192.png" ∧ n.badge = "/logo192.png" ∧
      n.actions.map (fun a => a.action) = ["open", "dismiss"] ∧
      n.actions = [{ action := "open", title := "Open App" },
                   { action := "dismiss", title := "Dismiss" }] := by
  refine ⟨rfl,
    { title := orElseString (data.member "title") "PeptideProtocols.ai"
      body := orElseString (data.member "body") "Time for your protocol follow-up"
      icon := "/logo192.png"
      badge := "/logo192.png"
      vibrate := [200, 100, 200]
      tag := "protocol-reminder"
      actions := [{ action := "open", title := "Open App" },
                  { action := "dismiss", title := "Dismiss" }] },
    ?_, ?_, ?_, ?_, ?_, ?_, ?_, ?_, ?_, rfl, rfl, rfl, rfl⟩
  · simp only [pushListener, JsonValue.read_of_ne_null data hdata]
  · intro t ht htruthy
    simp [orElseString, ht, htruthy]
  · intro h
    rcases h with h | ⟨t, ht, htruthy⟩
    · simp [orElseString, h]
    · simp [orElseString, ht, htruthy]
  · intro t ht hne
    simp [orElseString, ht, JsonValue.truthy, hne]
  · intro ht
    simp [orElseString, ht, JsonValue.truthy]
  · intro b hb htruthy
    simp [orElseString, hb, htruthy]
  · intro h
    rcases h with h | ⟨b, hb, htruthy⟩
    · simp [orElseString, h]
    · simp [orElseString, hb, htruthy]
  · intro b hb hne
    simp [orElseString, hb, JsonValue.truthy, hne]
  · intro hb
    simp [orElseString, hb, JsonValue.truthy]

/-- C20 amended, exercised: the payload with title `Reminder` and body
`Time for follow-up` gives one notification with that title and body. -/
theorem pushListener_notification_witness :
    pushListener (some reminderPayload)
      = .ok [{ title := .string "Reminder"
               body := .string "Time for follow-up"
               icon := "/logo192.png"
               badge := "/logo192.png"
               vibrate := [200, 100, 200]
               tag := "protocol-reminder"
               actions := [{ action := "open", title := "Open App" },
                           { action := "dismiss", title := "Dismiss" }] }] := by
  obtain ⟨_, n, hn, _⟩ := pushListener_notification reminderPayload (by intro h; cases h)
  exact hn.trans (hn.symm.trans rfl)

/-! ## Install -/

/-- Two worlds with the same network collect the same responses in `addAll`. -/
theorem fetchAllOk_congr (w w2 : World) (hnet : ∀ r, w2.net r = w.net r)
    (requests : List Request) : fetchAllOk w2 requests = fetchAllOk w requests := by
  induction requests with
  | nil => rfl
  | cons r rest ih => simp [fetchAllOk, World.fetch, hnet, ih]

/-- Two worlds with the same origin name the same requests. -/
theorem World.reloadRequest_congr (w w2 : World) (horigin : w2.origin = w.origin) (u : String) :
    w2.reloadRequest u = w.reloadRequest u ∧ w2.request u = w.request u ∧
    w2.resolve u = w.resolve u := by
  simp [World.reloadRequest, World.request, World.resolve, horigin]

/-- Install settles as `addAll` on the manifest settles. -/
theorem install_result_eq (w : World) (s : CacheStorage) :
    (install w s).result =
      match fetchAllOk w (STATIC_CACHE_URLS.map w.reloadRequest) with
      | .ok _ => .ok ()
      | .error e => .error e := by
  cases hf : fetchAllOk w (STATIC_CACHE_URLS.map w.reloadRequest) with
  | ok entries => exact (install_storage_of_ok w s entries hf).1
  | error e => exact (install_storage_of_error w s e hf).1

/-- C11 as stated fails: on a network that answers every manifest fetch with the
OK status `206`, and on one that answers every manifest fetch with `200` and a
`Vary: *` header, every manifest fetch succeeds, yet `cache.addAll` rejects the
answers and install fails, without calling `skipWaiting`. -/
theorem install_succeeds_iff_counterexample :
    STATIC_CACHE_URLS.map (fun u => partialWorld.fetch (partialWorld.reloadRequest u))
      = List.replicate 6 (.ok { data := partialData, guard := .immutable }) ∧
    Response.ok { data := partialData, guard := .immutable } = true ∧
    (install partialWorld []).result = .error cacheTypeError ∧
    (install partialWorld []).skipWaiting = false ∧
    STATIC_CACHE_URLS.map (fun u => varyStarWorld.fetch (varyStarWorld.reloadRequest u))
      = List.replicate 6 (.ok { data := varyStarData, guard := .immutable }) ∧
    Response.ok { data := varyStarData, guard := .immutable } = true ∧
    (install varyStarWorld []).result = .error cacheTypeError ∧
    (install varyStarWorld []).skipWaiting = false :=
  ⟨rfl, by decide, rfl, rfl, rfl, by decide, rfl, rfl⟩

/-- C11, amended: install succeeds exactly when `cache.addAll` on the manifest
succeeds, that is exactly when every manifest fetch is answered with an OK
response the Cache API accepts (the status is not `206`, there is no `Vary: *`
header); it fails exactly when some
manifest fetch rejects or is answered with a non-OK status or with a response
the Cache API does not accept.  The answers to the API bootstrap fetches play
no part: two networks that agree on the manifest requests give the same
verdict. -/
theorem install_succeeds_iff (w : World) (s : CacheStorage) :
    ((install w s).result = .ok () ↔
      ∃ stored, cacheAddAll w ((s.opened CACHE_NAME).opened API_CACHE_NAME) CACHE_NAME
        (STATIC_CACHE_URLS.map w.reloadRequest) = .ok stored) ∧
    ((install w s).result = .ok () ↔
      ∀ u ∈ STATIC_CACHE_URLS, ∃ d, w.net (w.reloadRequest u) = .ok d ∧
        Response.ok { data := d, guard := .immutable } = true ∧ d.storable = true) ∧
    ((∃ e, (install w s).result = .error e) ↔
      ∃ u ∈ STATIC_CACHE_URLS, (∃ e, w.net (w.reloadRequest u) = .error e) ∨
        (∃ d, w.net (w.reloadRequest u) = .ok d ∧
          (Response.ok { data := d, guard := .immutable } = false ∨ d.storable = false))) ∧
    (∀ w2 : World, w2.origin = w.origin →
      (∀ u ∈ STATIC_CACHE_URLS, w2.net (w.reloadRequest u) = w.net (w.reloadRequest u)) →
      ((install w2 s).result = .ok () ↔ (install w s).result = .ok ())) := by
  have hacc : ∀ (w1 : World) (u : String) (d : ResponseData),
      cacheAccepts (w1.reloadRequest u) d = true ↔ d.storable = true := by
    intro w1 u d
    rw [(cacheAccepts_own w1 u d).2]
  have hiff : ∀ (w1 : World), ((install w1 s).result = .ok () ↔
      ∀ u ∈ STATIC_CACHE_URLS, ∃ d, w1.net (w1.reloadRequest u) = .ok d ∧
        Response.ok { data := d, guard := .immutable } = true ∧ d.storable = true) := by
    intro w1
    constructor
    · intro h u hu
      obtain ⟨entries, hf, _, _⟩ := install_ok w1 s h
      obtain ⟨d, hd, hok, hc, _⟩ := fetchAllOk_mem w1 _ entries hf (w1.reloadRequest u)
        (List.mem_map_of_mem _ hu)
      exact ⟨d, hd, hok, (hacc w1 u d).mp hc⟩
    · intro h
      have hall : ∀ r ∈ STATIC_CACHE_URLS.map w1.reloadRequest, ∃ d, w1.net r = .ok d ∧
          Response.ok { data := d, guard := .immutable } = true ∧
          cacheAccepts r d = true := by
        intro r hr
        obtain ⟨u, hu, rfl⟩ := List.mem_map.mp hr
        obtain ⟨d, hd, hok, hc⟩ := h u hu
        exact ⟨d, hd, hok, (hacc w1 u d).mpr hc⟩
      obtain ⟨entries, hf⟩ := fetchAllOk_of_all_ok w1 _ hall
      exact (install_storage_of_ok w1 s entries hf).1
  refine ⟨?_, hiff w, ?_, ?_⟩
  · rw [install_result_eq]
    cases hf : fetchAllOk w (STATIC_CACHE_URLS.map w.reloadRequest) with
    | ok entries => simp [cacheAddAll, hf]
    | error e => simp [cacheAddAll, hf]
  · constructor
    · rintro ⟨e, he⟩
      by_contra hnone
      have hall : ∀ u ∈ STATIC_CACHE_URLS, ∃ d, w.net (w.reloadRequest u) = .ok d ∧
          Response.ok { data := d, guard := .immutable } = true ∧ d.storable = true := by
        intro u hu
        cases hn : w.net (w.reloadRequest u) with
        | error e2 => exact absurd ⟨u, hu, Or.inl ⟨e2, hn⟩⟩ hnone
        | ok d =>
          cases hok : Response.ok { data := d, guard := .immutable } with
          | false => exact absurd ⟨u, hu, Or.inr ⟨d, hn, Or.inl hok⟩⟩ hnone
          | true =>
            cases hs : d.storable with
            | false => exact absurd ⟨u, hu, Or.inr ⟨d, hn, Or.inr hs⟩⟩ hnone
            | true => exact ⟨d, rfl, hok, by simp [hs]⟩
      rw [(hiff w).mpr hall] at he
      cases he
    · rintro ⟨u, hu, hbad⟩
      cases hr : (install w s).result with
      | error e => exact ⟨e, rfl⟩
      | ok x =>
        obtain ⟨d, hd, hok, hs⟩ := (hiff w).mp hr u hu
        rcases hbad with ⟨e, he⟩ | ⟨d2, hd2, hb⟩
        · rw [hd] at he
          cases he
        · rw [hd] at hd2
          cases hd2
          rcases hb with hb | hb
          · rw [hok] at hb; cases hb
          · rw [hs] at hb; cases hb
  · intro w2 horigin hagree
    have hreq : ∀ u, w2.reloadRequest u = w.reloadRequest u :=
      fun u => (World.reloadRequest_congr w w2 horigin u).1
    rw [hiff w2, hiff w]
    constructor
    · intro h u hu
      obtain ⟨d, hd, hok, hs⟩ := h u hu
      exact ⟨d, by rw [← hagree u hu, ← hreq u]; exact hd, hok, hs⟩
    · intro h u hu
      obtain ⟨d, hd, hok, hs⟩ := h u hu
      exact ⟨d, by rw [hreq u, hagree u hu]; exact hd, hok, hs⟩

/-- C11 amended, exercised: with every API call rejected install succeeds; with
one manifest file answered `404` it fails. -/
theorem install_succeeds_iff_witness :
    (install apiDownWorld []).result = .ok () ∧
    (∃ e, (install missingLogoWorld []).result = .error e) :=
  ⟨(install_succeeds_iff apiDownWorld []).2.1.mpr (by
      intro u hu
      simp only [STATIC_CACHE_URLS, List.mem_cons, List.mem_singleton, List.not_mem_nil,
        or_false] at hu
      rcases hu with rfl | rfl | rfl | rfl | rfl | rfl <;>
        exact ⟨{ status := 200, headers := [], body := "fresh" }, rfl, by decide, by decide⟩),
   (install_succeeds_iff missingLogoWorld []).2.2.1.mpr
     ⟨"/logo512.png", by decide, Or.inr ⟨_, rfl, Or.inl (by decide)⟩⟩⟩

/-- C12: `skipWaiting` is called only in the `then` of the joint promise: in
every install run in which it is called install has succeeded and the static
partition holds, for every manifest URL, the response fetched for it; in every
run in which populating the static partition fails it is not called. -/
theorem install_skipWaiting_after_static (w : World) (s : CacheStorage) :
    ((install w s).skipWaiting = true →
      (install w s).result = .ok () ∧
      ∀ u ∈ STATIC_CACHE_URLS, ∃ d, w.net (w.reloadRequest u) = .ok d ∧
        Cache.lookup ((install w s).storage.partition CACHE_NAME) (w.resolve u) = some d) ∧
    (∀ e, (install w s).result = .error e → (install w s).skipWaiting = false) ∧
    ((install w s).skipWaiting = true ↔ (install w s).result = .ok ()) := by
  cases hf : fetchAllOk w (STATIC_CACHE_URLS.map w.reloadRequest) with
  | ok entries =>
    obtain ⟨hres, hskip, _⟩ := install_storage_of_ok w s entries hf
    refine ⟨fun _ => ⟨hres, ?_⟩, ?_, ?_⟩
    · intro u hu
      obtain ⟨d, hd, hfilter⟩ := install_static_entries w s entries hf u hu
      exact ⟨d, hd, Cache.lookup_of_filter_eq _ _ _ hfilter⟩
    · intro e he
      rw [hres] at he
      cases he
    · exact ⟨fun _ => hres, fun _ => hskip⟩
  | error e =>
    obtain ⟨hres, hskip, _⟩ := install_storage_of_error w s e hf
    refine ⟨?_, fun _ _ => hskip, ?_⟩
    · intro h
      rw [hskip] at h
      cases h
    · constructor
      · intro h
        rw [hskip] at h
        cases h
      · intro h
        rw [hres] at h
        cases h

/-- C12 exercised: with the network up `skipWaiting` is called and the bundle
is in the static partition; with a manifest file missing it is not called. -/
theorem install_skipWaiting_after_static_witness :
    Cache.lookup ((install onlineWorld []).storage.partition CACHE_NAME)
      (onlineWorld.resolve "/static/js/bundle.js")
      = some { status := 200, headers := [], body := "fresh" } ∧
    (install missingLogoWorld []).skipWaiting = false := by
  obtain ⟨d, hd, hlook⟩ := ((install_skipWaiting_after_static onlineWorld []).1 rfl).2
    "/static/js/bundle.js" (by decide)
  have hfresh : d = { status := 200, headers := [], body := "fresh" } :=
    (Except.ok.inj hd).symm
  subst hfresh
  exact ⟨hlook, (install_skipWaiting_after_static missingLogoWorld []).2.1 _ rfl⟩

/-- The entries pre-warming stores, as a filter of the endpoints. -/
theorem okApiEntries_eq_filterMap (w : World) (urls : List String) :
    okApiEntries w urls =
      urls.filterMap (fun url =>
        match w.net (w.request url) with
        | .ok d => if prewarmStores w url d then some (w.resolve url, d) else none
        | .error _ => none) := by
  induction urls with
  | nil => rfl
  | cons a rest ih =>
    cases hn : w.net (w.request a) with
    | error e => simp [okApiEntries, hn, List.filterMap_cons, ih]
    | ok d =>
      by_cases hst : prewarmStores w a d = true
      · simp [okApiEntries, hn, hst, List.filterMap_cons, ih]
      · simp [okApiEntries, hn, hst, List.filterMap_cons, ih]

/-- The entries pre-warming stores for the same endpoints in another order are
the same entries in another order. -/
theorem okApiEntries_perm (w : World) (l1 l2 : List String) (h : List.Perm l1 l2) :
    List.Perm (okApiEntries w l1) (okApiEntries w l2) := by
  rw [okApiEntries_eq_filterMap, okApiEntries_eq_filterMap]
  exact h.filterMap _

/-- Two worlds with the same origin and the same network store the same
entries for a list of endpoints. -/
theorem okApiEntries_congr (w w2 : World) (horigin : w2.origin = w.origin)
    (hnet : ∀ r, w2.net r = w.net r) (urls : List String) :
    okApiEntries w2 urls = okApiEntries w urls := by
  induction urls with
  | nil => rfl
  | cons a rest ih =>
    have hreq := (World.reloadRequest_congr w w2 horigin a).2.1
    have hres := (World.reloadRequest_congr w w2 horigin a).2.2
    simp only [okApiEntries, prewarmStores, hreq, hres, hnet, ih]

/-- Two worlds with the same origin and the same network pre-warm the same
entries, whatever the order in which their fetches settle. -/
theorem prewarmEntries_perm (w w2 : World) (horigin : w2.origin = w.origin)
    (hnet : ∀ r, w2.net r = w.net r) :
    List.Perm (prewarmEntries w2) (prewarmEntries w) := by
  unfold prewarmEntries
  rw [okApiEntries_congr w w2 horigin hnet]
  exact okApiEntries_perm w _ _
    ((completionOrder_perm w2 API_CACHE_URLS).trans (completionOrder_perm w API_CACHE_URLS).symm)

/-- With distinct keys, putting the same entries again in another order leaves
the same entries. -/
theorem Cache.insertAll_perm_twice (c : Cache) (e1 e2 : List (Url × ResponseData))
    (hperm : List.Perm e2 e1) (hnodup : (e1.map (fun e => e.1)).Nodup) :
    List.Perm (Cache.insertAll (Cache.insertAll c e1) e2) (Cache.insertAll c e1) := by
  have hnodup2 : (e2.map (fun e => e.1)).Nodup := (hperm.map _).nodup_iff.mpr hnodup
  have hkeys : ∀ k, k ∈ e2.map (fun e => e.1) ↔ k ∈ e1.map (fun e => e.1) :=
    fun k => (hperm.map _).mem_iff
  rw [Cache.insertAll_eq_filter_append e2 _ hnodup2,
    Cache.insertAll_eq_filter_append e1 c hnodup, List.filter_append, List.filter_filter]
  have hnone : List.filter (fun e => !decide (e.1 ∈ e2.map (fun e => e.1))) e1 = [] := by
    rw [List.filter_eq_nil_iff]
    intro e he
    have : e.1 ∈ e2.map (fun e => e.1) :=
      (hkeys _).mpr (List.mem_map_of_mem (fun e => e.1) he)
    simp [this]
  rw [hnone, List.append_nil]
  have hsame : List.filter
      (fun e => !decide (e.1 ∈ e2.map (fun e => e.1)) && !decide (e.1 ∈ e1.map (fun e => e.1))) c
        = List.filter (fun e => !decide (e.1 ∈ e1.map (fun e => e.1))) c := by
    apply List.filter_congr
    intro p _
    by_cases hp : p.1 ∈ e1.map (fun e => e.1)
    · have hp2 := (hkeys p.1).mpr hp
      simp [hp, hp2]
    · have hp2 : ¬ p.1 ∈ e2.map (fun e => e.1) := fun h => hp ((hkeys p.1).mp h)
      simp [hp, hp2]
  rw [hsame]
  exact List.Perm.append_left _ hperm

/-- With distinct keys, putting the same entries into the same partition again
in another order leaves the same partitions with the same entries. -/
theorem CacheStorage.sameEntries_insertAll_twice (name : String)
    (e1 e2 : List (Url × ResponseData)) (hperm : List.Perm e2 e1)
    (hnodup : (e1.map (fun e => e.1)).Nodup) (s : CacheStorage) :
    CacheStorage.SameEntries ((s.insertAll name e1).insertAll name e2)
      (s.insertAll name e1) := by
  rw [CacheStorage.insertAll_eq_map name e2 (s.insertAll name e1)]
  unfold CacheStorage.SameEntries
  rw [List.forall₂_map_left_iff, List.forall₂_same]
  intro p hp
  rw [CacheStorage.insertAll_eq_map] at hp
  obtain ⟨q, hq, rfl⟩ := List.mem_map.mp hp
  obtain ⟨qn, qc⟩ := q
  by_cases hn : qn = name
  · simp only [hn, if_true]
    refine ⟨?_, Cache.insertAll_perm_twice qc e1 e2 hperm hnodup⟩
    trivial
  · simp only [hn, if_false]
    refine ⟨?_, List.Perm.refl _⟩
    trivial

/-- Storages with the same entries have the same partition names, in order. -/
theorem CacheStorage.SameEntries.keys_eq {a b : CacheStorage}
    (h : CacheStorage.SameEntries a b) : a.keys = b.keys := by
  unfold CacheStorage.SameEntries at h
  induction h with
  | nil => rfl
  | cons hpq _ ih =>
    simp only [CacheStorage.keys, List.map_cons] at ih ⊢
    rw [hpq.1, ih]

/-- The storage a second install leaves: the storage of the first with the
pre-warmed entries put again, in the order of the second run. -/
theorem install_twice_storage (w w2 : World) (s : CacheStorage)
    (horigin : w2.origin = w.origin) (hnet : ∀ r, w2.net r = w.net r) :
    ∃ base : CacheStorage,
      (install w s).storage = base.insertAll API_CACHE_NAME (prewarmEntries w) ∧
      (install w2 (install w s).storage).storage
        = (base.insertAll API_CACHE_NAME (prewarmEntries w)).insertAll API_CACHE_NAME
            (prewarmEntries w2) ∧
      (install w2 (install w s).storage).result = (install w s).result := by
  have hne : API_CACHE_NAME ≠ CACHE_NAME := by decide
  have hreq : STATIC_CACHE_URLS.map w2.reloadRequest = STATIC_CACHE_URLS.map w.reloadRequest := by
    apply List.map_congr_left
    intro u _
    exact (World.reloadRequest_congr w w2 horigin u).1
  have hfetch : fetchAllOk w2 (STATIC_CACHE_URLS.map w2.reloadRequest)
      = fetchAllOk w (STATIC_CACHE_URLS.map w.reloadRequest) := by
    rw [hreq]
    exact fetchAllOk_congr w w2 hnet _
  cases hf : fetchAllOk w (STATIC_CACHE_URLS.map w.reloadRequest) with
  | ok entries =>
    have hman := manifest_entries_nodup w entries hf
    obtain ⟨hres, _, hsto⟩ := install_storage_of_ok w s entries hf
    obtain ⟨hres2, _, hsto2⟩ := install_storage_of_ok w2 (install w s).storage entries
      (hfetch.trans hf)
    have hhasC : (install w s).storage.has CACHE_NAME = true := by
      rw [hsto, CacheStorage.has_insertAll, CacheStorage.has_insertAll]
      exact (opened_has_both s).1
    have hhasA : (install w s).storage.has API_CACHE_NAME = true := by
      rw [hsto, CacheStorage.has_insertAll, CacheStorage.has_insertAll]
      exact (opened_has_both s).2
    refine ⟨((s.opened CACHE_NAME).opened API_CACHE_NAME).insertAll CACHE_NAME entries, hsto,
      ?_, by rw [hres, hres2]⟩
    rw [hsto2, CacheStorage.opened_of_has _ _ hhasC, CacheStorage.opened_of_has _ _ hhasA]
    rw [hsto, CacheStorage.insertAll_comm API_CACHE_NAME CACHE_NAME _ _ _ hne,
      CacheStorage.insertAll_idem CACHE_NAME entries _ hman]
  | error e =>
    obtain ⟨hres, _, hsto⟩ := install_storage_of_error w s e hf
    obtain ⟨hres2, _, hsto2⟩ := install_storage_of_error w2 (install w s).storage e
      (hfetch.trans hf)
    have hhasC : (install w s).storage.has CACHE_NAME = true := by
      rw [hsto, CacheStorage.has_insertAll]
      exact (opened_has_both s).1
    have hhasA : (install w s).storage.has API_CACHE_NAME = true := by
      rw [hsto, CacheStorage.has_insertAll]
      exact (opened_has_both s).2
    refine ⟨(s.opened CACHE_NAME).opened API_CACHE_NAME, hsto, ?_, by rw [hres, hres2]⟩
    rw [hsto2, CacheStorage.opened_of_has _ _ hhasC, CacheStorage.opened_of_has _ _ hhasA, hsto]

/-- Install keeps a well-formed storage well formed. -/
theorem install_wellFormed (w : World) (s : CacheStorage) (hwf : s.WellFormed) :
    (install w s).storage.WellFormed := by
  have hapi := prewarmEntries_keys_nodup w
  cases hf : fetchAllOk w (STATIC_CACHE_URLS.map w.reloadRequest) with
  | ok entries =>
    rw [(install_storage_of_ok w s entries hf).2.2]
    exact (((hwf.opened_wf CACHE_NAME).opened_wf API_CACHE_NAME).insertAll_wf CACHE_NAME entries
      (manifest_entries_nodup w entries hf)).insertAll_wf API_CACHE_NAME _ hapi
  | error e =>
    rw [(install_storage_of_error w s e hf).2.2]
    exact ((hwf.opened_wf CACHE_NAME).opened_wf API_CACHE_NAME).insertAll_wf API_CACHE_NAME _ hapi

/-- C13 as stated fails: with an entry for `/api/protocols` in the api
partition and the bootstrap fetch of `/api/protocols` answered with the OK
status `206`, after one install and after two the partition holds one entry for
the endpoint, but it is the older response, not the response fetched last:
`cache.put` rejects the partial answer. -/
theorem install_idempotent_counterexample :
    "/api/protocols" ∈ API_CACHE_URLS ∧
    partialWorld.net (partialWorld.request "/api/protocols") = .ok partialData ∧
    Response.ok { data := partialData, guard := .immutable } = true ∧
    ((install partialWorld protocolsStorage).storage.partition API_CACHE_NAME).filter
        (fun e => decide (e.1 = partialWorld.resolve "/api/protocols"))
      = [(partialWorld.resolve "/api/protocols", protocolsData)] ∧
    ((install partialWorld (install partialWorld protocolsStorage).storage).storage.partition
        API_CACHE_NAME).filter
        (fun e => decide (e.1 = partialWorld.resolve "/api/protocols"))
      = [(partialWorld.resolve "/api/protocols", protocolsData)] ∧
    protocolsData ≠ partialData :=
  ⟨by decide, rfl, by decide, by decide, by decide, by decide⟩

/-- C13, amended: with the network answering as before, a second install
leaves the same partitions, in the same order, with the same entries as the
first (the entries of the api partition possibly in another order, the order in
which the pre-warm fetches settle; exactly the same storage when they settle in
the same order), and settles the same way.  Install keeps a well-formed storage
well formed: no partition holds two entries for one request URL.  For every
manifest URL of a successful install, and for every bootstrap endpoint answered
with an OK response the Cache API accepts (the status is not `206`, there is no
`Vary: *` header), the partition holds exactly one entry, the response fetched
last. -/
theorem install_idempotent (w w2 : World) (s : CacheStorage)
    (horigin : w2.origin = w.origin) (hnet : ∀ r, w2.net r = w.net r) :
    CacheStorage.SameEntries (install w2 (install w s).storage).storage (install w s).storage ∧
    (install w2 (install w s).storage).storage.keys = (install w s).storage.keys ∧
    (install w2 (install w s).storage).result = (install w s).result ∧
    (install w (install w s).storage).storage = (install w s).storage ∧
    (s.WellFormed → (install w s).storage.WellFormed ∧
      (install w2 (install w s).storage).storage.WellFormed) ∧
    ((install w s).result = .ok () → ∀ u ∈ STATIC_CACHE_URLS,
      ∃ d, w.net (w.reloadRequest u) = .ok d ∧
        ((install w s).storage.partition CACHE_NAME).filter
          (fun e => decide (e.1 = w.resolve u)) = [(w.resolve u, d)]) ∧
    (∀ a ∈ API_CACHE_URLS, ∀ d, w.net (w.request a) = .ok d →
      Response.ok { data := d, guard := .immutable } = true → d.storable = true →
      ((install w s).storage.partition API_CACHE_NAME).filter
        (fun e => decide (e.1 = w.resolve a)) = [(w.resolve a, d)]) := by
  have hapi := prewarmEntries_keys_nodup w
  obtain ⟨base, hsto, hsto2, hres⟩ := install_twice_storage w w2 s horigin hnet
  have hsame : CacheStorage.SameEntries (install w2 (install w s).storage).storage
      (install w s).storage := by
    rw [hsto2, hsto]
    exact CacheStorage.sameEntries_insertAll_twice API_CACHE_NAME _ _
      (prewarmEntries_perm w w2 horigin hnet) hapi base
  obtain ⟨base1, hsto1, hsto12, _⟩ := install_twice_storage w w s rfl (fun _ => rfl)
  refine ⟨hsame, hsame.keys_eq, hres, ?_, ?_, ?_, ?_⟩
  · rw [hsto12, hsto1, CacheStorage.insertAll_idem API_CACHE_NAME _ _ hapi]
  · intro hwf
    exact ⟨install_wellFormed w s hwf, install_wellFormed w2 _ (install_wellFormed w s hwf)⟩
  · intro hok u hu
    cases hf : fetchAllOk w (STATIC_CACHE_URLS.map w.reloadRequest) with
    | ok entries => exact install_static_entries w s entries hf u hu
    | error e =>
      rw [(install_storage_of_error w s e hf).1] at hok
      cases hok
  · intro a ha d hn hok hstorable
    have hst : prewarmStores w a d = true := by
      have hacc : cacheAccepts (w.request a) d = true := by
        rw [(cacheAccepts_own w a d).1]
        exact hstorable
      simp [prewarmStores, hok, hacc]
    exact install_api_entries w s a ha d hn hst

/-- C13 amended, exercised: installing twice over the storage of an earlier
release, the second time with the answer to `/api/peptides` arriving last,
leaves the partitions and entries the first install left, the api entries in
another order, in a well-formed storage with one entry for the bundle. -/
theorem install_idempotent_witness :
    CacheStorage.SameEntries
      (install slowPeptidesWorld (install onlineWorld legacyStorage).storage).storage
      (install onlineWorld legacyStorage).storage ∧
    (install slowPeptidesWorld (install onlineWorld legacyStorage).storage).storage
      ≠ (install onlineWorld legacyStorage).storage ∧
    (install onlineWorld (install onlineWorld legacyStorage).storage).storage
      = (install onlineWorld legacyStorage).storage ∧
    (install onlineWorld legacyStorage).storage.WellFormed ∧
    ((install onlineWorld legacyStorage).storage.partition CACHE_NAME).filter
        (fun e => decide (e.1 = onlineWorld.resolve "/static/js/bundle.js"))
      = [(onlineWorld.resolve "/static/js/bundle.js",
          { status := 200, headers := [], body := "fresh" })] := by
  have h := install_idempotent onlineWorld slowPeptidesWorld legacyStorage rfl (fun _ => rfl)
  obtain ⟨d, hd, hfilter⟩ := h.2.2.2.2.2.1 rfl "/static/js/bundle.js" (by decide)
  have hfresh : d = { status := 200, headers := [], body := "fresh" } :=
    (Except.ok.inj hd).symm
  subst hfresh
  refine ⟨h.1, by decide, h.2.2.2.1, (h.2.2.2.2.1 ?_).1, hfilter⟩
  constructor
  · decide
  · intro p hp
    have : p = ("peptideprotocols-v0",
        [({ origin := sampleOrigin, pathname := "/", search := "", hash := "" },
          shellData)]) := by
      simpa [legacyStorage] using hp
    subst this
    decide

/-! ## What the listener hands to `respondWith` -/

/-- C16, as the code behaves: for a request that is neither API-class nor
static-class, when the network fetch rejects and `caches.match` finds nothing,
the promise handed to `respondWith` is fulfilled with the absent value
`undefined`: it is neither a response nor a failure, and the network error is
gone.  The two handlers rethrow the error in the same situation (a miss and a
URL that is not critical, a miss and a destination that is not `document`). -/
theorem fetchListener_absent_value (w : World) (s : CacheStorage) (request : Request)
    (e : JsError)
    (hapi : isApiRequest request = false)
    (hstatic : isStaticRequest request = false)
    (hnet : w.fetch request = .error e)
    (hmiss : cachesMatch w s request = none) :
    (fetchListener w s request).result = .ok none ∧
    (fetchListener w s request).result ≠ .error e ∧
    (∀ resp, (fetchListener w s request).result ≠ .ok (some resp)) ∧
    (includes request.url.href "/api/peptides" = false →
      (handleApiRequest w s request).result = .error e) ∧
    (request.destination ≠ "document" →
      (handleStaticRequest w s request).result = .error e) := by
  have hres : (fetchListener w s request).result = .ok none := by
    simp [fetchListener, hapi, hstatic, hnet, hmiss]
  refine ⟨hres, ?_, ?_, ?_, ?_⟩
  · rw [hres]
    intro h
    cases h
  · intro resp h
    rw [hres] at h
    cases h
  · intro hnc
    simp [handleApiRequest, hnet, handleApiRequestCatch_miss w s request _ hmiss, hnc]
  · intro hnd
    simp [handleStaticRequest, hmiss, hnet, handleStaticRequestCatch, hnd]

/-- C16 exercised: offline, a font request over an empty storage is answered
with `undefined`. -/
theorem fetchListener_absent_value_witness :
    (fetchListener offlineWorld [] fontRequest).result = .ok none ∧
    (handleStaticRequest offlineWorld [] fontRequest).result = .error fetchFailed :=
  have h := fetchListener_absent_value offlineWorld [] fontRequest fetchFailed
    (by decide) (by decide) rfl (by decide)
  ⟨h.1, h.2.2.2.2 (by decide)⟩

/-- The cache-first handler fetches exactly when `caches.match` misses. -/
theorem handleStaticRequest_fetched_iff (w : World) (s : CacheStorage) (request : Request) :
    (handleStaticRequest w s request).fetched = [request] ↔ cachesMatch w s request = none := by
  cases hm : cachesMatch w s request with
  | some cached => simp [handleStaticRequest, hm]
  | none =>
    cases hf : w.fetch request with
    | error e => simp [handleStaticRequest, hm, hf]
    | ok v => by_cases hok : v.ok = true <;> simp [handleStaticRequest, hm, hf, hok]

/-- C17: for an API-class request, and for a static-class request the handler
sends to the network, when the fetch is answered with an OK response the
handler resolves with that response whether or not `cache.put` accepts the
copy; when the put rejects, nothing is stored and the response is returned all
the same. -/
theorem handlers_return_live_response (w : World) (s : CacheStorage) (request : Request)
    (v : Response) (hnet : w.fetch request = .ok v) (hok : v.ok = true) :
    (isApiRequest request = true →
      (handleApiRequest w s request).result = .ok v ∧
      (fetchListener w s request).result = .ok (some v) ∧
      (∀ e, cachePut (s.opened API_CACHE_NAME) API_CACHE_NAME request v.clone = .error e →
        (handleApiRequest w s request).result = .ok v ∧
        (handleApiRequest w s request).storage = s.opened API_CACHE_NAME)) ∧
    (isApiRequest request = false → isStaticRequest request = true →
      (handleStaticRequest w s request).fetched = [request] →
      (handleStaticRequest w s request).result = .ok v ∧
      (fetchListener w s request).result = .ok (some v) ∧
      (∀ e, cachePut (s.opened CACHE_NAME) CACHE_NAME request v.clone = .error e →
        (handleStaticRequest w s request).result = .ok v ∧
        (handleStaticRequest w s request).storage = s.opened CACHE_NAME)) := by
  constructor
  · intro hapi
    have hres : (handleApiRequest w s request).result = .ok v := by
      simp [handleApiRequest, hnet, hok]
    refine ⟨hres, by simp [fetchListener, hapi, Outcome.respondWith, hres], ?_⟩
    intro e he
    refine ⟨hres, ?_⟩
    simp [handleApiRequest, hnet, hok, cachePutDetached, he]
  · intro hapi hstatic hfetched
    have hmiss := (handleStaticRequest_fetched_iff w s request).mp hfetched
    have hres : (handleStaticRequest w s request).result = .ok v := by
      simp [handleStaticRequest, hmiss, hnet, hok]
    refine ⟨hres, by simp [fetchListener, hapi, hstatic, Outcome.respondWith, hres], ?_⟩
    intro e he
    refine ⟨hres, ?_⟩
    simp [handleStaticRequest, hmiss, hnet, hok, cachePutDetached, he]

/-- C17 exercised: a `POST` to `/api/assessments` and a `POST` navigation to
`/intake`, both answered `200`: the put rejects, nothing is stored, the
response is returned. -/
theorem handlers_return_live_response_witness :
    (handleApiRequest onlineWorld [] (postRequest "/api/assessments" "")).result
      = .ok { data := { status := 200, headers := [], body := "fresh" }, guard := .immutable } ∧
    (handleApiRequest onlineWorld [] (postRequest "/api/assessments" "")).storage
      = [(API_CACHE_NAME, [])] ∧
    (handleStaticRequest onlineWorld [] (postRequest "/intake" "document")).result
      = .ok { data := { status := 200, headers := [], body := "fresh" }, guard := .immutable } ∧
    (handleStaticRequest onlineWorld [] (postRequest "/intake" "document")).storage
      = [(CACHE_NAME, [])] :=
  have h1 := ((handlers_return_live_response onlineWorld [] (postRequest "/api/assessments" "")
    { data := { status := 200, headers := [], body := "fresh" }, guard := .immutable }
    rfl (by decide)).1 (by decide)).2.2 cacheTypeError rfl
  have h2 := ((handlers_return_live_response onlineWorld [] (postRequest "/intake" "document")
    { data := { status := 200, headers := [], body := "fresh" }, guard := .immutable }
    rfl (by decide)).2 (by decide) (by decide) rfl).2.2 cacheTypeError rfl
  ⟨h1.1, h1.2, h2.1, h2.2⟩

/-- A successful write to the headers of a response changes the header list and
nothing else. -/
theorem Response.headersSet_ok (r : Response) (name value : String) (resp : Response)
    (h : r.headersSet name value = .ok resp) :
    resp.data.headers = headersSetList r.data.headers name value ∧
    resp.data.status = r.data.status ∧ resp.data.body = r.data.body ∧
    r.guard = .response := by
  unfold Response.headersSet at h
  cases hg : r.guard with
  | immutable => simp [hg] at h
  | response =>
    simp only [hg, Except.ok.injEq] at h
    subst h
    exact ⟨rfl, rfl, rfl, rfl⟩

/-- C18: when neither the network's responses nor the stored entries carry an
`X-Served-From` header, a response the fetch listener hands to `respondWith`
carries one only if it was produced by the network-first cache fallback: the
request is API-class, the network fetch rejected or was answered with a non-OK
status, `caches.match` found an entry, and the response is the clone of that
entry with the marker set; the header then reads `cache-offline`.  A live
network response, a response `caches.match` answers (a cache-first hit, the
shell fallback) and the synthesized offline response carry none, and so does
every response handed on for a request that is not API-class. -/
theorem fetchListener_marker_only_on_fallback (w : World) (s : CacheStorage)
    (request : Request) (resp : Response)
    (hnet : ∀ r d, w.net r = .ok d → headersGet d.headers "X-Served-From" = none)
    (hstored : ∀ p ∈ s, ∀ entry ∈ p.2, headersGet entry.2.headers "X-Served-From" = none)
    (hres : (fetchListener w s request).result = .ok (some resp)) :
    (headersGet resp.data.headers "X-Served-From" ≠ none →
      isApiRequest request = true ∧
      ((∃ e, w.fetch request = .error e) ∨ (∃ v, w.fetch request = .ok v ∧ v.ok = false)) ∧
      (∃ cached, cachesMatch w s request = some cached ∧
        cached.clone.headersSet "X-Served-From" "cache-offline" = .ok resp) ∧
      headersGet resp.data.headers "X-Served-From" = some "cache-offline") ∧
    (∀ r v, w.fetch r = .ok v → headersGet v.data.headers "X-Served-From" = none) ∧
    (∀ r cached, cachesMatch w s r = some cached →
      headersGet cached.data.headers "X-Served-From" = none) ∧
    headersGet offlineResponse.data.headers "X-Served-From" = none ∧
    (isApiRequest request = false → headersGet resp.data.headers "X-Served-From" = none) ∧
    (∀ v, w.fetch request = .ok v → v.ok = true →
      headersGet resp.data.headers "X-Served-From" = none) := by
  have hfetch : ∀ r v, w.fetch r = .ok v → headersGet v.data.headers "X-Served-From" = none := by
    intro r v hv
    cases hn : w.net r with
    | error e => simp [World.fetch, hn] at hv
    | ok d =>
      simp only [World.fetch, hn, Except.ok.injEq] at hv
      subst hv
      exact hnet r d hn
  have hmatch : ∀ r c, cachesMatch w s r = some c →
      headersGet c.data.headers "X-Served-From" = none := by
    intro r c hc
    obtain ⟨_, _, _, p, hp, hmem⟩ := cachesMatch_some w s r c hc
    exact hstored p hp _ hmem
  have hoffline : headersGet offlineResponse.data.headers "X-Served-From" = none := by decide
  have hcatch : ∀ e, handleApiRequestCatch w s request e = .ok resp →
      headersGet resp.data.headers "X-Served-From" = none ∨
      ∃ cached, cachesMatch w s request = some cached ∧
        cached.clone.headersSet "X-Served-From" "cache-offline" = .ok resp := by
    intro e he
    rcases handleApiRequestCatch_ok w s request e resp he with ⟨_, hoff⟩ | hhit
    · left
      rw [hoff]
      exact hoffline
    · exact Or.inr hhit
  have hcases : headersGet resp.data.headers "X-Served-From" = none ∨
      (isApiRequest request = true ∧
        ((∃ e, w.fetch request = .error e) ∨ (∃ v, w.fetch request = .ok v ∧ v.ok = false)) ∧
        ∃ cached, cachesMatch w s request = some cached ∧
          cached.clone.headersSet "X-Served-From" "cache-offline" = .ok resp) := by
    by_cases hapi : isApiRequest request = true
    · have hr : (handleApiRequest w s request).result = .ok resp := by
        cases hh : (handleApiRequest w s request).result with
        | error e => simp [fetchListener, hapi, Outcome.respondWith, hh] at hres
        | ok r2 =>
          simp [fetchListener, hapi, Outcome.respondWith, hh] at hres
          rw [hres]
      cases hf : w.fetch request with
      | error e =>
        simp only [handleApiRequest, hf] at hr
        rcases hcatch e hr with h | h
        · exact Or.inl h
        · exact Or.inr ⟨hapi, Or.inl ⟨e, rfl⟩, h⟩
      | ok v =>
        by_cases hok : v.ok = true
        · simp only [handleApiRequest, hf, hok, if_true, Except.ok.injEq] at hr
          subst hr
          exact Or.inl (hfetch request v hf)
        · have hok2 : v.ok = false := by simpa using hok
          simp only [handleApiRequest, hf, hok2] at hr
          rcases hcatch notOkError hr with h | h
          · exact Or.inl h
          · exact Or.inr ⟨hapi, Or.inr ⟨v, rfl, hok2⟩, h⟩
    · left
      have hapi2 : isApiRequest request = false := by simpa using hapi
      by_cases hstatic : isStaticRequest request = true
      · have hr : (handleStaticRequest w s request).result = .ok resp := by
          cases hh : (handleStaticRequest w s request).result with
          | error e => simp [fetchListener, hapi2, hstatic, Outcome.respondWith, hh] at hres
          | ok r2 =>
            simp [fetchListener, hapi2, hstatic, Outcome.respondWith, hh] at hres
            rw [hres]
        cases hm : cachesMatch w s request with
        | some cached =>
          simp only [handleStaticRequest, hm, Except.ok.injEq] at hr
          subst hr
          exact hmatch request cached hm
        | none =>
          cases hf : w.fetch request with
          | ok v =>
            have hv : v = resp := by
              by_cases hok : v.ok = true
              · simpa [handleStaticRequest, hm, hf, hok] using hr
              · simpa [handleStaticRequest, hm, hf, hok] using hr
            subst hv
            exact hfetch request v hf
          | error e =>
            simp only [handleStaticRequest, hm, hf, handleStaticRequestCatch] at hr
            by_cases hdoc : request.destination = "document"
            · rw [if_pos hdoc] at hr
              cases hroot : cachesMatch w s (w.request "/") with
              | none => simp [hroot] at hr
              | some indexResponse =>
                simp only [hroot, Except.ok.injEq] at hr
                subst hr
                exact hmatch _ indexResponse hroot
            · rw [if_neg hdoc] at hr
              cases hr
      · have hstatic2 : isStaticRequest request = false := by simpa using hstatic
        cases hf : w.fetch request with
        | ok v =>
          have hv : v = resp := by
            simpa [fetchListener, hapi2, hstatic2, hf] using hres
          subst hv
          exact hfetch request v hf
        | error e =>
          have hc : cachesMatch w s request = some resp := by
            simpa [fetchListener, hapi2, hstatic2, hf] using hres
          exact hmatch request resp hc
  refine ⟨?_, hfetch, hmatch, hoffline, ?_, ?_⟩
  · intro hne
    rcases hcases with hnone | ⟨hapi, hfail, cached, hhit, hset⟩
    · exact absurd hnone hne
    · refine ⟨hapi, hfail, ⟨cached, hhit, hset⟩, ?_⟩
      rw [(Response.headersSet_ok _ _ _ _ hset).1]
      exact headersGet_headersSetList _ _ _
  · intro hapi
    rcases hcases with hnone | ⟨hapi2, _⟩
    · exact hnone
    · rw [hapi] at hapi2
      cases hapi2
  · intro v hv hok
    rcases hcases with hnone | ⟨_, hfail, _⟩
    · exact hnone
    · rcases hfail with ⟨e, he⟩ | ⟨v2, hv2, hok2⟩
      · rw [hv] at he
        cases he
      · rw [hv] at hv2
        cases hv2
        rw [hok] at hok2
        cases hok2

/-- C18 exercised: on Chromium, offline, with `/api/protocols` cached, the
response handed on carries the marker, and it comes from the cache fallback of
an API request. -/
theorem fetchListener_marker_only_on_fallback_witness :
    isApiRequest (sampleRequest "/api/protocols" "") = true ∧
    headersGet
      (headersSetList protocolsData.headers "X-Served-From" "cache-offline")
      "X-Served-From" = some "cache-offline" ∧
    (fetchListener offlineWorld.onChromium protocolsStorage
        (sampleRequest "/api/protocols" "")).result
      = .ok (some { data := { protocolsData with
                      headers := headersSetList protocolsData.headers "X-Served-From"
                        "cache-offline" },
                    guard := .response }) :=
  have h := (fetchListener_marker_only_on_fallback offlineWorld.onChromium protocolsStorage
    (sampleRequest "/api/protocols" "")
    { data := { protocolsData with
        headers := headersSetList protocolsData.headers "X-Served-From" "cache-offline" },
      guard := .response }
    (by intro r d h; cases h)
    (by decide)
    rfl).1 (by decide)
  ⟨h.1, h.2.2.2, rfl⟩

/-! ## Notification clicks -/

/-- C21: on every notification click the notification is closed, first.  For
the action `open` the listener then focuses the first client listed when there
is one and otherwise opens a window at `/`, exactly one of the two; for any
other action it does nothing more. -/
theorem notificationClickListener_effects (action : String) (clientList : List String) :
    (notificationClickListener action clientList).head? = some ClickEffect.close ∧
    (notificationClickListener action clientList).count ClickEffect.close = 1 ∧
    (∀ client rest, clientList = client :: rest →
      notificationClickListener "open" clientList
        = [ClickEffect.close, ClickEffect.focus client]) ∧
    (clientList = [] →
      notificationClickListener "open" clientList
        = [ClickEffect.close, ClickEffect.openWindow "/"]) ∧
    (action ≠ "open" → notificationClickListener action clientList = [ClickEffect.close]) := by
  refine ⟨rfl, ?_, ?_, ?_, ?_⟩
  · by_cases ha : action = "open"
    · cases clientList <;> simp [notificationClickListener, ha]
    · simp [notificationClickListener, ha]
  · intro client rest h
    simp [notificationClickListener, h]
  · intro h
    simp [notificationClickListener, h]
  · intro ha
    simp [notificationClickListener, ha]

/-- C21 exercised: `open` with two windows focuses the first, `open` with none
opens `/`, `dismiss` only closes. -/
theorem notificationClickListener_effects_witness :
    notificationClickListener "open" ["tab-1", "tab-2"]
      = [ClickEffect.close, ClickEffect.focus "tab-1"] ∧
    notificationClickListener "open" [] = [ClickEffect.close, ClickEffect.openWindow "/"] ∧
    notificationClickListener "dismiss" ["tab-1"] = [ClickEffect.close] :=
  ⟨(notificationClickListener_effects "open" ["tab-1", "tab-2"]).2.2.1 "tab-1" ["tab-2"] rfl,
   (notificationClickListener_effects "open" []).2.2.2.1 rfl,
   (notificationClickListener_effects "dismiss" ["tab-1"]).2.2.2.2 (by decide)⟩

/-! ## Non-OK responses -/

/-- C23, as the code behaves: for an API-class request whose fetch is answered
with a non-OK response, the handler enters its `catch` block with the error
`Network response not ok`: the response is neither stored (the storage is left
as it was) nor returned; with no cached entry the result is the synthesized
offline response when the URL contains `/api/peptides` and otherwise a failure
with the message `Network response not ok`.  With a cached entry the block
writes the marker to the headers of the clone (line 131): on an engine that
hands cached responses out with mutable headers the result is the cached entry
with the marker; on an engine that keeps the headers of cached responses
immutable the write throws, and the result is that `TypeError`, not the cached
entry. -/
theorem handleApiRequest_not_ok (w : World) (s : CacheStorage) (request : Request)
    (v : Response)
    (hapi : isApiRequest request = true)
    (hnet : w.fetch request = .ok v)
    (hok : v.ok = false) :
    (handleApiRequest w s request).storage = s ∧
    (fetchListener w s request).storage = s ∧
    (handleApiRequest w s request).result = handleApiRequestCatch w s request notOkError ∧
    (handleApiRequest w s request).result ≠ .ok v ∧
    (∀ cached, cachesMatch w s request = some cached → w.cachedGuard = .immutable →
      (handleApiRequest w s request).result = .error immutableHeadersError ∧
      (fetchListener w s request).result = .error immutableHeadersError) ∧
    (∀ cached, cachesMatch w s request = some cached → w.cachedGuard = .response →
      (handleApiRequest w s request).result
        = .ok { data := { cached.data with
                  headers := headersSetList cached.data.headers "X-Served-From"
                    "cache-offline" },
                guard := .response } ∧
      headersGet (headersSetList cached.data.headers "X-Served-From" "cache-offline")
        "X-Served-From" = some "cache-offline") ∧
    (cachesMatch w s request = none → includes request.url.href "/api/peptides" = true →
      (handleApiRequest w s request).result = .ok offlineResponse) ∧
    (cachesMatch w s request = none → includes request.url.href "/api/peptides" = false →
      (handleApiRequest w s request).result = .error notOkError ∧
      notOkError.message = "Network response not ok") := by
  have hres : (handleApiRequest w s request).result
      = handleApiRequestCatch w s request notOkError := by
    simp [handleApiRequest, hnet, hok]
  have hsto : (handleApiRequest w s request).storage = s := by
    simp [handleApiRequest, hnet, hok]
  have hfetch : ∀ r x, w.fetch r = .ok x → x.guard = .immutable := by
    intro r x hx
    cases hn : w.net r with
    | error e => simp [World.fetch, hn] at hx
    | ok d =>
      simp only [World.fetch, hn, Except.ok.injEq] at hx
      rw [← hx]
  refine ⟨hsto, by simp [fetchListener, hapi, Outcome.respondWith, hsto], hres, ?_, ?_, ?_, ?_,
    ?_⟩
  · rw [hres]
    intro h
    rcases handleApiRequestCatch_ok w s request _ v h with ⟨_, hoff⟩ | ⟨cached, _, hset⟩
    · have hg := hfetch request v hnet
      rw [hoff] at hg
      cases hg
    · have hg := hfetch request v hnet
      cases hc : cached.clone.guard with
      | immutable => simp [Response.headersSet, hc] at hset
      | response =>
        simp only [Response.headersSet, hc, Except.ok.injEq] at hset
        rw [← hset] at hg
        simp only [hc] at hg
        cases hg
  · intro cached hhit hguard
    have h := handleApiRequestCatch_hit_immutable w s request notOkError cached hhit hguard
    refine ⟨by rw [hres, h], ?_⟩
    simp [fetchListener, hapi, Outcome.respondWith, hres, h]
  · intro cached hhit hguard
    rw [hres, (handleApiRequestCatch_hit_mutable w s request _ cached hhit hguard).1]
    exact ⟨rfl, headersGet_headersSetList _ _ _⟩
  · intro hmiss hcrit
    rw [hres, handleApiRequestCatch_miss w s request _ hmiss, if_pos hcrit]
  · intro hmiss hcrit
    rw [hres, handleApiRequestCatch_miss w s request _ hmiss]
    simp [hcrit, notOkError]

/-- C23 exercised: `/api/protocols` is cached and the network answers `404`.
On an engine that keeps the headers of cached responses immutable the result is
the `TypeError`, and nothing is stored; on Chromium the result is the cached
entry with the marker. -/
theorem handleApiRequest_not_ok_witness :
    (handleApiRequest notFoundWorld protocolsStorage (sampleRequest "/api/protocols" "")).result
      = .error { name := "TypeError", message := "Headers are immutable" } ∧
    (handleApiRequest notFoundWorld protocolsStorage (sampleRequest "/api/protocols" "")).storage
      = protocolsStorage ∧
    (handleApiRequest notFoundWorld.onChromium protocolsStorage
        (sampleRequest "/api/protocols" "")).result
      = .ok { data := { status := 200, headers := [("X-Served-From", "cache-offline")],
                        body := "[1,2,3]" },
              guard := .response } :=
  have h := handleApiRequest_not_ok notFoundWorld protocolsStorage
    (sampleRequest "/api/protocols" "")
    { data := { status := 404, headers := [], body := "missing" }, guard := .immutable }
    (by decide) rfl (by decide)
  have h2 := handleApiRequest_not_ok notFoundWorld.onChromium protocolsStorage
    (sampleRequest "/api/protocols" "")
    { data := { status := 404, headers := [], body := "missing" }, guard := .immutable }
    (by decide) rfl (by decide)
  ⟨(h.2.2.2.2.1 { data := protocolsData, guard := .immutable } (by decide) rfl).1, h.1,
   (h2.2.2.2.2.2.1 { data := protocolsData, guard := .response } (by decide) rfl).1⟩

/-- C26: for a static-class request that misses the cache and whose fetch is
answered with a non-OK response, `handleStaticRequest` resolves with that very
response, the storage is left as it was, and the cached root document is not
substituted, whatever the destination and whatever is cached for `/`. -/
theorem handleStaticRequest_not_ok (w : World) (s : CacheStorage) (request : Request)
    (v : Response)
    (hstatic : isStaticRequest request = true)
    (hmiss : cachesMatch w s request = none)
    (hnet : w.fetch request = .ok v)
    (hok : v.ok = false) :
    (handleStaticRequest w s request).result = .ok v ∧
    (handleStaticRequest w s request).storage = s ∧
    (isApiRequest request = false →
      (fetchListener w s request).result = .ok (some v) ∧
      (fetchListener w s request).storage = s) ∧
    (∀ indexResponse, request.destination = "document" →
      cachesMatch w s (w.request "/") = some indexResponse → indexResponse ≠ v →
      (handleStaticRequest w s request).result ≠ .ok indexResponse) := by
  have hres : (handleStaticRequest w s request).result = .ok v := by
    simp [handleStaticRequest, hmiss, hnet, hok]
  have hsto : (handleStaticRequest w s request).storage = s := by
    simp [handleStaticRequest, hmiss, hnet, hok]
  refine ⟨hres, hsto, ?_, ?_⟩
  · intro hapi
    constructor
    · simp [fetchListener, hapi, hstatic, Outcome.respondWith, hres]
    · simp [fetchListener, hapi, hstatic, Outcome.respondWith, hsto]
  · intro indexResponse _ _ hne h
    rw [hres] at h
    exact hne (Except.ok.inj h).symm

/-- C26 exercised: a navigation to `/dashboard` answered `404`, with `/` cached:
the `404` is returned and the storage is unchanged. -/
theorem handleStaticRequest_not_ok_witness :
    (handleStaticRequest notFoundWorld shellStorage (sampleRequest "/dashboard" "document")).result
      = .ok { data := { status := 404, headers := [], body := "missing" }, guard := .immutable } ∧
    (handleStaticRequest notFoundWorld shellStorage (sampleRequest "/dashboard" "document")).storage
      = shellStorage :=
  have h := handleStaticRequest_not_ok notFoundWorld shellStorage
    (sampleRequest "/dashboard" "document")
    { data := { status := 404, headers := [], body := "missing" }, guard := .immutable }
    (by decide) (by decide) rfl (by decide)
  ⟨h.1, h.2.1⟩

/-! ## Critical endpoints -/

/-- C24, as the code behaves: of the four bootstrap endpoints only the two
under `/api/peptides` get the synthesized offline response when the network is
down and nothing is cached; for `/api/protocols` and `/api/protocols/enhanced`
the URL does not contain `/api/peptides`, and the handler (and with it the
listener) rejects with the network error. -/
theorem bootstrap_endpoints_offline_fallback :
    API_CACHE_URLS
      = ["/api/peptides", "/api/peptides/categories", "/api/protocols",
         "/api/protocols/enhanced"] ∧
    (handleApiRequest offlineWorld [] (offlineWorld.request "/api/peptides")).result
      = .ok offlineResponse ∧
    (handleApiRequest offlineWorld [] (offlineWorld.request "/api/peptides/categories")).result
      = .ok offlineResponse ∧
    (handleApiRequest offlineWorld [] (offlineWorld.request "/api/protocols")).result
      = .error fetchFailed ∧
    (handleApiRequest offlineWorld [] (offlineWorld.request "/api/protocols/enhanced")).result
      = .error fetchFailed ∧
    (fetchListener offlineWorld [] (offlineWorld.request "/api/protocols")).result
      = .error fetchFailed ∧
    cachesMatch offlineWorld [] (offlineWorld.request "/api/protocols") = none ∧
    includes (offlineWorld.request "/api/protocols").url.href "/api/peptides" = false :=
  ⟨rfl, rfl, rfl, rfl, rfl, rfl, by decide, by decide⟩

/-- C25 as stated fails: API requests with the same origin and the same path
`/api/protocols`, the network down and nothing cached; the one without a query
string is rejected with the network error, the one whose query string contains
`/api/peptides` gets the synthesized offline response, and so does the one
whose fragment contains it (same origin, path and query string). -/
theorem critical_decision_path_only_counterexample :
    (sampleRequest "/api/protocols" "").url.pathname
      = (queryRequest "/api/protocols" "?next=/api/peptides").url.pathname ∧
    (sampleRequest "/api/protocols" "").url.origin
      = (queryRequest "/api/protocols" "?next=/api/peptides").url.origin ∧
    isApiRequest (sampleRequest "/api/protocols" "") = true ∧
    isApiRequest (queryRequest "/api/protocols" "?next=/api/peptides") = true ∧
    cachesMatch offlineWorld [] (sampleRequest "/api/protocols" "") = none ∧
    cachesMatch offlineWorld [] (queryRequest "/api/protocols" "?next=/api/peptides") = none ∧
    (handleApiRequest offlineWorld [] (sampleRequest "/api/protocols" "")).result
      = .error fetchFailed ∧
    (handleApiRequest offlineWorld [] (queryRequest "/api/protocols" "?next=/api/peptides")).result
      = .ok offlineResponse ∧
    (sampleRequest "/api/protocols" "").url.pathname
      = (fragmentRequest "/api/protocols" "#/api/peptides").url.pathname ∧
    (sampleRequest "/api/protocols" "").url.origin
      = (fragmentRequest "/api/protocols" "#/api/peptides").url.origin ∧
    (sampleRequest "/api/protocols" "").url.search
      = (fragmentRequest "/api/protocols" "#/api/peptides").url.search ∧
    (fragmentRequest "/api/protocols" "#/api/peptides").url.href
      = "https://app.example/api/protocols#/api/peptides" ∧
    isApiRequest (fragmentRequest "/api/protocols" "#/api/peptides") = true ∧
    cachesMatch offlineWorld [] (fragmentRequest "/api/protocols" "#/api/peptides") = none ∧
    (handleApiRequest offlineWorld [] (fragmentRequest "/api/protocols" "#/api/peptides")).result
      = .ok offlineResponse :=
  ⟨rfl, rfl, by decide, by decide, by decide, by decide, rfl, rfl, rfl, rfl, rfl, by decide,
   by decide, by decide, rfl⟩

/-- C25, amended: the critical-endpoint decision depends only on whether the
request URL as a whole, as `request.url` serialises it (origin, path, query
string and fragment), contains `/api/peptides`: two API-class requests, both
with the network failing and nothing cached, whose URLs both contain it or both
do not, either both get the synthesized offline response or both are rejected;
the one outcome exactly when the URL contains it. -/
theorem critical_decision_depends_on_url (w1 w2 : World) (s1 s2 : CacheStorage)
    (r1 r2 : Request)
    (hapi1 : isApiRequest r1 = true) (hapi2 : isApiRequest r2 = true)
    (hnet1 : (∃ e, w1.fetch r1 = .error e) ∨ (∃ v, w1.fetch r1 = .ok v ∧ v.ok = false))
    (hnet2 : (∃ e, w2.fetch r2 = .error e) ∨ (∃ v, w2.fetch r2 = .ok v ∧ v.ok = false))
    (hmiss1 : cachesMatch w1 s1 r1 = none) (hmiss2 : cachesMatch w2 s2 r2 = none)
    (hsame : includes r1.url.href "/api/peptides" = includes r2.url.href "/api/peptides") :
    (includes r1.url.href "/api/peptides" = true ∧
      (handleApiRequest w1 s1 r1).result = .ok offlineResponse ∧
      (handleApiRequest w2 s2 r2).result = .ok offlineResponse ∧
      (fetchListener w1 s1 r1).result = .ok (some offlineResponse) ∧
      (fetchListener w2 s2 r2).result = .ok (some offlineResponse)) ∨
    (includes r1.url.href "/api/peptides" = false ∧
      (∃ e, (handleApiRequest w1 s1 r1).result = .error e ∧
        (fetchListener w1 s1 r1).result = .error e) ∧
      (∃ e, (handleApiRequest w2 s2 r2).result = .error e ∧
        (fetchListener w2 s2 r2).result = .error e)) := by
  obtain ⟨e1, h1⟩ := handleApiRequest_result_of_failure w1 s1 r1 hnet1
  obtain ⟨e2, h2⟩ := handleApiRequest_result_of_failure w2 s2 r2 hnet2
  rw [handleApiRequestCatch_miss w1 s1 r1 e1 hmiss1] at h1
  rw [handleApiRequestCatch_miss w2 s2 r2 e2 hmiss2] at h2
  by_cases hc : includes r1.url.href "/api/peptides" = true
  · have hc2 : includes r2.url.href "/api/peptides" = true := by rw [← hsame]; exact hc
    rw [if_pos hc] at h1
    rw [if_pos hc2] at h2
    left
    exact ⟨hc, h1, h2, by simp [fetchListener, hapi1, Outcome.respondWith, h1],
      by simp [fetchListener, hapi2, Outcome.respondWith, h2]⟩
  · have hc2 : ¬ includes r2.url.href "/api/peptides" = true := by rw [← hsame]; exact hc
    rw [if_neg hc] at h1
    rw [if_neg hc2] at h2
    right
    exact ⟨by simpa using hc, ⟨e1, h1, by simp [fetchListener, hapi1, Outcome.respondWith, h1]⟩,
      ⟨e2, h2, by simp [fetchListener, hapi2, Outcome.respondWith, h2]⟩⟩

/-- C25 amended, exercised: `/api/protocols` with a harmless query string and
with a harmless fragment, offline and uncached: both are rejected. -/
theorem critical_decision_depends_on_url_witness :
    (∃ e, (handleApiRequest offlineWorld [] (fragmentRequest "/api/protocols" "#top")).result
        = .error e) ∧
    (∃ e, (handleApiRequest offlineWorld [] (queryRequest "/api/protocols" "?page=2")).result
        = .error e) := by
  rcases critical_decision_depends_on_url offlineWorld offlineWorld [] []
    (fragmentRequest "/api/protocols" "#top") (queryRequest "/api/protocols" "?page=2")
    (by decide) (by decide) (Or.inl ⟨fetchFailed, rfl⟩) (Or.inl ⟨fetchFailed, rfl⟩)
    (by decide) (by decide) (by decide) with h | h
  · exact absurd h.1 (by decide)
  · obtain ⟨_, ⟨e1, h1, _⟩, ⟨e2, h2, _⟩⟩ := h
    exact ⟨⟨e1, h1⟩, ⟨e2, h2⟩⟩

/-! ## Activation: the frame -/

/-- The contents of a partition whose name a filter on names keeps. -/
theorem CacheStorage.partition_filter_keep (keep : String → Bool) (n : String)
    (hn : keep n = true) (s : CacheStorage) :
    CacheStorage.partition (s.filter (fun p => keep p.1)) n = s.partition n := by
  induction s with
  | nil => rfl
  | cons p rest ih =>
    obtain ⟨pn, pc⟩ := p
    by_cases hp : pn = n
    · subst hp
      simp [List.filter_cons, hn, CacheStorage.partition]
    · by_cases hk : keep pn = true
      · simp [List.filter_cons, hk, CacheStorage.partition, hp, ih]
      · simp [List.filter_cons, hk, CacheStorage.partition, hp, ih]

/-- Whether a partition exists whose name a filter on names keeps. -/
theorem CacheStorage.has_filter_keep (keep : String → Bool) (n : String)
    (hn : keep n = true) (s : CacheStorage) :
    CacheStorage.has (s.filter (fun p => keep p.1)) n = s.has n := by
  induction s with
  | nil => rfl
  | cons p rest ih =>
    obtain ⟨pn, pc⟩ := p
    by_cases hp : pn = n
    · subst hp
      simp [List.filter_cons, hn, CacheStorage.has_cons]
    · by_cases hk : keep pn = true
      · simp [List.filter_cons, hk, CacheStorage.has_cons, hp, ih]
      · simp [List.filter_cons, hk, CacheStorage.has_cons, hp, ih]

/-- The storage activation leaves: the partitions that are not stale. -/
theorem activate_storage_eq_filter (s : CacheStorage) :
    (activate s).storage = s.filter (fun p => !isStaleCache p.1) := by
  simp only [activate, deleteStaleCaches_eq_filter]
  apply List.filter_congr
  intro p hp
  have hmem : p.1 ∈ s.keys := List.mem_map_of_mem (fun q => q.1) hp
  simp [hmem]

/-- C29: activation leaves the entries of the two current partitions as they
were: the static partition and the api partition read the same, entry for
entry, before and after, and each exists afterwards exactly when it existed
before. -/
theorem activate_frame (s : CacheStorage) :
    (activate s).storage.partition CACHE_NAME = s.partition CACHE_NAME ∧
    (activate s).storage.partition API_CACHE_NAME = s.partition API_CACHE_NAME ∧
    (activate s).storage.has CACHE_NAME = s.has CACHE_NAME ∧
    (activate s).storage.has API_CACHE_NAME = s.has API_CACHE_NAME ∧
    (∀ u, Cache.lookup ((activate s).storage.partition CACHE_NAME) u
        = Cache.lookup (s.partition CACHE_NAME) u) ∧
    (∀ u, Cache.lookup ((activate s).storage.partition API_CACHE_NAME) u
        = Cache.lookup (s.partition API_CACHE_NAME) u) := by
  have h1 : (activate s).storage.partition CACHE_NAME = s.partition CACHE_NAME := by
    rw [activate_storage_eq_filter]
    exact CacheStorage.partition_filter_keep (fun n => !isStaleCache n) CACHE_NAME (by decide) s
  have h2 : (activate s).storage.partition API_CACHE_NAME = s.partition API_CACHE_NAME := by
    rw [activate_storage_eq_filter]
    exact CacheStorage.partition_filter_keep (fun n => !isStaleCache n) API_CACHE_NAME
      (by decide) s
  refine ⟨h1, h2, ?_, ?_, fun u => by rw [h1], fun u => by rw [h2]⟩
  · rw [activate_storage_eq_filter]
    exact CacheStorage.has_filter_keep (fun n => !isStaleCache n) CACHE_NAME (by decide) s
  · rw [activate_storage_eq_filter]
    exact CacheStorage.has_filter_keep (fun n => !isStaleCache n) API_CACHE_NAME (by decide) s

/-! ## Pre-warming -/

/-- Puts under other URLs leave the entry of a URL as it was. -/
theorem Cache.lookup_insertAll_of_not_mem (entries : List (Url × ResponseData)) (u : Url) :
    ∀ (c : Cache), u ∉ entries.map (fun e => e.1) →
      Cache.lookup (Cache.insertAll c entries) u = Cache.lookup c u := by
  induction entries with
  | nil => intro c _; rfl
  | cons e rest ih =>
    intro c hnot
    obtain ⟨k, v⟩ := e
    have hk : k ≠ u := fun he => hnot (by simp [he])
    have hrest : u ∉ rest.map (fun e => e.1) := fun hm =>
      hnot (List.mem_cons_of_mem _ hm)
    rw [Cache.insertAll, ih _ hrest, Cache.lookup_insert_other _ _ _ _ hk]

/-- What pre-warming stores, spelled out: an OK answer that the cache stores. -/
theorem prewarmStores_iff (w : World) (url : String) (d : ResponseData) :
    prewarmStores w url d = true ↔
      (Response.ok { data := d, guard := .immutable } = true ∧ d.storable = true) := by
  unfold prewarmStores
  rw [Bool.and_eq_true, (cacheAccepts_own w url d).1]

/-- A key pre-warming writes is the URL of an endpoint the network answered
with an OK response the cache accepts. -/
theorem okApiEntries_key_mem (w : World) (urls : List String) (k : Url)
    (h : k ∈ (okApiEntries w urls).map (fun e => e.1)) :
    ∃ a ∈ urls, k = w.resolve a ∧
      ∃ d, w.net (w.request a) = .ok d ∧ prewarmStores w a d = true := by
  induction urls with
  | nil => simp [okApiEntries] at h
  | cons b rest ih =>
    cases hb : w.net (w.request b) with
    | error e =>
      simp only [okApiEntries, hb] at h
      obtain ⟨a, ha, hk⟩ := ih h
      exact ⟨a, List.mem_cons_of_mem _ ha, hk⟩
    | ok d =>
      by_cases hst : prewarmStores w b d = true
      · simp only [okApiEntries, hb, hst, if_true, List.map_cons, List.mem_cons] at h
        rcases h with h | h
        · exact ⟨b, List.mem_cons_self _ _, h, d, hb, hst⟩
        · obtain ⟨a, ha, hk⟩ := ih h
          exact ⟨a, List.mem_cons_of_mem _ ha, hk⟩
      · simp only [okApiEntries, hb, hst] at h
        obtain ⟨a, ha, hk⟩ := ih h
        exact ⟨a, List.mem_cons_of_mem _ ha, hk⟩

/-- A key the pre-warm of install writes is the URL of a bootstrap endpoint the
network answered with an OK response the cache accepts. -/
theorem prewarmEntries_key_mem (w : World) (k : Url)
    (h : k ∈ (prewarmEntries w).map (fun e => e.1)) :
    ∃ a ∈ API_CACHE_URLS, k = w.resolve a ∧
      ∃ d, w.net (w.request a) = .ok d ∧ prewarmStores w a d = true := by
  obtain ⟨a, ha, hk, hd⟩ := okApiEntries_key_mem w _ k h
  exact ⟨a, (mem_completionOrder w _ a).mp ha, hk, hd⟩

/-- The api partition install leaves: the prior one with the entries of the
bootstrap answers pre-warming stores put into it. -/
theorem install_api_partition (w : World) (s : CacheStorage) :
    (install w s).storage.partition API_CACHE_NAME =
      Cache.insertAll (s.partition API_CACHE_NAME) (prewarmEntries w) := by
  cases hf : fetchAllOk w (STATIC_CACHE_URLS.map w.reloadRequest) with
  | ok entries =>
    rw [(install_storage_of_ok w s entries hf).2.2,
      CacheStorage.partition_insertAll_self _ _ _
        (by rw [CacheStorage.has_insertAll]; exact (opened_has_both s).2),
      CacheStorage.partition_insertAll_other _ _ _ (by decide),
      CacheStorage.partition_opened, CacheStorage.partition_opened]
  | error e =>
    rw [(install_storage_of_error w s e hf).2.2,
      CacheStorage.partition_insertAll_self _ _ _ (opened_has_both s).2,
      CacheStorage.partition_opened, CacheStorage.partition_opened]

/-- C27 as stated fails: starting from an empty storage, with the bootstrap
fetch of `/api/peptides` answered with the OK status `206`, or with `200` and a
`Vary: *` header, the api partition holds no entry for the endpoint after
install: `cache.put` rejects the answer and the `catch` of line 45 swallows the
rejection. -/
theorem install_prewarm_exact_counterexample :
    "/api/peptides" ∈ API_CACHE_URLS ∧
    Cache.lookup (CacheStorage.partition [] API_CACHE_NAME)
      (partialWorld.resolve "/api/peptides") = none ∧
    partialWorld.fetch (partialWorld.request "/api/peptides")
      = .ok { data := partialData, guard := .immutable } ∧
    Response.ok { data := partialData, guard := .immutable } = true ∧
    Cache.lookup ((install partialWorld []).storage.partition API_CACHE_NAME)
      (partialWorld.resolve "/api/peptides") = none ∧
    varyStarWorld.fetch (varyStarWorld.request "/api/peptides")
      = .ok { data := varyStarData, guard := .immutable } ∧
    Response.ok { data := varyStarData, guard := .immutable } = true ∧
    Cache.lookup ((install varyStarWorld []).storage.partition API_CACHE_NAME)
      (varyStarWorld.resolve "/api/peptides") = none :=
  ⟨by decide, by decide, rfl, by decide, by decide, rfl, by decide, by decide⟩

/-- C27, amended: for a bootstrap endpoint, after install the api partition
holds the fetched response under it when the bootstrap fetch was answered with
an OK response the Cache API accepts (the status is not `206`, there is no
`Vary: *` header); when the fetch was rejected
or answered with a non-OK status or with a response the Cache API does not
accept, the entry for it, present or absent, is as before.  So, starting from an
api partition with no entry for the endpoint, there is one afterwards exactly
when the fetch was answered with an OK response the Cache API accepts. -/
theorem install_prewarm_exact (w : World) (s : CacheStorage) (u : String)
    (hu : u ∈ API_CACHE_URLS) :
    (∀ d, w.net (w.request u) = .ok d →
      Response.ok { data := d, guard := .immutable } = true → d.storable = true →
      Cache.lookup ((install w s).storage.partition API_CACHE_NAME) (w.resolve u) = some d) ∧
    (((∃ e, w.net (w.request u) = .error e) ∨
        (∃ d, w.net (w.request u) = .ok d ∧
          (Response.ok { data := d, guard := .immutable } = false ∨ d.storable = false))) →
      Cache.lookup ((install w s).storage.partition API_CACHE_NAME) (w.resolve u)
        = Cache.lookup (s.partition API_CACHE_NAME) (w.resolve u)) ∧
    (Cache.lookup (s.partition API_CACHE_NAME) (w.resolve u) = none →
      ((∃ stored, Cache.lookup ((install w s).storage.partition API_CACHE_NAME) (w.resolve u)
          = some stored) ↔
        ∃ d, w.net (w.request u) = .ok d ∧
          Response.ok { data := d, guard := .immutable } = true ∧ d.storable = true)) := by
  have hokcase : ∀ d, w.net (w.request u) = .ok d →
      Response.ok { data := d, guard := .immutable } = true → d.storable = true →
      Cache.lookup ((install w s).storage.partition API_CACHE_NAME) (w.resolve u) = some d :=
    fun d hd hok hs => Cache.lookup_of_filter_eq _ _ _
      (install_api_entries w s u hu d hd ((prewarmStores_iff w u d).mpr ⟨hok, hs⟩))
  have hbad : ((∃ e, w.net (w.request u) = .error e) ∨
        (∃ d, w.net (w.request u) = .ok d ∧
          (Response.ok { data := d, guard := .immutable } = false ∨ d.storable = false))) →
      Cache.lookup ((install w s).storage.partition API_CACHE_NAME) (w.resolve u)
        = Cache.lookup (s.partition API_CACHE_NAME) (w.resolve u) := by
    intro hfail
    rw [install_api_partition]
    apply Cache.lookup_insertAll_of_not_mem
    intro hmem
    obtain ⟨a, _, hk, d, hd, hst⟩ := prewarmEntries_key_mem w _ hmem
    have hau : u = a := w.resolve_injective hk
    subst hau
    obtain ⟨hok, hs⟩ := (prewarmStores_iff w u d).mp hst
    rcases hfail with ⟨e, he⟩ | ⟨d2, hd2, hb⟩
    · rw [hd] at he
      cases he
    · rw [hd] at hd2
      cases hd2
      rcases hb with hb | hb
      · rw [hok] at hb; cases hb
      · rw [hs] at hb; cases hb
  refine ⟨hokcase, hbad, ?_⟩
  intro hnone
  constructor
  · rintro ⟨stored, hstored⟩
    cases hn : w.net (w.request u) with
    | error e =>
      rw [hbad (Or.inl ⟨e, hn⟩), hnone] at hstored
      cases hstored
    | ok d =>
      by_cases hst : prewarmStores w u d = true
      · exact ⟨d, rfl, (prewarmStores_iff w u d).mp hst⟩
      · have hb : Response.ok { data := d, guard := .immutable } = false ∨
            d.storable = false := by
          by_contra hcon
          apply hst
          rw [prewarmStores_iff]
          refine ⟨?_, ?_⟩
          · cases h1 : Response.ok { data := d, guard := .immutable } with
            | true => rfl
            | false => exact absurd (Or.inl h1) hcon
          · cases h3 : d.storable with
            | true => rfl
            | false => exact absurd (Or.inr h3) hcon
        rw [hbad (Or.inr ⟨d, hn, hb⟩), hnone] at hstored
        cases hstored
  · rintro ⟨d, hd, hok, hs⟩
    exact ⟨d, hokcase d hd hok hs⟩

/-- C27 amended, exercised: with the network up `/api/protocols` is stored by
install; with every API call rejected the entry already stored stays. -/
theorem install_prewarm_exact_witness :
    Cache.lookup ((install onlineWorld []).storage.partition API_CACHE_NAME)
      (onlineWorld.resolve "/api/protocols")
      = some { status := 200, headers := [], body := "fresh" } ∧
    Cache.lookup ((install apiDownWorld protocolsStorage).storage.partition API_CACHE_NAME)
      (apiDownWorld.resolve "/api/protocols") = some protocolsData :=
  ⟨(install_prewarm_exact onlineWorld [] "/api/protocols" (by decide)).1 _ rfl (by decide)
      (by decide),
   ((install_prewarm_exact apiDownWorld protocolsStorage "/api/protocols" (by decide)).2.1
      (Or.inl ⟨fetchFailed, rfl⟩)).trans (by decide)⟩

/-! ## Fetch handling and the static partition -/

/-- The storage after a detached put: with the entry put under the URL of a
`GET` request, without its fragment, or the storage as it was. -/
theorem cachePutDetached_cases (s : CacheStorage) (name : String) (request : Request)
    (response : Response) :
    (request.method = "GET" ∧
      cachePutDetached s name request response
        = s.insert name request.url.withoutFragment response.data) ∨
    cachePutDetached s name request response = s := by
  by_cases hacc : cacheAccepts request response.data = true
  · exact Or.inl ⟨((cacheAccepts_iff request response.data).mp hacc).2.1,
      (cachePutDetached_of_accepts s name request response hacc).2⟩
  · exact Or.inr (cachePutDetached_of_rejects s name request response (by simpa using hacc)).2

/-- The storage `handleApiRequest` leaves: the storage as it was, the storage
with the api partition opened, or that with the response put under the
request URL of a `GET` request. -/
theorem handleApiRequest_storage_cases (w : World) (s : CacheStorage) (request : Request) :
    (handleApiRequest w s request).storage = s ∨
    (handleApiRequest w s request).storage = s.opened API_CACHE_NAME ∨
    ∃ d, (handleApiRequest w s request).storage
      = (s.opened API_CACHE_NAME).insert API_CACHE_NAME request.url.withoutFragment d := by
  cases hf : w.fetch request with
  | error e => exact Or.inl (by simp [handleApiRequest, hf])
  | ok v =>
    by_cases hok : v.ok = true
    · rcases cachePutDetached_cases (s.opened API_CACHE_NAME) API_CACHE_NAME request v.clone
        with ⟨_, h⟩ | h
      · exact Or.inr (Or.inr ⟨v.clone.data, by simp [handleApiRequest, hf, hok, h]⟩)
      · exact Or.inr (Or.inl (by simp [handleApiRequest, hf, hok, h]))
    · exact Or.inl (by simp [handleApiRequest, hf, hok])

/-- The storage `handleStaticRequest` leaves: the storage as it was, the
storage with the static partition opened, or, after a miss for a `GET`
request, that with the response put under the request URL. -/
theorem handleStaticRequest_storage_cases (w : World) (s : CacheStorage) (request : Request) :
    (handleStaticRequest w s request).storage = s ∨
    (handleStaticRequest w s request).storage = s.opened CACHE_NAME ∨
    (request.method = "GET" ∧ cachesMatch w s request = none ∧
      ∃ d, (handleStaticRequest w s request).storage
        = (s.opened CACHE_NAME).insert CACHE_NAME request.url.withoutFragment d) := by
  cases hm : cachesMatch w s request with
  | some cached => exact Or.inl (by simp [handleStaticRequest, hm])
  | none =>
    cases hf : w.fetch request with
    | error e => exact Or.inl (by simp [handleStaticRequest, hm, hf])
    | ok v =>
      by_cases hok : v.ok = true
      · rcases cachePutDetached_cases (s.opened CACHE_NAME) CACHE_NAME request v.clone
          with ⟨hget, h⟩ | h
        · exact Or.inr (Or.inr ⟨hget, rfl,
            v.clone.data, by simp [handleStaticRequest, hm, hf, hok, h]⟩)
        · exact Or.inr (Or.inl (by simp [handleStaticRequest, hm, hf, hok, h]))
      · exact Or.inl (by simp [handleStaticRequest, hm, hf, hok])

/-- The storage the fetch listener leaves is the storage its handler leaves. -/
theorem fetchListener_storage (w : World) (s : CacheStorage) (request : Request) :
    (fetchListener w s request).storage =
      if isApiRequest request then (handleApiRequest w s request).storage
      else if isStaticRequest request then (handleStaticRequest w s request).storage
      else s := by
  by_cases hapi : isApiRequest request = true
  · simp [fetchListener, hapi, Outcome.respondWith]
  · by_cases hstatic : isStaticRequest request = true
    · simp [fetchListener, hapi, hstatic, Outcome.respondWith]
    · simp [fetchListener, hapi, hstatic]

/-- C30: whatever the request and whatever the network answers, an entry the
static partition holds before the fetch listener runs is held, with the same
stored response, afterwards: the API handler writes to the api partition only,
the cache-first handler writes only after `caches.match` missed the request,
the third branch writes nothing. -/
theorem fetchListener_keeps_static_entries (w : World) (s : CacheStorage) (request : Request)
    (u : Url) (d : ResponseData)
    (h : Cache.lookup (s.partition CACHE_NAME) u = some d) :
    Cache.lookup ((fetchListener w s request).storage.partition CACHE_NAME) u = some d := by
  rw [fetchListener_storage]
  by_cases hapi : isApiRequest request = true
  · rw [if_pos hapi]
    rcases handleApiRequest_storage_cases w s request with hs | hs | ⟨d2, hs⟩
    · rw [hs]; exact h
    · rw [hs, CacheStorage.partition_opened]; exact h
    · rw [hs, CacheStorage.partition_insert_other _ _ _ _ _ (by decide),
        CacheStorage.partition_opened]
      exact h
  · rw [if_neg hapi]
    by_cases hstatic : isStaticRequest request = true
    · rw [if_pos hstatic]
      rcases handleStaticRequest_storage_cases w s request with hs | hs | ⟨hget, hmiss, d2, hs⟩
      · rw [hs]; exact h
      · rw [hs, CacheStorage.partition_opened]; exact h
      · rw [hs, CacheStorage.partition_insert_self _ _ _ _
          (CacheStorage.has_opened_self s CACHE_NAME), CacheStorage.partition_opened]
        have hne : request.url.withoutFragment ≠ u := by
          intro heq
          have hsome := CacheStorage.lookup_isSome_of_partition s CACHE_NAME u d h
          rw [← heq] at hsome
          simp [cachesMatch, hget] at hmiss
          rw [hmiss] at hsome
          cases hsome
        rw [Cache.lookup_insert_other _ _ _ _ hne]
        exact h
    · rw [if_neg hstatic]
      exact h

/-- C30 exercised: with `/` cached, a navigation to `/dashboard` is fetched and
stored, and `/` is still served from the static partition as before. -/
theorem fetchListener_keeps_static_entries_witness :
    Cache.lookup
      ((fetchListener onlineWorld shellStorage
          (sampleRequest "/dashboard" "document")).storage.partition CACHE_NAME)
      { origin := sampleOrigin, pathname := "/", search := "", hash := "" } = some shellData ∧
    Cache.lookup
      ((fetchListener onlineWorld shellStorage
          (sampleRequest "/dashboard" "document")).storage.partition CACHE_NAME)
      (sampleRequest "/dashboard" "document").url
        = some { status := 200, headers := [], body := "fresh" } :=
  ⟨fetchListener_keeps_static_entries onlineWorld shellStorage
      (sampleRequest "/dashboard" "document")
      { origin := sampleOrigin, pathname := "/", search := "", hash := "" } shellData (by decide),
   by decide⟩

/-! ## The partition key invariant -/

/-- Opening a partition keeps the partition names distinct. -/
theorem CacheStorage.keys_opened_nodup (s : CacheStorage) (name : String)
    (h : s.keys.Nodup) : (s.opened name).keys.Nodup := by
  unfold CacheStorage.opened
  by_cases hs : s.has name = true
  · rw [if_pos hs]
    exact h
  · rw [if_neg hs]
    have hnot : name ∉ s.keys := by
      intro hmem
      obtain ⟨p, hp, hpn⟩ := List.mem_map.mp hmem
      apply hs
      simp only [CacheStorage.has, List.any_eq_true, decide_eq_true_eq]
      exact ⟨p, hp, hpn⟩
    simp only [CacheStorage.keys, List.map_append, List.map_cons, List.map_nil]
    rw [List.nodup_append]
    refine ⟨h, by simp, ?_⟩
    intro a ha hb
    have : a = name := by simpa using hb
    exact hnot (this ▸ ha)

/-- Opening one of the two current partitions keeps the invariant. -/
theorem KeyInvariant.opened_inv {s : CacheStorage} (h : KeyInvariant s) (name : String)
    (hname : name = CACHE_NAME ∨ name = API_CACHE_NAME) : KeyInvariant (s.opened name) := by
  refine ⟨CacheStorage.keys_opened_nodup s name h.1, ?_⟩
  unfold CacheStorage.opened
  by_cases hs : s.has name = true
  · rw [if_pos hs]
    exact h.2
  · rw [if_neg hs]
    intro p hp
    rcases List.mem_append.mp hp with hp | hp
    · exact h.2 p hp
    · have hpe : p = (name, []) := by simpa using hp
      subst hpe
      rcases hname with hn | hn
      · exact Or.inl ⟨hn, by intro e he; cases he⟩
      · exact Or.inr ⟨hn, by intro e he; cases he⟩

/-- An entry of a cache after puts was there before or is one of the entries
put. -/
theorem Cache.mem_insertAll (entries : List (Url × ResponseData)) :
    ∀ (c : Cache) (e : Url × ResponseData), e ∈ Cache.insertAll c entries →
      e ∈ c ∨ e ∈ entries := by
  induction entries with
  | nil => intro c e he; exact Or.inl he
  | cons x rest ih =>
    intro c e he
    obtain ⟨k, v⟩ := x
    rcases ih _ e he with h | h
    · simp only [Cache.insert, List.mem_append, List.mem_filter, List.mem_singleton] at h
      rcases h with h | h
      · exact Or.inl h.1
      · exact Or.inr (h ▸ List.mem_cons_self _ _)
    · exact Or.inr (List.mem_cons_of_mem _ h)

/-- Puts into a current partition of entries on the right side of `/api/` keep
the invariant. -/
theorem KeyInvariant.insertAll_inv {s : CacheStorage} (h : KeyInvariant s) (name : String)
    (entries : List (Url × ResponseData))
    (hentries :
      (name = CACHE_NAME ∧ ∀ e ∈ entries, startsWith e.1.pathname "/api/" = false) ∨
      (name = API_CACHE_NAME ∧ ∀ e ∈ entries, startsWith e.1.pathname "/api/" = true)) :
    KeyInvariant (s.insertAll name entries) := by
  refine ⟨by rw [CacheStorage.keys_insertAll]; exact h.1, ?_⟩
  intro p hp
  rw [CacheStorage.insertAll_eq_map] at hp
  obtain ⟨q, hq, rfl⟩ := List.mem_map.mp hp
  have hne : CACHE_NAME ≠ API_CACHE_NAME := by decide
  by_cases hn : q.1 = name
  · simp only [hn, if_true]
    rcases h.2 q hq with ⟨hqn, hqe⟩ | ⟨hqn, hqe⟩
    · rcases hentries with ⟨hname, he⟩ | ⟨hname, _⟩
      · refine Or.inl ⟨hname, ?_⟩
        intro e hmem
        rcases Cache.mem_insertAll entries q.2 e hmem with h1 | h1
        · exact hqe e h1
        · exact he e h1
      · exact absurd (hqn.symm.trans (hn.trans hname)) hne
    · rcases hentries with ⟨hname, _⟩ | ⟨hname, he⟩
      · exact absurd (hname.symm.trans (hn.symm.trans hqn)) hne
      · refine Or.inr ⟨hname, ?_⟩
        intro e hmem
        rcases Cache.mem_insertAll entries q.2 e hmem with h1 | h1
        · exact hqe e h1
        · exact he e h1
  · simp only [hn, if_false]
    exact h.2 q hq

/-- Removing partitions keeps the invariant. -/
theorem KeyInvariant.filter_inv {s : CacheStorage} (h : KeyInvariant s)
    (keep : String × Cache → Bool) : KeyInvariant (s.filter keep) := by
  refine ⟨List.Nodup.sublist (List.Sublist.map _ (List.filter_sublist _)) h.1, ?_⟩
  intro p hp
  exact h.2 p (List.mem_filter.mp hp).1

/-- The keys install puts into the static partition are not under `/api/`. -/
theorem manifest_entries_not_api (w : World) (entries : List (Url × ResponseData))
    (hf : fetchAllOk w (STATIC_CACHE_URLS.map w.reloadRequest) = .ok entries) :
    ∀ e ∈ entries, startsWith e.1.pathname "/api/" = false := by
  intro e he
  have hkey : e.1 ∈ entries.map (fun x => x.1) := List.mem_map_of_mem (fun x => x.1) he
  rw [fetchAllOk_keys w _ entries hf, List.map_map] at hkey
  obtain ⟨u, hu, hue⟩ := List.mem_map.mp hkey
  have hall : ∀ a ∈ STATIC_CACHE_URLS, startsWith a "/api/" = false := by decide
  rw [← hue]
  exact hall u hu

/-- The keys install puts into the api partition are under `/api/`. -/
theorem prewarmEntries_api (w : World) :
    ∀ e ∈ prewarmEntries w, startsWith e.1.pathname "/api/" = true := by
  intro e he
  obtain ⟨a, ha, hk, _⟩ := prewarmEntries_key_mem w e.1
    (List.mem_map_of_mem (fun x => x.1) he)
  have hall : ∀ a ∈ API_CACHE_URLS, startsWith a "/api/" = true := by decide
  rw [hk]
  exact hall a ha

/-- Install keeps the invariant. -/
theorem KeyInvariant.install_inv {s : CacheStorage} (h : KeyInvariant s) (w : World) :
    KeyInvariant (install w s).storage := by
  have hopened : KeyInvariant ((s.opened CACHE_NAME).opened API_CACHE_NAME) :=
    (h.opened_inv CACHE_NAME (Or.inl rfl)).opened_inv API_CACHE_NAME (Or.inr rfl)
  cases hf : fetchAllOk w (STATIC_CACHE_URLS.map w.reloadRequest) with
  | ok entries =>
    rw [(install_storage_of_ok w s entries hf).2.2]
    exact (hopened.insertAll_inv CACHE_NAME entries
      (Or.inl ⟨rfl, manifest_entries_not_api w entries hf⟩)).insertAll_inv API_CACHE_NAME _
      (Or.inr ⟨rfl, prewarmEntries_api w⟩)
  | error e =>
    rw [(install_storage_of_error w s e hf).2.2]
    exact hopened.insertAll_inv API_CACHE_NAME _ (Or.inr ⟨rfl, prewarmEntries_api w⟩)

/-- The fetch listener keeps the invariant. -/
theorem KeyInvariant.fetch_inv {s : CacheStorage} (h : KeyInvariant s) (w : World)
    (request : Request) : KeyInvariant (fetchListener w s request).storage := by
  rw [fetchListener_storage]
  by_cases hapi : isApiRequest request = true
  · rw [if_pos hapi]
    rcases handleApiRequest_storage_cases w s request with hs | hs | ⟨d, hs⟩
    · rw [hs]; exact h
    · rw [hs]; exact h.opened_inv API_CACHE_NAME (Or.inr rfl)
    · rw [hs]
      exact (h.opened_inv API_CACHE_NAME (Or.inr rfl)).insertAll_inv API_CACHE_NAME
        [(request.url.withoutFragment, d)] (Or.inr ⟨rfl, by
          intro e he
          have : e = (request.url.withoutFragment, d) := by simpa using he
          subst this
          exact hapi⟩)
  · rw [if_neg hapi]
    have hapi2 : startsWith request.url.pathname "/api/" = false := by
      simpa [isApiRequest] using hapi
    by_cases hstatic : isStaticRequest request = true
    · rw [if_pos hstatic]
      rcases handleStaticRequest_storage_cases w s request with hs | hs | ⟨_, _, d, hs⟩
      · rw [hs]; exact h
      · rw [hs]; exact h.opened_inv CACHE_NAME (Or.inl rfl)
      · rw [hs]
        exact (h.opened_inv CACHE_NAME (Or.inl rfl)).insertAll_inv CACHE_NAME
          [(request.url.withoutFragment, d)] (Or.inl ⟨rfl, by
            intro e he
            have : e = (request.url.withoutFragment, d) := by simpa using he
            subst this
            exact hapi2⟩)
    · rw [if_neg hstatic]
      exact h

/-- Every storage the router reaches satisfies the partition key invariant. -/
theorem Reachable.keyInvariant {s : CacheStorage} (h : Reachable s) : KeyInvariant s := by
  induction h with
  | empty => exact ⟨List.nodup_nil, by intro p hp; cases hp⟩
  | install w s _ ih => exact ih.install_inv w
  | activate s _ ih =>
    rw [activate_storage_eq_filter]
    exact ih.filter_inv _
  | fetch w s request _ ih => exact ih.fetch_inv w request

/-- A storage answers a lookup with nothing when none of its partitions has an
entry for the URL. -/
theorem CacheStorage.lookup_eq_none_of_forall (s : CacheStorage) (u : Url)
    (h : ∀ p ∈ s, Cache.lookup p.2 u = none) : s.lookup u = none := by
  induction s with
  | nil => rfl
  | cons p rest ih =>
    obtain ⟨pn, pc⟩ := p
    have hp : Cache.lookup pc u = none := h (pn, pc) (List.mem_cons_self _ _)
    simp [CacheStorage.lookup, hp, ih (fun q hq => h q (List.mem_cons_of_mem _ hq))]

/-- With distinct partition names, when no other partition has an entry for a
URL the lookup over all partitions is the lookup in the one partition. -/
theorem CacheStorage.lookup_eq_partition (n : String) (u : Url) (s : CacheStorage)
    (hnodup : s.keys.Nodup) (hother : ∀ p ∈ s, p.1 ≠ n → Cache.lookup p.2 u = none) :
    s.lookup u = Cache.lookup (s.partition n) u := by
  induction s with
  | nil => rfl
  | cons p rest ih =>
    obtain ⟨pn, pc⟩ := p
    have hnd : pn ∉ CacheStorage.keys rest ∧ (CacheStorage.keys rest).Nodup := by
      simpa [CacheStorage.keys] using hnodup
    by_cases hp : pn = n
    · cases hc : Cache.lookup pc u with
      | some v => simp [CacheStorage.lookup, CacheStorage.partition, hp, hc]
      | none =>
        have hrest : CacheStorage.lookup rest u = none := by
          apply CacheStorage.lookup_eq_none_of_forall
          intro q hq
          apply hother q (List.mem_cons_of_mem _ hq)
          intro hqn
          exact hnd.1 (List.mem_map.mpr ⟨q, hq, hqn.trans hp.symm⟩)
        simp [CacheStorage.lookup, CacheStorage.partition, hp, hc, hrest]
    · have hc : Cache.lookup pc u = none := hother (pn, pc) (List.mem_cons_self _ _) hp
      simp only [CacheStorage.lookup, hc, CacheStorage.partition, hp, if_false]
      exact ih hnd.2 (fun q hq => hother q (List.mem_cons_of_mem _ hq))

/-- Under the invariant, the lookup of a URL over all partitions is the lookup
in the partition on its side of `/api/`. -/
theorem KeyInvariant.lookup_own {s : CacheStorage} (h : KeyInvariant s) (u : Url) :
    s.lookup u =
      Cache.lookup
        (s.partition (if startsWith u.pathname "/api/" then API_CACHE_NAME else CACHE_NAME)) u := by
  apply CacheStorage.lookup_eq_partition _ u s h.1
  intro p hp hne
  cases hl : Cache.lookup p.2 u with
  | none => rfl
  | some d =>
    have hmem := Cache.lookup_mem_entries p.2 u d hl
    by_cases hu : startsWith u.pathname "/api/" = true
    · rw [if_pos hu] at hne
      rcases h.2 p hp with ⟨_, hpe⟩ | ⟨hpn, _⟩
      · have := hpe (u, d) hmem
        rw [hu] at this
        cases this
      · exact absurd hpn hne
    · rw [if_neg hu] at hne
      rcases h.2 p hp with ⟨hpn, _⟩ | ⟨_, hpe⟩
      · exact absurd hpn hne
      · exact absurd (hpe (u, d) hmem) hu

/-- An entry of the partition of a name is an entry of a partition with that
name. -/
theorem CacheStorage.mem_partition (s : CacheStorage) (n : String) (e : Url × ResponseData)
    (h : e ∈ s.partition n) : ∃ p ∈ s, p.1 = n ∧ e ∈ p.2 := by
  induction s with
  | nil => simp [CacheStorage.partition] at h
  | cons p rest ih =>
    obtain ⟨pn, pc⟩ := p
    by_cases hp : pn = n
    · simp only [CacheStorage.partition, hp, if_true] at h
      exact ⟨(pn, pc), List.mem_cons_self _ _, hp, h⟩
    · simp only [CacheStorage.partition, hp, if_false] at h
      obtain ⟨q, hq, hqn, hqe⟩ := ih h
      exact ⟨q, List.mem_cons_of_mem _ hq, hqn, hqe⟩

/-- C22: in every storage the router reaches from an empty cache storage, the
lookup `caches.match(request)` that `handleApiRequest` falls back to answers,
for an API-class request, what a lookup in the api partition alone answers,
and the lookups of `handleStaticRequest`, of a static-class request and of the
root document, answer what a lookup in the static partition alone answers. -/
theorem reachable_lookup_own_partition (s : CacheStorage) (hreach : Reachable s)
    (w : World) (request : Request) :
    (isApiRequest request = true →
      cachesMatch w s request = specPartitionMatch w s API_CACHE_NAME request) ∧
    (isApiRequest request = false → isStaticRequest request = true →
      cachesMatch w s request = specPartitionMatch w s CACHE_NAME request) ∧
    (∀ w2 : World,
      cachesMatch w2 s (w2.request "/") = specPartitionMatch w2 s CACHE_NAME (w2.request "/")) := by
  have hinv := hreach.keyInvariant
  refine ⟨?_, ?_, ?_⟩
  · intro hapi
    have hu : startsWith request.url.withoutFragment.pathname "/api/" = true := hapi
    simp only [cachesMatch, specPartitionMatch, hinv.lookup_own request.url.withoutFragment, hu,
      if_true]
  · intro hapi _
    have hu : startsWith request.url.withoutFragment.pathname "/api/" = false := hapi
    simp only [cachesMatch, specPartitionMatch, hinv.lookup_own request.url.withoutFragment, hu]
    rfl
  · intro w2
    have hu : startsWith (w2.request "/").url.withoutFragment.pathname "/api/" = false := by
      show startsWith "/" "/api/" = false
      decide
    simp only [cachesMatch, specPartitionMatch,
      hinv.lookup_own (w2.request "/").url.withoutFragment, hu]
    rfl

/-- C22 exercised: after an install and a fetch of `/api/protocols`, the
fallback lookup of that request finds what the api partition holds. -/
theorem reachable_lookup_own_partition_witness :
    cachesMatch onlineWorld (fetchListener onlineWorld (install onlineWorld []).storage
        (sampleRequest "/api/protocols" "")).storage (sampleRequest "/api/protocols" "")
      = specPartitionMatch onlineWorld (fetchListener onlineWorld (install onlineWorld []).storage
          (sampleRequest "/api/protocols" "")).storage API_CACHE_NAME
          (sampleRequest "/api/protocols" "") :=
  (reachable_lookup_own_partition _
    (Reachable.fetch onlineWorld _ (sampleRequest "/api/protocols" "")
      (Reachable.install onlineWorld [] Reachable.empty))
    onlineWorld (sampleRequest "/api/protocols" "")).1 (by decide)

/-- C28: in every storage the router reaches from an empty cache storage, every
key of the api partition has a path starting with `/api/`, every key of the
static partition has a path not starting with `/api/`, and so no URL is a key of
both partitions. -/
theorem reachable_partition_keys (s : CacheStorage) (hreach : Reachable s) :
    (∀ e ∈ s.partition API_CACHE_NAME, startsWith e.1.pathname "/api/" = true) ∧
    (∀ e ∈ s.partition CACHE_NAME, startsWith e.1.pathname "/api/" = false) ∧
    (∀ u, ¬ (u ∈ Cache.keys (s.partition API_CACHE_NAME) ∧
             u ∈ Cache.keys (s.partition CACHE_NAME))) := by
  have hinv := hreach.keyInvariant
  have hne : CACHE_NAME ≠ API_CACHE_NAME := by decide
  have hapi : ∀ e ∈ s.partition API_CACHE_NAME, startsWith e.1.pathname "/api/" = true := by
    intro e he
    obtain ⟨p, hp, hpn, hpe⟩ := CacheStorage.mem_partition s _ e he
    rcases hinv.2 p hp with ⟨hc, _⟩ | ⟨_, hall⟩
    · exact absurd (hc.symm.trans hpn) hne
    · exact hall e hpe
  have hstatic : ∀ e ∈ s.partition CACHE_NAME, startsWith e.1.pathname "/api/" = false := by
    intro e he
    obtain ⟨p, hp, hpn, hpe⟩ := CacheStorage.mem_partition s _ e he
    rcases hinv.2 p hp with ⟨_, hall⟩ | ⟨hc, _⟩
    · exact hall e hpe
    · exact absurd (hpn.symm.trans hc) hne
  refine ⟨hapi, hstatic, ?_⟩
  rintro u ⟨h1, h2⟩
  obtain ⟨e1, he1, rfl⟩ := List.mem_map.mp h1
  obtain ⟨e2, he2, heq⟩ := List.mem_map.mp h2
  have ht := hapi e1 he1
  have hf := hstatic e2 he2
  rw [heq, ht] at hf
  cases hf

/-- C28 exercised: after an install and a fetch of the dashboard, the URL
`/api/protocols` is a key of the api partition and not of the static one. -/
theorem reachable_partition_keys_witness :
    onlineWorld.resolve "/api/protocols" ∈
      Cache.keys ((fetchListener onlineWorld (install onlineWorld []).storage
        (sampleRequest "/dashboard" "document")).storage.partition API_CACHE_NAME) ∧
    ¬ (onlineWorld.resolve "/api/protocols" ∈
        Cache.keys ((fetchListener onlineWorld (install onlineWorld []).storage
          (sampleRequest "/dashboard" "document")).storage.partition API_CACHE_NAME) ∧
       onlineWorld.resolve "/api/protocols" ∈
        Cache.keys ((fetchListener onlineWorld (install onlineWorld []).storage
          (sampleRequest "/dashboard" "document")).storage.partition CACHE_NAME)) :=
  ⟨by decide,
   (reachable_partition_keys _
    (Reachable.fetch onlineWorld _ (sampleRequest "/dashboard" "document")
      (Reachable.install onlineWorld [] Reachable.empty))).2.2 _⟩

end ServiceWorker
